import Mathlib

/-!
# Vnode pool and path walker of `fs/vfs/vnode.c`

A shallow embedding of the vnode cache of `src/fs/vfs/vnode.c`.

* A `struct Vnode *` is an address: an index into `State.heap`.  A slot that
  holds `none` (or an index past the end) is memory that is not a vnode, and a
  function that dereferences such an address, or a NULL pointer, yields `none`.
* The three intrusive lists are lists of addresses, head first.
* `int` globals and fields are `Int`; status codes are the negated errno values.
* Collaborators that live outside `vnode.c` (allocator, path normaliser, permission
  check, filesystem drivers) are fields of `Env`.
-/

namespace Vfs

/-! ## Constants -/

def LOS_OK : Int := 0
def ENOENT : Int := 2
def ENOMEM : Int := 12
def EACCES : Int := 13
def EBUSY : Int := 16
def ENOTDIR : Int := 20
def EINVAL : Int := 22
def ENAMETOOLONG : Int := 36
def ENOSYS : Int := 38

/-- Batch size of one reclaim pass: `#define VNODE_LRU_COUNT 10`. -/
def VNODE_LRU_COUNT : Int := 10

/-- Modelled from the spec: `vnode.h` is not part of the sources; the flag
`MountNew` (root of a child mount) is one bit of `flag`. -/
def VNODE_FLAG_MOUNT_NEW : Nat := 1

/-- Modelled from the spec: `vnode.h` is not part of the sources; the flag
`MountOrigin` (covered by a child mount) is another bit of `flag`. -/
def VNODE_FLAG_MOUNT_ORIGIN : Nat := 2

/-- Modelled from the spec: lookup flag `CREATE`, one bit of `flags`. -/
def V_CREATE : Nat := 1

/-- Modelled from the spec: lookup flag `DUMMY`, another bit of `flags`. -/
def V_DUMMY : Nat := 4

def S_IFMT : Nat := 0o170000
def S_IFDIR : Nat := 0o040000
def S_IRWXU : Nat := 0o700
def S_IRWXG : Nat := 0o070
def S_IRWXO : Nat := 0o007

/-- Device directory permissions: `#define DEV_VNODE_MODE 0755`. -/
def DEV_VNODE_MODE : Nat := 0o755

/-! ## Data model -/

/-- Modelled from the spec: `enum VnodeType` of `vnode.h`; the zero value is
`VNODE_TYPE_UNKNOWN`. -/
inductive VnodeType where
  | VNODE_TYPE_UNKNOWN
  | VNODE_TYPE_REG
  | VNODE_TYPE_DIR
  | VNODE_TYPE_BLK
  | VNODE_TYPE_CHR
  | VNODE_TYPE_FIFO
  | VNODE_TYPE_LNK
  | VNODE_TYPE_SOCK
  deriving DecidableEq, Repr

open VnodeType

/-- Fields of `struct Vnode` that `vnode.c` reads or writes.  Pointers are
`Option Nat` (`none` is NULL); `data` is an opaque word. The link fields
(`actFreeEntry`, `hashEntry`, the path-cache heads) are represented by the lists
of `State`. -/
structure Vnode where
  type : VnodeType
  useCount : Int
  uid : Nat
  gid : Nat
  mode : Nat
  parent : Option Nat
  vop : Option Nat
  fop : Option Nat
  data : Nat
  flag : Nat
  originMount : Option Nat
  newMount : Option Nat
  filePath : Option (List Char)
  mappingHost : Option Nat
  deriving DecidableEq, Repr

/-- The all-zero vnode: what `zalloc` returns and what `memset_s(.., 0, ..)` leaves. -/
def zeroVnode : Vnode where
  type := VNODE_TYPE_UNKNOWN
  useCount := 0
  uid := 0
  gid := 0
  mode := 0
  parent := none
  vop := none
  fop := none
  data := 0
  flag := 0
  originMount := none
  newMount := none
  filePath := none
  mappingHost := none

/-- Modelled from the spec: the path cache is a collaborator outside `vnode.c`;
one entry records `(parent, name) → child`. -/
structure PathCache where
  parentVnode : Nat
  childVnode : Nat
  name : List Char
  deriving DecidableEq, Repr

/-- Modelled from the spec: the mount record exposes `vnode_covered` (the mounted
root) and `vnode_be_covered` (the covered point). -/
structure Mount where
  vnodeBeCovered : Option Nat
  vnodeCovered : Option Nat
  deriving DecidableEq, Repr

/-- Global state of `vnode.c` together with the memory it points into.
`literalPaths` records the provenance that the text of a path does not show: the
vnodes whose `filePath` was assigned the string literal `"/"` (line 68), so that
the field, while it is not NULL, points at static storage and not into the heap. -/
structure State where
  heap : List (Option Vnode)
  g_vnodeFreeList : List Nat
  g_vnodeVirtualList : List Nat
  g_vnodeActiveList : List Nat
  g_freeVnodeSize : Int
  g_totalVnodeSize : Int
  g_rootVnode : Option Nat
  pathCache : List PathCache
  mounts : List Mount
  literalPaths : List Nat
  deriving DecidableEq, Repr

/-- The operations of `struct VnodeOps` that `vnode.c` dispatches through.
`Lookup parent name len` runs in a state and yields a status, the vnode it
stored through its out parameter, and the new state.  `Reclaim` is the driver
hook that releases the private `data` word. -/
structure VnodeOps where
  Lookup : Option (State → Nat → List Char → Nat → Int × Option Nat × State)
  Reclaim : Option (Nat → Nat)

/-- Collaborators and configuration outside `vnode.c`. -/
structure Env where
  LOSCFG_MAX_VNODE_SIZE : Nat
  zallocOk : State → Bool
  mallocOk : State → Bool
  vfs_normalize_path : List Char → Except Int (List Char)
  VfsVnodePermissionCheck : State → Option Nat → Bool
  driverOps : Nat → VnodeOps
  uninitRet : Int

/-- The state before `VnodesInit`: zero-initialised globals, no vnode allocated. -/
def bootState : State where
  heap := []
  g_vnodeFreeList := []
  g_vnodeVirtualList := []
  g_vnodeActiveList := []
  g_freeVnodeSize := 0
  g_totalVnodeSize := 0
  g_rootVnode := none
  pathCache := []
  mounts := []
  literalPaths := []

/-! ## Memory access -/

/-- Dereference a vnode address. -/
def State.vnode (s : State) (p : Nat) : Option Vnode :=
  s.heap.getD p none

/-- Store a vnode at an address. -/
def State.setVnode (s : State) (p : Nat) (vn : Vnode) : State :=
  { s with heap := s.heap.set p (some vn) }

/-- Test of one flag bit: `flag & bit`. -/
def hasFlag (flag bit : Nat) : Bool :=
  (flag &&& bit) != 0

/-- Unlink `vnode->actFreeEntry` from the list it is on.  The link field is shared
by the three lists, so the address disappears from whichever list holds it. -/
def LOS_ListDelete (s : State) (v : Nat) : State :=
  { s with
    g_vnodeFreeList := s.g_vnodeFreeList.filter (fun w => w != v)
    g_vnodeVirtualList := s.g_vnodeVirtualList.filter (fun w => w != v)
    g_vnodeActiveList := s.g_vnodeActiveList.filter (fun w => w != v) }

/-- Modelled from the spec: `VnodePathCacheFree` flushes the parent and child
path-cache entries that reference the vnode. -/
def VnodePathCacheFree (s : State) (v : Nat) : State :=
  { s with pathCache := s.pathCache.filter (fun pc => pc.parentVnode != v && pc.childVnode != v) }

/-! ## The built-in device operations -/

/-- Address of the static table `g_devfsOps`. -/
def g_devfsOps : Nat := 0

/-- The device `Lookup`: always `-ENOENT`, nothing stored. -/
def VnodeDevLookup (s : State) (_parentVnode : Nat) (_path : List Char) (_len : Nat) :
    Int × Option Nat × State :=
  (-ENOENT, none, s)

/-- Contents of `g_devfsOps`: it has a `Lookup` and no `Reclaim`. -/
def devfsOpsTable : VnodeOps where
  Lookup := some VnodeDevLookup
  Reclaim := none

/-- Dereference a `struct VnodeOps *`. -/
def opsAt (env : Env) (p : Nat) : VnodeOps :=
  if p = g_devfsOps then devfsOpsTable else env.driverOps p

/-- Effect of `vnode->vop->Reclaim(vnode)` on the vnode, when the hook is set. -/
def callReclaim (ops : VnodeOps) (vn : Vnode) : Vnode :=
  match ops.Reclaim with
  | some f => { vn with data := f vn.data }
  | none => vn

/-! ## Vnode pool -/

/-- Embedding of `GetFromFreeList` (lines 73-90). -/
def GetFromFreeList (s : State) : Option Nat × State :=
  if s.g_freeVnodeSize ≤ 0 then (none, s)
  else
    match s.g_vnodeFreeList with
    | [] => (none, { s with g_freeVnodeSize := 0 })
    | v :: _ =>
      let s1 := LOS_ListDelete s v
      (some v, { s1 with g_freeVnodeSize := s1.g_freeVnodeSize - 1 })

/-- Embedding of `VnodeFree` (lines 171-208).  After the `Reclaim` hook comes
`if (vnode->filePath) free(vnode->filePath)` (lines 191-193): releasing a heap
string leaves the state of `vnode.c` as it is, while `free` on the string literal
of `VnodesInit` is undefined (`none`).  The `free(vnode)` or `memset_s` that follows
ends the vnode's hold on its path. -/
def VnodeFree (env : Env) (s : State) (vnode : Option Nat) : Option (Int × State) :=
  match vnode with
  | none => some (LOS_OK, s)
  | some p =>
    match s.vnode p with
    | none => none
    | some vn =>
      if vn.useCount > 0 then some (-EBUSY, s)
      else
        let s1 := LOS_ListDelete (VnodePathCacheFree s p) p
        match vn.vop with
        | none => none
        | some op =>
          let vn1 := callReclaim (opsAt env op) vn
          if vn1.filePath ≠ none ∧ p ∈ s1.literalPaths then none
          else
            let s2 := { s1 with literalPaths := s1.literalPaths.filter (fun w => w != p) }
            if vn1.vop = some g_devfsOps then
              some (LOS_OK, { s2 with
                heap := s2.heap.set p none
                g_totalVnodeSize := s2.g_totalVnodeSize - 1 })
            else
              let s3 := s2.setVnode p zeroVnode
              some (LOS_OK, { s3 with
                g_vnodeFreeList := p :: s3.g_vnodeFreeList
                g_freeVnodeSize := s3.g_freeVnodeSize + 1 })

/-- Loop test of `VnodeReclaimLru`: the vnode is pinned or carries a mount flag. -/
def skipReclaim (vn : Vnode) : Bool :=
  decide (vn.useCount > 0) || hasFlag vn.flag VNODE_FLAG_MOUNT_ORIGIN ||
    hasFlag vn.flag VNODE_FLAG_MOUNT_NEW

/-- The `LOS_DL_LIST_FOR_EACH_ENTRY_SAFE` loop of `VnodeReclaimLru` over the
remaining entries of the active list; the body unlinks at most the current
entry, so the entries visited are those of the list at loop entry. -/
def reclaimLoop (env : Env) : List Nat → State → Int → Option (Int × State)
  | [], s, releaseCount => some (releaseCount, s)
  | item :: rest, s, releaseCount =>
    match s.vnode item with
    | none => none
    | some vn =>
      if skipReclaim vn then reclaimLoop env rest s releaseCount
      else
        match VnodeFree env s (some item) with
        | none => none
        | some (ret, s1) =>
          let releaseCount1 := if ret = LOS_OK then releaseCount + 1 else releaseCount
          if releaseCount1 ≥ VNODE_LRU_COUNT then some (releaseCount1, s1)
          else reclaimLoop env rest s1 releaseCount1

/-- Embedding of `VnodeReclaimLru` (lines 92-123). -/
def VnodeReclaimLru (env : Env) (s : State) : Option (Option Nat × State) :=
  match reclaimLoop env s.g_vnodeActiveList s 0 with
  | none => none
  | some (releaseCount, s1) =>
    if releaseCount = 0 then some (none, s1)
    else some (GetFromFreeList s1)

/-- The `zalloc` call and the increment that follows it (lines 132-133): a fresh
zeroed slot at a new address when the allocator succeeds, NULL otherwise. -/
def zallocVnode (env : Env) (s : State) : Option Nat × State :=
  if env.zallocOk s then
    (some s.heap.length,
      { s with heap := s.heap ++ [some zeroVnode], g_totalVnodeSize := s.g_totalVnodeSize + 1 })
  else
    (none, { s with g_totalVnodeSize := s.g_totalVnodeSize + 1 })

/-- Slot selection of `VnodeAlloc` (lines 130-138). -/
def allocSlot (env : Env) (s : State) : Option (Option Nat × State) :=
  let r0 := GetFromFreeList s
  let r1 :=
    if r0.1 = none ∧ r0.2.g_totalVnodeSize < (env.LOSCFG_MAX_VNODE_SIZE : Int) then
      zallocVnode env r0.2
    else r0
  if r1.1 = none then VnodeReclaimLru env r1.2 else some r1

/-- Initialisation and enrolment of the chosen slot in `VnodeAlloc` (lines 146-168). -/
def enrolVnode (s : State) (vop : Option Nat) (p : Nat) : Option State :=
  match s.vnode p with
  | none => none
  | some vn =>
    match vop with
    | none =>
      let s1 := s.setVnode p
        { vn with type := VNODE_TYPE_UNKNOWN, vop := some g_devfsOps, mappingHost := some p }
      some { s1 with g_vnodeVirtualList := p :: s1.g_vnodeVirtualList }
    | some op =>
      let s1 := s.setVnode p
        { vn with type := VNODE_TYPE_UNKNOWN, vop := some op, mappingHost := some p }
      some { s1 with g_vnodeActiveList := s1.g_vnodeActiveList ++ [p] }

/-- Embedding of `VnodeAlloc` (lines 125-169): status, `*newVnode`, new state. -/
def VnodeAlloc (env : Env) (s : State) (vop : Option Nat) : Option (Int × Option Nat × State) :=
  match allocSlot env s with
  | none => none
  | some (none, s1) => some (-ENOMEM, none, s1)
  | some (some p, s1) =>
    match enrolVnode s1 vop p with
    | none => none
    | some s2 => some (LOS_OK, some p, s2)

/-- The `LOS_DL_LIST_FOR_EACH_ENTRY_SAFE` loop of `VnodeFreeAll`. -/
def freeAllLoop (env : Env) (mount : Option Nat) : List Nat → State → Option (Int × State)
  | [], s => some (LOS_OK, s)
  | vnode :: rest, s =>
    match s.vnode vnode with
    | none => none
    | some vn =>
      if vn.originMount = mount ∧ ¬ hasFlag vn.flag VNODE_FLAG_MOUNT_NEW then
        match VnodeFree env s (some vnode) with
        | none => none
        | some (ret, s1) =>
          if ret ≠ LOS_OK then some (ret, s1) else freeAllLoop env mount rest s1
      else freeAllLoop env mount rest s

/-- Embedding of `VnodeFreeAll` (lines 210-226). -/
def VnodeFreeAll (env : Env) (s : State) (mount : Option Nat) : Option (Int × State) :=
  freeAllLoop env mount s.g_vnodeActiveList s

/-- The `LOS_DL_LIST_FOR_EACH_ENTRY` loop of `VnodeInUseIter`. -/
def inUseLoop (s : State) (mount : Option Nat) : List Nat → Option Bool
  | [] => some false
  | vnode :: rest =>
    match s.vnode vnode with
    | none => none
    | some vn =>
      if vn.originMount = mount ∧
          (vn.useCount > 0 ∨ hasFlag vn.flag VNODE_FLAG_MOUNT_ORIGIN = true) then
        some true
      else inUseLoop s mount rest

/-- Embedding of `VnodeInUseIter` (lines 228-240). -/
def VnodeInUseIter (s : State) (mount : Option Nat) : Option Bool :=
  inUseLoop s mount s.g_vnodeActiveList

/-- Embedding of `VnodesInit` (lines 50-71), the mutex creation succeeding. -/
def VnodesInit (env : Env) (s : State) : Option (Int × State) :=
  let s0 := { s with g_vnodeFreeList := [], g_vnodeVirtualList := [], g_vnodeActiveList := [] }
  match VnodeAlloc env s0 none with
  | none => none
  | some (retval, newVnode, s1) =>
    let s2 := { s1 with g_rootVnode := newVnode }
    if retval ≠ LOS_OK then some (retval, s2)
    else
      match newVnode with
      | none => none
      | some root =>
        match s2.vnode root with
        | none => none
        | some vn =>
          let s3 := s2.setVnode root
            { vn with
              mode := S_IRWXU ||| S_IRWXG ||| S_IRWXO ||| S_IFDIR
              type := VNODE_TYPE_DIR
              filePath := some ['/'] }
          some (LOS_OK, { s3 with literalPaths := root :: s3.literalPaths })

/-! ## Path walker -/

/-- First loop of `NextName`: skip a run of `/`. -/
def skipSlashes : List Char → List Char
  | [] => []
  | c :: rest => if c = '/' then skipSlashes rest else c :: rest

/-- Second loop of `NextName`: number of characters up to the next `/` or the end. -/
def segmentLength : List Char → Nat
  | [] => 0
  | c :: rest => if c = '/' then 0 else segmentLength rest + 1

/-- Embedding of `NextName` (lines 260-275).  A `char *` into the path is the
suffix it points at; the result is the start of the segment and the value stored
in the `uint8_t` out parameter. -/
def NextName (pos : List Char) : Option (List Char × Nat) :=
  match skipSlashes pos with
  | [] => none
  | c :: rest => some (c :: rest, segmentLength (c :: rest) % 256)

/-- Embedding of `PreProcess` (lines 277-289): status, start vnode, path. -/
def PreProcess (env : Env) (s : State) (originPath : List Char) :
    Int × Option Nat × Option (List Char) :=
  match env.vfs_normalize_path originPath with
  | .ok absolutePath => (LOS_OK, s.g_rootVnode, some absolutePath)
  | .error ret => (ret, none, none)

/-- Embedding of `ConvertVnodeIfMounted` (lines 291-297). -/
def ConvertVnodeIfMounted (s : State) (vnode : Option Nat) : Option (Option Nat) :=
  match vnode with
  | none => some none
  | some p =>
    match s.vnode p with
    | none => none
    | some vn =>
      if ¬ hasFlag vn.flag VNODE_FLAG_MOUNT_ORIGIN then some (some p)
      else
        match vn.newMount with
        | none => none
        | some m =>
          match s.mounts[m]? with
          | none => none
          | some mnt => some mnt.vnodeCovered

/-- Embedding of `RefreshLRU` (lines 299-307). -/
def RefreshLRU (s : State) (vnode : Option Nat) : Option State :=
  match vnode with
  | none => some s
  | some p =>
    match s.vnode p with
    | none => none
    | some vn =>
      if (vn.type ≠ VNODE_TYPE_REG ∧ vn.type ≠ VNODE_TYPE_DIR) ∨
          vn.vop = some g_devfsOps ∨ vn.vop = none then some s
      else
        let s1 := LOS_ListDelete s p
        some { s1 with g_vnodeActiveList := s1.g_vnodeActiveList ++ [p] }

/-- Embedding of `ProcessVirtualVnode` (lines 309-320): status, `*vnode`, state. -/
def ProcessVirtualVnode (env : Env) (s : State) (parent : Nat) (flags : Nat) :
    Option (Int × Option Nat × State) :=
  if hasFlag flags V_CREATE then
    match VnodeAlloc env s none with
    | none => none
    | some (ret, vnode, s1) =>
      if ret = LOS_OK then
        match vnode with
        | none => none
        | some v =>
          match s1.vnode v with
          | none => none
          | some vn => some (ret, vnode, s1.setVnode v { vn with parent := some parent })
      else some (ret, vnode, s1)
  else some (-ENOENT, none, s)

/-- Modelled from the spec: `PathCacheLookup` of the path cache, a collaborator
outside `vnode.c`: the child recorded for `(parent, name)`, or a miss. -/
def PathCacheLookup (s : State) (parent : Nat) (name : List Char) (len : Nat) : Option Nat :=
  (s.pathCache.find? (fun pc => pc.parentVnode == parent && pc.name == name.take len)).map
    (fun pc => pc.childVnode)

/-- Modelled from the spec: `PathCacheAlloc` of the path cache, a collaborator
outside `vnode.c`: record `(parent, name) → child`. -/
def PathCacheAlloc (s : State) (parent : Nat) (vnode : Option Nat) (name : List Char)
    (len : Nat) : State :=
  match vnode with
  | none => s
  | some child =>
    { s with pathCache :=
        { parentVnode := parent, childVnode := child, name := name.take len } :: s.pathCache }

/-- The dispatch of `Step` on a path-cache miss (lines 344-358). -/
def stepDispatch (env : Env) (s : State) (cur : Nat) (nextDir : List Char) (len : Nat)
    (flags : Nat) : Option (Int × Option Nat × State) :=
  match s.vnode cur with
  | none => none
  | some vn =>
    let s1 := s.setVnode cur { vn with useCount := vn.useCount + 1 }
    let r :=
      if hasFlag flags V_DUMMY then ProcessVirtualVnode env s1 cur flags
      else
        match vn.vop with
        | none => some (-ENOSYS, none, s1)
        | some op =>
          match (opsAt env op).Lookup with
          | none => some (-ENOSYS, none, s1)
          | some f => some (f s1 cur nextDir len)
    match r with
    | none => none
    | some (ret, nextVnode, s2) =>
      match s2.vnode cur with
      | none => none
      | some vn2 =>
        let s3 := s2.setVnode cur { vn2 with useCount := vn2.useCount - 1 }
        if ret = LOS_OK then some (ret, nextVnode, PathCacheAlloc s3 cur nextVnode nextDir len)
        else some (ret, nextVnode, s3)

/-- Embedding of `Step` (lines 322-370): status, `*currentDir`, `*currentVnode`, state. -/
def Step (env : Env) (s : State) (currentDir : List Char) (currentVnode : Option Nat)
    (flags : Nat) : Option (Int × Option (List Char) × Option Nat × State) :=
  match currentVnode with
  | none => none
  | some cur =>
    match s.vnode cur with
    | none => none
    | some vn =>
      if vn.type ≠ VNODE_TYPE_DIR then some (-ENOTDIR, some currentDir, currentVnode, s)
      else
        match NextName currentDir with
        | none => some (LOS_OK, none, currentVnode, s)
        | some (nextDir, len) =>
          let r :=
            match PathCacheLookup s cur nextDir len with
            | some child => some (LOS_OK, some child, s)
            | none => stepDispatch env s cur nextDir len flags
          match r with
          | none => none
          | some (ret, nextVnode, s1) =>
            match ConvertVnodeIfMounted s1 nextVnode with
            | none => none
            | some nextVnode1 =>
              match RefreshLRU s1 nextVnode1 with
              | none => none
              | some s2 =>
                some (ret, some (nextDir.drop len),
                  if ret = LOS_OK then nextVnode1 else currentVnode, s2)

/-- The `while` loop of `VnodeLookupAt` (lines 400-437), one `fuel` per iteration;
`none` also when the fuel runs out.  Yields status, `*result` and state.  The
`strncpy_s` of a proper initial segment of the path into a buffer one byte longer
succeeds. -/
def lookupLoop (env : Env) (flags : Nat) (normalizedPath : List Char) :
    Nat → State → List Char → Option Nat → Option Nat → Int → Option (Int × Option Nat × State)
  | 0, s, currentDir, _, result, ret =>
    if currentDir = [] then some (ret, result, s) else none
  | fuel + 1, s, currentDir, currentVnode, result, ret =>
    if currentDir = [] then some (ret, result, s)
    else
      match Step env s currentDir currentVnode flags with
      | none => none
      | some (ret1, currentDir1, currentVnode1, s1) =>
        if currentDir1 = none ∨ currentDir1 = some [] then
          match currentVnode1 with
          | none => none
          | some cv =>
            match s1.vnode cv with
            | none => none
            | some vn =>
              if vn.filePath = none then
                some (ret1, currentVnode1,
                  s1.setVnode cv { vn with filePath := some normalizedPath })
              else some (ret1, currentVnode1, s1)
        else if env.VfsVnodePermissionCheck s1 currentVnode1 then some (-EACCES, result, s1)
        else if ret1 ≠ LOS_OK then some (ret1, result, s1)
        else
          match currentDir1, currentVnode1 with
          | some cd, some cv =>
            match s1.vnode cv with
            | none => none
            | some vn =>
              if vn.filePath = none then
                let vnodePathLen := normalizedPath.length - cd.length
                if env.mallocOk s1 then
                  lookupLoop env flags normalizedPath fuel
                    (s1.setVnode cv { vn with filePath := some (normalizedPath.take vnodePathLen) })
                    cd currentVnode1 result ret1
                else some (-ENOMEM, result, s1)
              else lookupLoop env flags normalizedPath fuel s1 cd currentVnode1 result ret1
          | _, _ => none

/-- Embedding of `VnodeLookupAt` (lines 372-444).  `result` is the value `*result`
holds at entry; the walk gets `fuel` loop iterations.  As in the source, `strdup`
is not checked for failure; `ret` is uninitialised when a start vnode is given. -/
def VnodeLookupAt (env : Env) (fuel : Nat) (s : State) (path : List Char) (result : Option Nat)
    (flags : Nat) (orgVnode : Option Nat) : Option (Int × Option Nat × State) :=
  let pre : Int × Option Nat × Option (List Char) :=
    match orgVnode with
    | some org => (env.uninitRet, some org, some path)
    | none => PreProcess env s path
  if orgVnode = none ∧ pre.1 ≠ LOS_OK then some (pre.1, result, s)
  else
    match pre.2.2 with
    | none => none
    | some normalizedPath =>
      if normalizedPath = ['/'] then some (LOS_OK, s.g_rootVnode, s)
      else lookupLoop env flags normalizedPath fuel s normalizedPath pre.2.1 result pre.1

/-- Embedding of `VnodeLookup` (lines 446-449). -/
def VnodeLookup (env : Env) (fuel : Nat) (s : State) (path : List Char) (vnode : Option Nat)
    (flags : Nat) : Option (Int × Option Nat × State) :=
  VnodeLookupAt env fuel s path vnode flags none

/-- Embedding of `VnodeCreate` (lines 550-575): status, `*vnode`, state. -/
def VnodeCreate (env : Env) (s : State) (parent : Nat) (name : List Char) (mode : Nat)
    (vnode : Option Nat) : Option (Int × Option Nat × State) :=
  match VnodeAlloc env s none with
  | none => none
  | some (ret, newVnode, s1) =>
    if ret ≠ 0 then some (-ENOMEM, vnode, s1)
    else
      match newVnode with
      | none => none
      | some nv =>
        match s1.vnode nv, s1.vnode parent with
        | some vn, some pv =>
          some (0, newVnode, s1.setVnode nv
            { vn with
              type := VNODE_TYPE_CHR
              vop := pv.vop
              fop := pv.fop
              data := 0
              parent := some parent
              originMount := pv.originMount
              uid := pv.uid
              gid := pv.gid
              mode := mode
              filePath := some name })
        | _, _ => none

/-! ## Attributes -/

/-- Modelled from the spec: `CHG_MODE` of the attribute mask, one bit of
`attr_chg_valid`. -/
def CHG_MODE : Nat := 1

/-- Modelled from the spec: `CHG_UID` of the attribute mask, another bit. -/
def CHG_UID : Nat := 2

/-- Modelled from the spec: `CHG_GID` of the attribute mask, a third bit. -/
def CHG_GID : Nat := 4

/-- Bitwise complement `~m` of a 32-bit `mode_t`. -/
def modeNot (m : Nat) : Nat :=
  (2 ^ 32 - 1) ^^^ m

/-- The fields of `struct stat`; `VnodeGetattr` fills three and zeroes the rest. -/
structure Stat where
  st_dev : Nat
  st_ino : Nat
  st_mode : Nat
  st_nlink : Nat
  st_uid : Nat
  st_gid : Nat
  st_rdev : Nat
  st_size : Nat
  st_blksize : Nat
  st_blocks : Nat
  st_atime : Nat
  st_mtime : Nat
  st_ctime : Nat
  deriving DecidableEq, Repr

/-- What `memset_s(buf, .., 0, ..)` leaves in a `struct stat`. -/
def zeroStat : Stat where
  st_dev := 0
  st_ino := 0
  st_mode := 0
  st_nlink := 0
  st_uid := 0
  st_gid := 0
  st_rdev := 0
  st_size := 0
  st_blksize := 0
  st_blocks := 0
  st_atime := 0
  st_mtime := 0
  st_ctime := 0

/-- The fields of `struct IATTR` that `VnodeChattr` reads. -/
structure IATTR where
  attr_chg_valid : Nat
  attr_chg_mode : Nat
  attr_chg_uid : Nat
  attr_chg_gid : Nat
  deriving DecidableEq, Repr

/-- Embedding of `VnodeGetattr` (lines 600-608): status and the contents of `*buf`. -/
def VnodeGetattr (s : State) (vnode : Option Nat) : Option (Int × Stat) :=
  match vnode with
  | none => none
  | some p =>
    match s.vnode p with
    | none => none
    | some vn =>
      some (LOS_OK, { zeroStat with st_mode := vn.mode, st_uid := vn.uid, st_gid := vn.gid })

/-- The three masked assignments of `VnodeChattr` (lines 621-632). -/
def chattrApply (vn : Vnode) (a : IATTR) : Vnode :=
  let vn1 :=
    if hasFlag a.attr_chg_valid CHG_MODE then
      { vn with mode := (a.attr_chg_mode &&& modeNot S_IFMT) ||| (vn.mode &&& S_IFMT) }
    else vn
  let vn2 := if hasFlag a.attr_chg_valid CHG_UID then { vn1 with uid := a.attr_chg_uid } else vn1
  if hasFlag a.attr_chg_valid CHG_GID then { vn2 with gid := a.attr_chg_gid } else vn2

/-- Embedding of `VnodeChattr` (lines 615-634). -/
def VnodeChattr (s : State) (vnode : Option Nat) (attr : Option IATTR) : Option (Int × State) :=
  match vnode, attr with
  | none, _ => some (-EINVAL, s)
  | _, none => some (-EINVAL, s)
  | some p, some a =>
    match s.vnode p with
    | none => none
    | some vn => some (LOS_OK, s.setVnode p (chattrApply vn a))

/-! ## Directory stream -/

/-- Size of the `d_name` buffer of `struct dirent` (`NAME_MAX + 1`). -/
def D_NAME_SIZE : Nat := 256

/-- Modelled from the spec: `sizeof(struct dirent)`, stored in `d_reclen`; its value
plays no role. -/
def SIZEOF_DIRENT : Nat := 280

/-- One slot of the caller's array `fd_dir`. -/
structure Dirent where
  d_name : List Char
  d_off : Int
  d_reclen : Nat
  deriving DecidableEq, Repr

/-- The fields of `struct fs_dirent_s` that `VnodeReaddir` uses: the cursor, the cap
and the caller's array. -/
structure DirStream where
  fd_position : Int
  read_cnt : Int
  fd_dir : List Dirent
  deriving DecidableEq, Repr

/-- The list `vp->childPathCaches`: the path-cache entries whose parent is `vp`. -/
def childPathCaches (s : State) (vp : Nat) : List PathCache :=
  s.pathCache.filter (fun pc => pc.parentVnode == vp)

/-- The entry `VnodeReaddir` writes for a path-cache entry found at list index `i`
(lines 518-523). -/
def direntOf (item : PathCache) (i : Int) : Dirent :=
  { d_name := item.name, d_off := i, d_reclen := SIZEOF_DIRENT }

/-- The loop of `VnodeReaddir` (lines 509-529) over the remaining entries: `i` is
the list index, `cnt` the number of entries written.  It yields either the error
status of a failed `strncpy_s` (a name that does not fit `d_name`), or the final `i`
and `cnt`, together with the array; `none` when it writes outside the array. -/
def readdirLoop (position : Int) (readCnt : Int) :
    List PathCache → Int → Int → List Dirent → Option (Except Int (Int × Int) × List Dirent)
  | [], i, cnt, dirs => some (.ok (i, cnt), dirs)
  | item :: rest, i, cnt, dirs =>
    if i < position then readdirLoop position readCnt rest (i + 1) cnt dirs
    else
      let idx := i - position
      if idx.toNat < dirs.length then
        if D_NAME_SIZE ≤ item.name.length then some (.error (-ENAMETOOLONG), dirs)
        else
          let dirs1 := dirs.set idx.toNat (direntOf item i)
          if cnt + 1 ≥ readCnt then some (.ok (i + 1, cnt + 1), dirs1)
          else readdirLoop position readCnt rest (i + 1) (cnt + 1) dirs1
      else none

/-- Embedding of `VnodeReaddir` (lines 494-534): the value returned and `*dir`. -/
def VnodeReaddir (s : State) (vp : Nat) (dir : Option DirStream) :
    Option (Int × Option DirStream) :=
  match dir with
  | none => some (-EINVAL, none)
  | some d =>
    match readdirLoop d.fd_position d.read_cnt (childPathCaches s vp) 0 0 d.fd_dir with
    | none => none
    | some (.error ret, dirs) => some (ret, some { d with fd_dir := dirs })
    | some (.ok (i, cnt), dirs) => some (cnt, some { d with fd_position := i, fd_dir := dirs })

/-! ## Device bootstrap and root change -/

/-- Modelled from the spec: `MountAlloc(vnodeBeCovered, fsop)` of the mount module,
which is outside `vnode.c`: it creates a mount record whose `vnodeBeCovered` is the
given vnode and links that vnode's `newMount` to the record; it yields the address
of the record, or NULL when the allocator has no memory. -/
def MountAlloc (env : Env) (s : State) (vnodeBeCovered : Nat) : Option (Option Nat × State) :=
  if env.zallocOk s then
    match s.vnode vnodeBeCovered with
    | none => none
    | some vn =>
      let mnt : Mount := { vnodeBeCovered := some vnodeBeCovered, vnodeCovered := none }
      let s1 : State := { s with mounts := s.mounts ++ [mnt] }
      some (some s.mounts.length,
        s1.setVnode vnodeBeCovered { vn with newMount := some s.mounts.length })
  else some (none, s)

/-- The two stores of `VnodeDevInit` into the mount record and the covered vnode
(lines 595-596). -/
def linkDevMount (s : State) (devMount devNode : Nat) : Option State :=
  match s.mounts[devMount]? with
  | none => none
  | some mnt =>
    let s1 : State :=
      { s with mounts := s.mounts.set devMount { mnt with vnodeCovered := some devNode } }
    match mnt.vnodeBeCovered with
    | none => none
    | some b =>
      match s1.vnode b with
      | none => none
      | some bvn => some (s1.setVnode b { bvn with flag := bvn.flag ||| VNODE_FLAG_MOUNT_ORIGIN })

/-- Embedding of `VnodeDevInit` (lines 577-598): status and state. -/
def VnodeDevInit (env : Env) (fuel : Nat) (s : State) : Option (Int × State) :=
  match VnodeLookup env fuel s ['/', 'd', 'e', 'v'] none (V_CREATE ||| V_DUMMY) with
  | none => none
  | some (retval, devNode, s1) =>
    if retval ≠ LOS_OK then some (retval, s1)
    else
      match devNode with
      | none => none
      | some dev =>
        match s1.vnode dev with
        | none => none
        | some vn =>
          let s2 := s1.setVnode dev
            { vn with mode := DEV_VNODE_MODE ||| S_IFDIR, type := VNODE_TYPE_DIR }
          match MountAlloc env s2 dev with
          | none => none
          | some (none, s3) => some (-ENOMEM, s3)
          | some (some devMount, s3) =>
            match linkDevMount s3 devMount dev with
            | none => none
            | some s4 => some (LOS_OK, s4)

/-- Every list member, free list first. -/
def allVnodes (s : State) : List Nat :=
  s.g_vnodeFreeList ++ s.g_vnodeVirtualList ++ s.g_vnodeActiveList

/-- The pool predicate, with `d` a slot taken off the lists and not yet enrolled:
the free counter is the length of the free list, the total respects the ceiling,
no address occurs twice on the lists, the allocated slots are exactly the list
members (and `d`), and a vnode that holds the path literal of `VnodesInit` (the
root) is on the virtual list. -/
structure PoolInvD (env : Env) (s : State) (d : Option Nat) : Prop where
  free_size : s.g_freeVnodeSize = (s.g_vnodeFreeList.length : Int)
  total_le : s.g_totalVnodeSize ≤ (env.LOSCFG_MAX_VNODE_SIZE : Int)
  nodup : (d.toList ++ allVnodes s).Nodup
  alloc_iff : ∀ p, (s.vnode p).isSome = true ↔ p ∈ d.toList ++ allVnodes s
  literal_virtual : ∀ p ∈ s.literalPaths, p ∈ s.g_vnodeVirtualList

/-- The pool predicate: `free_size = |free_list|`, `total_size ≤ MAX`, every vnode
of the pool is on exactly one of the three lists, once, and the path literal of
`VnodesInit` is held on the virtual list only (where the root is). -/
def PoolInv (env : Env) (s : State) : Prop :=
  PoolInvD env s none

/-- State after `VnodeFree` physically released the device vnode `p`. -/
def freedDevice (s : State) (p : Nat) : State :=
  { LOS_ListDelete (VnodePathCacheFree s p) p with
    heap := s.heap.set p none
    g_totalVnodeSize := s.g_totalVnodeSize - 1
    literalPaths := s.literalPaths.filter (fun w => w != p) }

/-- State after `VnodeFree` wiped `p` and pushed it onto the free list. -/
def freedRecycled (s : State) (p : Nat) : State :=
  { LOS_ListDelete (VnodePathCacheFree s p) p with
    heap := s.heap.set p (some zeroVnode)
    g_vnodeFreeList := p :: s.g_vnodeFreeList.filter (fun w => w != p)
    g_freeVnodeSize := s.g_freeVnodeSize + 1
    literalPaths := s.literalPaths.filter (fun w => w != p) }

/-- Slots on the free list are wiped: `VnodeFree` zeroes a vnode before it pushes it. -/
def FreeWiped (s : State) : Prop :=
  ∀ p ∈ s.g_vnodeFreeList, s.vnode p = some zeroVnode

/-- No vnode on the active list can be reclaimed: each one is pinned or mount-flagged. -/
def NoReclaimable (s : State) : Prop :=
  ∀ p ∈ s.g_vnodeActiveList, ∃ vn, s.vnode p = some vn ∧ skipReclaim vn = true

/-- What the caller of the pool does between two pool calls: it writes fields of
vnodes (pins them, sets mount flags); the lists and the two counters are the pool's. -/
def CallerStep (s t : State) : Prop :=
  t.g_vnodeFreeList = s.g_vnodeFreeList ∧
  t.g_vnodeVirtualList = s.g_vnodeVirtualList ∧
  t.g_vnodeActiveList = s.g_vnodeActiveList ∧
  t.g_freeVnodeSize = s.g_freeVnodeSize ∧
  t.g_totalVnodeSize = s.g_totalVnodeSize

/-- A run of consecutive `VnodeAlloc` calls without any `VnodeFree`, the caller
leaving no reclaimable vnode on the active list after each call; the list holds
the status of each call in order. -/
inductive AllocRun (env : Env) : State → List Int → State → Prop where
  | done (s : State) : AllocRun env s [] s
  | call {s s1 s2 s3 : State} {vop v : Option Nat} {ret : Int} {rets : List Int} :
      VnodeAlloc env s vop = some (ret, v, s1) → CallerStep s1 s2 → NoReclaimable s2 →
      AllocRun env s2 rets s3 → AllocRun env s (ret :: rets) s3

/-- The state in which `VnodeAlloc` calls `VnodeReclaimLru` when the free list gave
nothing: `total_size` has been incremented if a fresh slot was attempted. -/
def reclaimEntry (env : Env) (s : State) : State :=
  if s.g_totalVnodeSize < (env.LOSCFG_MAX_VNODE_SIZE : Int) then
    { s with g_totalVnodeSize := s.g_totalVnodeSize + 1 }
  else s

/-! ## Concrete configurations and states -/

/-- A small configuration: ceiling of one vnode, allocators that succeed, the
identity normaliser, a permission check that grants, drivers without hooks. -/
def envOne : Env where
  LOSCFG_MAX_VNODE_SIZE := 1
  zallocOk := fun _ => true
  mallocOk := fun _ => true
  vfs_normalize_path := fun p => .ok p
  VfsVnodePermissionCheck := fun _ _ => false
  driverOps := fun _ => { Lookup := none, Reclaim := none }
  uninitRet := 0

/-- One vnode with the given ops, pin count and flags, otherwise zero. -/
def plainVnode (vop : Option Nat) (useCount : Int) (flag : Nat) : Vnode :=
  { zeroVnode with vop := vop, useCount := useCount, flag := flag }

/-- A pool with the single active vnode `0` of driver table `5`, as allocated. -/
def oneActive : State :=
  { bootState with
    heap := [some { plainVnode (some 5) 0 0 with mappingHost := some 0 }]
    g_vnodeActiveList := [0]
    g_totalVnodeSize := 1 }

/-- A pool with the single active vnode `0`, driver table `5`, pinned once. -/
def onePinned : State :=
  { bootState with
    heap := [some { plainVnode (some 5) 1 0 with mappingHost := some 0 }]
    g_vnodeActiveList := [0]
    g_totalVnodeSize := 1 }

/-- The pool after `VnodeAlloc(&g_devfsOps, ..)` on the empty pool: vnode `0` is on
the active list and carries the device table. -/
def devActive : State :=
  { bootState with
    heap := [some { plainVnode (some g_devfsOps) 0 0 with mappingHost := some 0 }]
    g_vnodeActiveList := [0]
    g_totalVnodeSize := 1 }

/-- A configuration like `envOne` with room for four vnodes. -/
def envFour : Env :=
  { envOne with LOSCFG_MAX_VNODE_SIZE := 4 }

/-- The root vnode as `VnodesInit` leaves it. -/
def rootVnode : Vnode :=
  { zeroVnode with
    type := VnodeType.VNODE_TYPE_DIR
    mode := 0o40777
    vop := some g_devfsOps
    filePath := some ['/']
    mappingHost := some 0 }

/-- The state after `VnodesInit` on the boot state. -/
def rootOnly : State :=
  { bootState with
    heap := [some rootVnode]
    g_vnodeVirtualList := [0]
    g_totalVnodeSize := 1
    g_rootVnode := some 0
    literalPaths := [0] }

/-- The state `rootOnly` after a second vnode was allocated for a driver, freed, and
its slot handed out again as a device vnode. -/
def rootAndDevice : State :=
  { rootOnly with
    heap := [some rootVnode, some { plainVnode (some g_devfsOps) 0 0 with mappingHost := some 1 }]
    g_vnodeVirtualList := [1, 0]
    g_totalVnodeSize := 2 }

/-- A configuration like `envFour` whose allocator has no memory left. -/
def envNoMem : Env :=
  { envFour with zallocOk := fun _ => false }

/-- The state `rootOnly` with the root attributed to mount `7`. -/
def rootMounted : State :=
  { rootOnly with heap := [some { rootVnode with originMount := some 7 }] }

/-- The device vnode `VnodeCreate` makes under the root of `rootMounted`, with the
given pin count. -/
def deviceVnode (useCount : Int) : Vnode :=
  { zeroVnode with
    type := VnodeType.VNODE_TYPE_CHR
    useCount := useCount
    mode := 0o666
    parent := some 0
    vop := some g_devfsOps
    originMount := some 7
    filePath := some ['n', 'u', 'l', 'l']
    mappingHost := some 1 }

/-- The state `rootMounted` after `VnodeCreate(root, "null", 0666, ..)`, the new
vnode carrying the given pin count. -/
def deviceCreated (useCount : Int) : State :=
  { rootMounted with
    heap := [some { rootVnode with originMount := some 7 }, some (deviceVnode useCount)]
    g_vnodeVirtualList := [1, 0]
    g_totalVnodeSize := 2 }

/-- A directory or a regular file of driver table `5`, with its path. -/
def fileVnode (type : VnodeType) (path : List Char) (host : Nat) : Vnode :=
  { zeroVnode with
    type := type
    vop := some 5
    filePath := some path
    mappingHost := some host }

/-- A small tree: the root `0`, the directory `/a` (vnode `1`) and the regular file
`/a/b` (vnode `2`), both of driver table `5` and both in the path cache. -/
def treeState : State :=
  { rootOnly with
    heap := [some rootVnode,
      some (fileVnode VnodeType.VNODE_TYPE_DIR ['/', 'a'] 1),
      some (fileVnode VnodeType.VNODE_TYPE_REG ['/', 'a', '/', 'b'] 2)]
    g_vnodeActiveList := [1, 2]
    g_totalVnodeSize := 3
    pathCache := [{ parentVnode := 1, childVnode := 2, name := ['b'] },
      { parentVnode := 0, childVnode := 1, name := ['a'] }] }

/-- An unused slot of the caller's `fd_dir` array. -/
def blankDirent : Dirent :=
  { d_name := [], d_off := 0, d_reclen := 0 }

/-- A tree with a mount: the root `0`, the directory `/m` (vnode `1`) covered by
mount `0`, and the root of the mounted file system (vnode `2`). -/
def mountState : State :=
  { rootOnly with
    heap := [some rootVnode,
      some { fileVnode VnodeType.VNODE_TYPE_DIR ['/', 'm'] 1 with
              flag := VNODE_FLAG_MOUNT_ORIGIN, newMount := some 0 },
      some { fileVnode VnodeType.VNODE_TYPE_DIR ['/', 'm'] 2 with
              flag := VNODE_FLAG_MOUNT_NEW, originMount := some 0 }]
    g_vnodeActiveList := [1, 2]
    g_totalVnodeSize := 3
    pathCache := [{ parentVnode := 0, childVnode := 1, name := ['m'] }]
    mounts := [{ vnodeBeCovered := some 1, vnodeCovered := some 2 }] }

/-- State after `VnodeFree` took the unpinned vnode `p`: released when it carries the
device table, recycled otherwise. -/
def freedState (s : State) (p : Nat) : State :=
  match s.vnode p with
  | some vn => if vn.vop = some g_devfsOps then freedDevice s p else freedRecycled s p
  | none => s

/-- The vnode at `p` carries the device table `g_devfsOps`. -/
def isDevice (s : State) (p : Nat) : Bool :=
  match s.vnode p with
  | some vn => vn.vop == some g_devfsOps
  | none => false

/-- The reclaim scan does not skip the vnode at `p`: not pinned, no mount flag. -/
def reclaimable (s : State) (p : Nat) : Bool :=
  match s.vnode p with
  | some vn => !skipReclaim vn
  | none => false

/-- The vnodes one reclaim pass frees when it enters with `n` releases left: the
first `n` reclaimable entries of `items`, in list order. -/
def batchOf (s : State) (items : List Nat) (n : Nat) : List Nat :=
  (items.filter (reclaimable s)).take n

/-- The effect of freeing the unpinned vnodes of `batch` (in list order) on a state
`s`, as seen in the state `t` that results. -/
structure FreedBatch (s : State) (batch : List Nat) (t : State) : Prop where
  active : t.g_vnodeActiveList = s.g_vnodeActiveList.filter (fun q => decide (q ∉ batch))
  virt : t.g_vnodeVirtualList = s.g_vnodeVirtualList.filter (fun q => decide (q ∉ batch))
  free : t.g_vnodeFreeList = (batch.filter (fun p => !isDevice s p)).reverse ++
    s.g_vnodeFreeList.filter (fun q => decide (q ∉ batch))
  free_size : t.g_freeVnodeSize =
    s.g_freeVnodeSize + ((batch.filter (fun p => !isDevice s p)).length : Int)
  total_size : t.g_totalVnodeSize =
    s.g_totalVnodeSize - ((batch.filter (fun p => isDevice s p)).length : Int)
  others : ∀ q, q ∉ batch → t.vnode q = s.vnode q
  freed : ∀ p ∈ batch, t.vnode p = if isDevice s p = true then none else some zeroVnode
  root : t.g_rootVnode = s.g_rootVnode

/-- Eligible for reclamation in the words of the spec: `use_count == 0` and neither
`MountOrigin` nor `MountNew` set. -/
def eligible (vn : Vnode) : Bool :=
  vn.useCount == 0 && !hasFlag vn.flag VNODE_FLAG_MOUNT_ORIGIN &&
    !hasFlag vn.flag VNODE_FLAG_MOUNT_NEW

/-- The eligible vnodes of the active list, head (least recently used) first. -/
def eligibleVnodes (s : State) : List Nat :=
  s.g_vnodeActiveList.filter (fun p =>
    match s.vnode p with
    | some vn => eligible vn
    | none => false)

/-- Use counts of the vnodes on the active list are non-negative (data model). -/
def ActiveCountsNonneg (s : State) : Prop :=
  ∀ p ∈ s.g_vnodeActiveList, ∀ vn, s.vnode p = some vn → 0 ≤ vn.useCount

/-- Every vnode on the active list has an ops table (invariant 4 of the data model). -/
def ActiveHaveOps (s : State) : Prop :=
  ∀ p ∈ s.g_vnodeActiveList, ∀ vn, s.vnode p = some vn → vn.vop ≠ none

/-- One call on the pool: `VnodeAlloc`, `VnodeFree`, or the caller storing the fields
of a vnode it holds (one that is on the virtual or the active list). -/
inductive PoolCall where
  | alloc (vop : Option Nat)
  | free (vnode : Option Nat)
  | write (p : Nat) (vn : Vnode)

/-- Run a finite sequence of pool calls; `none` when a call touches invalid memory. -/
def runPoolCalls (env : Env) : List PoolCall → State → Option State
  | [], s => some s
  | PoolCall.alloc vop :: rest, s =>
    match VnodeAlloc env s vop with
    | none => none
    | some (_, _, s1) => runPoolCalls env rest s1
  | PoolCall.free vnode :: rest, s =>
    match VnodeFree env s vnode with
    | none => none
    | some (_, s1) => runPoolCalls env rest s1
  | PoolCall.write p vn :: rest, s =>
    if p ∈ s.g_vnodeVirtualList ++ s.g_vnodeActiveList then
      runPoolCalls env rest (s.setVnode p vn)
    else none

/-- The counter `total_size` counts the slots: the list members and `d`. -/
def CountInvD (s : State) (d : Option Nat) : Prop :=
  s.g_totalVnodeSize = ((d.toList ++ allVnodes s).length : Int)

/-- The vnode at `p` was produced by `mount`: `originMount == mount`. -/
def fromMount (s : State) (mount : Option Nat) (p : Nat) : Bool :=
  match s.vnode p with
  | some vn => vn.originMount == mount
  | none => false

/-- The vnode at `p` has `MountNew` set. -/
def isMountNew (s : State) (p : Nat) : Bool :=
  match s.vnode p with
  | some vn => hasFlag vn.flag VNODE_FLAG_MOUNT_NEW
  | none => false

/-- The vnode at `p` has `MountOrigin` set. -/
def isMountOrigin (s : State) (p : Nat) : Bool :=
  match s.vnode p with
  | some vn => hasFlag vn.flag VNODE_FLAG_MOUNT_ORIGIN
  | none => false

/-- The vnode at `p` is pinned: `useCount > 0`. -/
def isPinned (s : State) (p : Nat) : Bool :=
  match s.vnode p with
  | some vn => decide (vn.useCount > 0)
  | none => false

/-! ## Vocabulary for the path walker -/

/-- The lazy path memo of the walker: `filePath` is stored only where it is NULL. -/
def memoPath (s : State) (v : Nat) (path : List Char) : State :=
  match s.vnode v with
  | some vn => if vn.filePath = none then s.setVnode v { vn with filePath := some path } else s
  | none => s

/-- The first `k` iterations of the loop of `VnodeLookupAt`, each of which resolves
one more component with `LOS_OK`, passes the permission check, stores the path memo
and leaves some of the path to walk: the state, the rest of the path and the
directory reached. -/
def walkSteps (env : Env) (flags : Nat) (normalizedPath : List Char) :
    Nat → State → List Char → Nat → Option (State × List Char × Nat)
  | 0, s, currentDir, currentVnode => some (s, currentDir, currentVnode)
  | k + 1, s, currentDir, currentVnode =>
    if currentDir = [] then none
    else
      match Step env s currentDir (some currentVnode) flags with
      | some (ret, some cd, some v, s1) =>
        match s1.vnode v with
        | none => none
        | some vn =>
          if cd ≠ [] ∧ ret = LOS_OK ∧ env.VfsVnodePermissionCheck s1 (some v) = false ∧
              (vn.filePath = none → env.mallocOk s1 = true) then
            walkSteps env flags normalizedPath k
              (memoPath s1 v (normalizedPath.take (normalizedPath.length - cd.length))) cd v
          else none
      | _ => none

/-- The name resolution of `Step` (lines 339-358): path cache first, then the
dispatch. -/
def resolveName (env : Env) (s : State) (cur : Nat) (nextDir : List Char) (len : Nat)
    (flags : Nat) : Option (Int × Option Nat × State) :=
  match PathCacheLookup s cur nextDir len with
  | some child => some (LOS_OK, some child, s)
  | none => stepDispatch env s cur nextDir len flags

/-- The tail of `Step` from the label `STEP_FINISH` (lines 360-369). -/
def stepFinish (s1 : State) (cur : Nat) (nextDir : List Char) (len : Nat) (ret : Int)
    (nextVnode : Option Nat) : Option (Int × Option (List Char) × Option Nat × State) :=
  match ConvertVnodeIfMounted s1 nextVnode with
  | none => none
  | some nextVnode1 =>
    match RefreshLRU s1 nextVnode1 with
    | none => none
    | some s2 =>
      some (ret, some (nextDir.drop len), if ret = LOS_OK then nextVnode1 else some cur, s2)

/-- Start of a walk by `VnodeLookupAt`: with a start vnode the path is taken
verbatim, without one the walk starts at the root on the normalised path. -/
def WalkStart (env : Env) (s : State) (path : List Char) (orgVnode : Option Nat)
    (normalizedPath : List Char) (start : Nat) : Prop :=
  (orgVnode = some start ∧ normalizedPath = path) ∨
  (orgVnode = none ∧ env.vfs_normalize_path path = .ok normalizedPath ∧
    s.g_rootVnode = some start)

/-- The state in which `Step` calls the `Lookup` of the directory `d`: `d` pinned. -/
def pinned (s : State) (d : Nat) (dvn : Vnode) : State :=
  s.setVnode d { dvn with useCount := dvn.useCount + 1 }

/-- The driver of directory `d` does not find the name: its `Lookup` reports
`-ENOENT`, stores no vnode and leaves `d` allocated. -/
def LookupNoEntry (env : Env) (s : State) (d : Nat) (dvn : Vnode) (name : List Char)
    (len : Nat) : Prop :=
  ∃ op f, dvn.vop = some op ∧ (opsAt env op).Lookup = some f ∧
    (f (pinned s d dvn) d name len).1 = -ENOENT ∧
    (f (pinned s d dvn) d name len).2.1 = none ∧
    ((f (pinned s d dvn) d name len).2.2.vnode d).isSome = true

/-- The device directory of `devState`. -/
def devNode : Vnode :=
  { zeroVnode with
    type := VnodeType.VNODE_TYPE_DIR
    mode := DEV_VNODE_MODE ||| S_IFDIR
    parent := some 0
    vop := some g_devfsOps
    flag := VNODE_FLAG_MOUNT_ORIGIN
    newMount := some 0
    filePath := some ['/', 'd', 'e', 'v']
    mappingHost := some 1 }

/-- The state after the root was set up and `/dev` was created as in `VnodeDevInit`:
`/dev` is the virtual vnode `1` under the root, entered in the path cache, and the
device mount `0` covers it with itself. -/
def devState : State :=
  { rootOnly with
    heap := [some rootVnode, some devNode]
    g_vnodeVirtualList := [1, 0]
    g_totalVnodeSize := 2
    pathCache := [{ parentVnode := 0, childVnode := 1, name := ['d', 'e', 'v'] }]
    mounts := [{ vnodeBeCovered := some 1, vnodeCovered := some 1 }] }

/-- A configuration like `envFour` with a ceiling of three vnodes. -/
def envThree : Env :=
  { envOne with LOSCFG_MAX_VNODE_SIZE := 3 }

/-- The vnode `VnodeAlloc(NULL, ..)` hands out at address `v`, before its caller
fills it in. -/
def virtualVnode (v : Nat) : Vnode :=
  { zeroVnode with
    type := VnodeType.VNODE_TYPE_UNKNOWN, vop := some g_devfsOps, mappingHost := some v }

/-- File paths stored in the vnodes of `s` are still there in `t`. -/
def KeepsPaths (s t : State) : Prop :=
  ∀ p vn fp, s.vnode p = some vn → vn.filePath = some fp →
    ∃ vn1, t.vnode p = some vn1 ∧ vn1.filePath = some fp

/-- The `Lookup` operations of the drivers leave stored file paths alone. -/
def DriverKeepsPaths (env : Env) : Prop :=
  ∀ op f, (opsAt env op).Lookup = some f →
    ∀ s cur name len, KeepsPaths s (f s cur name len).2.2

/-- The tree of `treeState`, the file `/a/b` carrying the given `filePath`. -/
def treeWith (filePath : Option (List Char)) : State :=
  { treeState with
    heap := [some rootVnode,
      some (fileVnode VnodeType.VNODE_TYPE_DIR ['/', 'a'] 1),
      some { fileVnode VnodeType.VNODE_TYPE_REG [] 2 with filePath := filePath }] }

/-- A run of `k` slashes. -/
def slashes (k : Nat) : List Char :=
  List.replicate k '/'

/-- The `Lookup` operations of the drivers read only the `len` characters of the
name they are given. -/
def DriverReadsLen (env : Env) : Prop :=
  ∀ op f, (opsAt env op).Lookup = some f →
    ∀ s cur (name : List Char) len, f s cur name len = f s cur (name.take len) len

/-- No vnode has a negative `useCount`. -/
def CountsNonneg (s : State) : Prop :=
  ∀ p vn, s.vnode p = some vn → 0 ≤ vn.useCount

/-- From `s` to `t` every vnode that is still allocated has kept its `useCount`, and
no released address has come back. -/
structure UseKept (s t : State) : Prop where
  len : s.heap.length ≤ t.heap.length
  kept : ∀ p vn, s.vnode p = some vn →
    t.vnode p = none ∨ ∃ vn1, t.vnode p = some vn1 ∧ vn1.useCount = vn.useCount
  gone : ∀ p, p < s.heap.length → s.vnode p = none → t.vnode p = none

/-- Starting from non-negative counts, `t` has non-negative counts and has kept the
counts of `s`. -/
def CountFrame (s t : State) : Prop :=
  CountsNonneg s → CountsNonneg t ∧ UseKept s t

/-- The `Lookup` operations of the drivers leave `useCount` values unchanged. -/
def DriverKeepsCounts (env : Env) : Prop :=
  ∀ op f, (opsAt env op).Lookup = some f →
    ∀ s cur name len, CountFrame s (f s cur name len).2.2

/-- The `Lookup` of directory `d`, called by `Step` for the name, leaves the
`filePath` of `d` as it is. -/
def LookupKeepsPath (env : Env) (s : State) (d : Nat) (dvn : Vnode) (name : List Char)
    (len : Nat) : Prop :=
  ∀ op f, dvn.vop = some op → (opsAt env op).Lookup = some f →
    ∀ vn2, (f (pinned s d dvn) d name len).2.2.vnode d = some vn2 →
      vn2.filePath = dvn.filePath
/-- The state `rootOnly` with the `filePath` of the root still NULL. -/
def pathlessRoot : State :=
  { rootOnly with heap := [some { rootVnode with filePath := none }], literalPaths := [] }

/-- A configuration like `envFour` whose permission check denies the search of the
vnode `v` and of no other. -/
def envNoSearch (v : Nat) : Env :=
  { envFour with VfsVnodePermissionCheck := fun _ w => decide (w = some v) }

/-- A tree with a symbolic link: the root `0`, the link `/l` (vnode `1`) and the
directory `/a` (vnode `2`), both of driver table `5`, on the active list in this
order and in the path cache. -/
def linkState : State :=
  { rootOnly with
    heap := [some rootVnode,
      some (fileVnode VnodeType.VNODE_TYPE_LNK ['/', 'l'] 1),
      some (fileVnode VnodeType.VNODE_TYPE_DIR ['/', 'a'] 2)]
    g_vnodeActiveList := [1, 2]
    g_totalVnodeSize := 3
    pathCache := [{ parentVnode := 0, childVnode := 1, name := ['l'] },
      { parentVnode := 0, childVnode := 2, name := ['a'] }] }

/-- A configuration like `envFour` whose `malloc` has no memory left. -/
def envNoMalloc : Env :=
  { envFour with mallocOk := fun _ => false }

/-! ## Memory lemmas -/

@[simp] theorem vnode_ListDelete (s : State) (v p : Nat) :
    (LOS_ListDelete s v).vnode p = s.vnode p := rfl

@[simp] theorem vnode_PathCacheFree (s : State) (v p : Nat) :
    (VnodePathCacheFree s v).vnode p = s.vnode p := rfl

@[simp] theorem setVnode_freeList (s : State) (p : Nat) (vn : Vnode) :
    (s.setVnode p vn).g_vnodeFreeList = s.g_vnodeFreeList := rfl

@[simp] theorem setVnode_virtualList (s : State) (p : Nat) (vn : Vnode) :
    (s.setVnode p vn).g_vnodeVirtualList = s.g_vnodeVirtualList := rfl

@[simp] theorem setVnode_activeList (s : State) (p : Nat) (vn : Vnode) :
    (s.setVnode p vn).g_vnodeActiveList = s.g_vnodeActiveList := rfl

@[simp] theorem setVnode_freeSize (s : State) (p : Nat) (vn : Vnode) :
    (s.setVnode p vn).g_freeVnodeSize = s.g_freeVnodeSize := rfl

@[simp] theorem setVnode_totalSize (s : State) (p : Nat) (vn : Vnode) :
    (s.setVnode p vn).g_totalVnodeSize = s.g_totalVnodeSize := rfl

@[simp] theorem setVnode_root (s : State) (p : Nat) (vn : Vnode) :
    (s.setVnode p vn).g_rootVnode = s.g_rootVnode := rfl

@[simp] theorem setVnode_pathCache (s : State) (p : Nat) (vn : Vnode) :
    (s.setVnode p vn).pathCache = s.pathCache := rfl

@[simp] theorem setVnode_mounts (s : State) (p : Nat) (vn : Vnode) :
    (s.setVnode p vn).mounts = s.mounts := rfl

theorem vnode_lt_length {s : State} {p : Nat} {vn : Vnode} (h : s.vnode p = some vn) :
    p < s.heap.length := by
  unfold State.vnode at h
  by_contra hlt
  rw [List.getD_eq_default _ _ (Nat.le_of_not_lt hlt)] at h
  cases h

theorem vnode_setVnode_same {s : State} {p : Nat} (vn : Vnode) (h : p < s.heap.length) :
    (s.setVnode p vn).vnode p = some vn := by
  simp [State.vnode, State.setVnode, List.getD_eq_getElem?_getD, List.getElem?_set, h]

theorem vnode_setVnode_ne {s : State} {p q : Nat} (vn : Vnode) (h : q ≠ p) :
    (s.setVnode p vn).vnode q = s.vnode q := by
  simp [State.vnode, State.setVnode, List.getD_eq_getElem?_getD, List.getElem?_set, Ne.symm h]

theorem vnode_heap_set_none_same (heap : List (Option Vnode)) (p : Nat) :
    (heap.set p none).getD p none = none := by
  by_cases h : p < heap.length <;>
    simp [List.getD_eq_getElem?_getD, List.getElem?_set, h]

theorem vnode_heap_set_ne (heap : List (Option Vnode)) (p q : Nat) (x : Option Vnode) (h : q ≠ p) :
    (heap.set p x).getD q none = heap.getD q none := by
  simp [List.getD_eq_getElem?_getD, List.getElem?_set, Ne.symm h]

/-! ## `VnodeFree` -/

@[simp] theorem callReclaim_vop (ops : VnodeOps) (vn : Vnode) :
    (callReclaim ops vn).vop = vn.vop := by
  unfold callReclaim; split <;> rfl

@[simp] theorem callReclaim_filePath (ops : VnodeOps) (vn : Vnode) :
    (callReclaim ops vn).filePath = vn.filePath := by
  unfold callReclaim; split <;> rfl

theorem VnodeFree_null (env : Env) (s : State) : VnodeFree env s none = some (LOS_OK, s) := rfl

theorem VnodeFree_busy {env : Env} {s : State} {p : Nat} {vn : Vnode}
    (h : s.vnode p = some vn) (hu : vn.useCount > 0) :
    VnodeFree env s (some p) = some (-EBUSY, s) := by
  simp [VnodeFree, h, hu]

theorem VnodeFree_device {env : Env} {s : State} {p : Nat} {vn : Vnode}
    (h : s.vnode p = some vn) (hu : ¬ vn.useCount > 0) (hop : vn.vop = some g_devfsOps)
    (hlit : vn.filePath = none ∨ p ∉ s.literalPaths) :
    VnodeFree env s (some p) = some (LOS_OK, freedDevice s p) := by
  have hl : ¬ vn.filePath = none → p ∉ s.literalPaths := by
    rcases hlit with e | e
    · exact fun hc => absurd e hc
    · exact fun _ => e
  simp [VnodeFree, h, hu, hop, freedDevice, LOS_ListDelete, VnodePathCacheFree]
  exact hl

theorem VnodeFree_recycled {env : Env} {s : State} {p op : Nat} {vn : Vnode}
    (h : s.vnode p = some vn) (hu : ¬ vn.useCount > 0) (hop : vn.vop = some op)
    (hne : op ≠ g_devfsOps) (hlit : vn.filePath = none ∨ p ∉ s.literalPaths) :
    VnodeFree env s (some p) = some (LOS_OK, freedRecycled s p) := by
  have hl : ¬ vn.filePath = none → p ∉ s.literalPaths := by
    rcases hlit with e | e
    · exact fun hc => absurd e hc
    · exact fun _ => e
  simp [VnodeFree, h, hu, hop, hne, freedRecycled, LOS_ListDelete, VnodePathCacheFree,
    State.setVnode]
  exact hl

/-- The `free` of lines 191-193 on the path literal: the call does not return. -/
theorem VnodeFree_fault_literal {env : Env} {s : State} {p op : Nat} {vn : Vnode}
    (h : s.vnode p = some vn) (hu : ¬ vn.useCount > 0) (hop : vn.vop = some op)
    (hp : vn.filePath ≠ none) (hl : p ∈ s.literalPaths) :
    VnodeFree env s (some p) = none := by
  simp [VnodeFree, h, hu, hop, hp, hl, LOS_ListDelete, VnodePathCacheFree]

theorem VnodeFree_fault_null_ops {env : Env} {s : State} {p : Nat} {vn : Vnode}
    (h : s.vnode p = some vn) (hu : ¬ vn.useCount > 0) (hop : vn.vop = none) :
    VnodeFree env s (some p) = none := by
  simp [VnodeFree, h, hu, hop]

theorem VnodeFree_fault_dangling {env : Env} {s : State} {p : Nat}
    (h : s.vnode p = none) :
    VnodeFree env s (some p) = none := by
  simp [VnodeFree, h]

/-- Case analysis of a returning `VnodeFree`. -/
theorem VnodeFree_cases {env : Env} {s : State} {v : Option Nat} {ret : Int} {s1 : State}
    (h : VnodeFree env s v = some (ret, s1)) :
    (v = none ∧ ret = LOS_OK ∧ s1 = s) ∨
    (∃ p vn, v = some p ∧ s.vnode p = some vn ∧ vn.useCount > 0 ∧ ret = -EBUSY ∧ s1 = s) ∨
    (∃ p vn, v = some p ∧ s.vnode p = some vn ∧ ¬ vn.useCount > 0 ∧
      vn.vop = some g_devfsOps ∧ ret = LOS_OK ∧ s1 = freedDevice s p) ∨
    (∃ p vn op, v = some p ∧ s.vnode p = some vn ∧ ¬ vn.useCount > 0 ∧
      vn.vop = some op ∧ op ≠ g_devfsOps ∧ ret = LOS_OK ∧ s1 = freedRecycled s p) := by
  cases v with
  | none =>
    rw [VnodeFree_null] at h
    cases h
    exact Or.inl ⟨rfl, rfl, rfl⟩
  | some p =>
    cases hv : s.vnode p with
    | none => rw [VnodeFree_fault_dangling hv] at h; cases h
    | some vn =>
      by_cases hu : vn.useCount > 0
      · rw [VnodeFree_busy hv hu] at h
        cases h
        exact Or.inr (Or.inl ⟨p, vn, rfl, hv, hu, rfl, rfl⟩)
      · cases hop : vn.vop with
        | none => rw [VnodeFree_fault_null_ops hv hu hop] at h; cases h
        | some op =>
          by_cases hlit : vn.filePath = none ∨ p ∉ s.literalPaths
          · by_cases hd : op = g_devfsOps
            · subst hd
              rw [VnodeFree_device hv hu hop hlit] at h
              cases h
              exact Or.inr (Or.inr (Or.inl ⟨p, vn, rfl, hv, hu, hop, rfl, rfl⟩))
            · rw [VnodeFree_recycled hv hu hop hd hlit] at h
              cases h
              exact Or.inr (Or.inr (Or.inr ⟨p, vn, op, rfl, hv, hu, hop, hd, rfl, rfl⟩))
          · rw [not_or, not_not] at hlit
            rw [VnodeFree_fault_literal hv hu hop hlit.1 hlit.2] at h
            cases h

theorem allVnodes_ListDelete (s : State) (p : Nat) :
    allVnodes (LOS_ListDelete s p) = (allVnodes s).filter (fun w => w != p) := by
  simp [allVnodes, LOS_ListDelete, List.filter_append]

theorem mem_filter_ne {l : List Nat} {p q : Nat} :
    q ∈ l.filter (fun w => w != p) ↔ q ∈ l ∧ q ≠ p := by
  simp [List.mem_filter]

theorem filter_ne_of_not_mem {l : List Nat} {p : Nat} (h : p ∉ l) :
    l.filter (fun w => w != p) = l := by
  rw [List.filter_eq_self]
  intro a ha
  have : a ≠ p := fun e => h (e ▸ ha)
  simpa using this

theorem vnode_freedDevice (s : State) (p q : Nat) :
    (freedDevice s p).vnode q = if q = p then none else s.vnode q := by
  by_cases h : q = p
  · subst h
    rw [if_pos rfl]
    exact vnode_heap_set_none_same _ _
  · rw [if_neg h]
    exact vnode_heap_set_ne _ _ _ _ h

theorem vnode_freedRecycled {s : State} {p : Nat} (hp : p < s.heap.length) (q : Nat) :
    (freedRecycled s p).vnode q = if q = p then some zeroVnode else s.vnode q := by
  by_cases h : q = p
  · subst h
    rw [if_pos rfl]
    exact vnode_setVnode_same (s := s) zeroVnode hp
  · rw [if_neg h]
    exact vnode_heap_set_ne _ _ _ _ h

theorem allVnodes_freedDevice (s : State) (p : Nat) :
    allVnodes (freedDevice s p) = (allVnodes s).filter (fun w => w != p) := by
  simp [allVnodes, freedDevice, LOS_ListDelete, VnodePathCacheFree, List.filter_append]

theorem allVnodes_freedRecycled (s : State) (p : Nat) :
    allVnodes (freedRecycled s p) = p :: (allVnodes s).filter (fun w => w != p) := by
  simp [allVnodes, freedRecycled, LOS_ListDelete, VnodePathCacheFree, List.filter_append]

theorem not_mem_free_of_ops {s : State} {p : Nat} {vn : Vnode} {op : Nat}
    (hw : FreeWiped s) (h : s.vnode p = some vn) (hop : vn.vop = some op) :
    p ∉ s.g_vnodeFreeList := by
  intro hm
  have := hw p hm
  rw [h] at this
  cases this
  cases hop

theorem PoolInv_freedDevice {env : Env} {s : State} {p : Nat} {vn : Vnode} {op : Nat}
    (hi : PoolInv env s) (hw : FreeWiped s) (h : s.vnode p = some vn) (hop : vn.vop = some op) :
    PoolInv env (freedDevice s p) ∧ FreeWiped (freedDevice s p) := by
  have hnf := not_mem_free_of_ops hw h hop
  have hfree : (freedDevice s p).g_vnodeFreeList = s.g_vnodeFreeList := by
    simp [freedDevice, LOS_ListDelete, VnodePathCacheFree, filter_ne_of_not_mem hnf]
  refine ⟨⟨?_, ?_, ?_, ?_, ?_⟩, ?_⟩
  · rw [hfree]; exact hi.free_size
  · have := hi.total_le
    show s.g_totalVnodeSize - 1 ≤ _
    omega
  · have := hi.nodup
    simp only [Option.toList, List.nil_append] at this ⊢
    rw [allVnodes_freedDevice]
    exact this.filter _
  · intro q
    have := hi.alloc_iff q
    simp only [Option.toList, List.nil_append] at this ⊢
    rw [allVnodes_freedDevice, vnode_freedDevice, mem_filter_ne, ← this]
    by_cases hq : q = p <;> simp [hq]
  · intro q hq
    have hq1 := mem_filter_ne.1 hq
    exact mem_filter_ne.2 ⟨hi.literal_virtual q hq1.1, hq1.2⟩
  · intro q hq
    rw [hfree] at hq
    have hne : q ≠ p := fun e => hnf (e ▸ hq)
    rw [vnode_freedDevice, if_neg hne]
    exact hw q hq

theorem PoolInv_freedRecycled {env : Env} {s : State} {p : Nat} {vn : Vnode} {op : Nat}
    (hi : PoolInv env s) (hw : FreeWiped s) (h : s.vnode p = some vn) (hop : vn.vop = some op) :
    PoolInv env (freedRecycled s p) ∧ FreeWiped (freedRecycled s p) := by
  have hnf := not_mem_free_of_ops hw h hop
  have hlt := vnode_lt_length h
  have hfree : (freedRecycled s p).g_vnodeFreeList = p :: s.g_vnodeFreeList := by
    simp [freedRecycled, filter_ne_of_not_mem hnf]
  refine ⟨⟨?_, ?_, ?_, ?_, ?_⟩, ?_⟩
  · rw [hfree]
    have := hi.free_size
    show s.g_freeVnodeSize + 1 = _
    simp [this]
  · exact hi.total_le
  · have := hi.nodup
    simp only [Option.toList, List.nil_append] at this ⊢
    rw [allVnodes_freedRecycled, List.nodup_cons]
    exact ⟨fun hm => (mem_filter_ne.1 hm).2 rfl, this.filter _⟩
  · intro q
    have := hi.alloc_iff q
    simp only [Option.toList, List.nil_append] at this ⊢
    rw [allVnodes_freedRecycled, vnode_freedRecycled hlt, List.mem_cons, mem_filter_ne, ← this]
    by_cases hq : q = p <;> simp [hq]
  · intro q hq
    have hq1 := mem_filter_ne.1 hq
    exact mem_filter_ne.2 ⟨hi.literal_virtual q hq1.1, hq1.2⟩
  · intro q hq
    rw [hfree] at hq
    rw [vnode_freedRecycled hlt]
    by_cases hqp : q = p
    · simp [hqp]
    · rw [if_neg hqp]
      rcases List.mem_cons.1 hq with e | hm
      · exact absurd e hqp
      · exact hw q hm

/-- `VnodeFree` keeps the pool predicate. -/
theorem VnodeFree_PoolInv {env : Env} {s : State} {v : Option Nat} {ret : Int} {s1 : State}
    (hi : PoolInv env s) (hw : FreeWiped s) (h : VnodeFree env s v = some (ret, s1)) :
    PoolInv env s1 ∧ FreeWiped s1 := by
  rcases VnodeFree_cases h with ⟨_, _, rfl⟩ | ⟨p, vn, _, _, _, _, rfl⟩ |
    ⟨p, vn, _, hv, _, hop, _, rfl⟩ | ⟨p, vn, op, _, hv, _, hop, _, _, rfl⟩
  · exact ⟨hi, hw⟩
  · exact ⟨hi, hw⟩
  · exact PoolInv_freedDevice hi hw hv hop
  · exact PoolInv_freedRecycled hi hw hv hop

/-! ## `VnodeAlloc` and the pool predicate -/

theorem reclaimLoop_PoolInv (env : Env) :
    ∀ (items : List Nat) (s : State) (rc : Int) (rc1 : Int) (s1 : State),
      PoolInv env s → FreeWiped s → reclaimLoop env items s rc = some (rc1, s1) →
      PoolInv env s1 ∧ FreeWiped s1 := by
  intro items
  induction items with
  | nil =>
    intro s rc rc1 s1 hi hw h
    simp only [reclaimLoop, Option.some.injEq, Prod.mk.injEq] at h
    rw [← h.2]
    exact ⟨hi, hw⟩
  | cons item rest ih =>
    intro s rc rc1 s1 hi hw h
    unfold reclaimLoop at h
    cases hv : s.vnode item with
    | none => rw [hv] at h; cases h
    | some vn =>
      rw [hv] at h
      simp only at h
      by_cases hs : skipReclaim vn = true
      · rw [if_pos hs] at h
        exact ih s rc rc1 s1 hi hw h
      · rw [if_neg hs] at h
        cases hf : VnodeFree env s (some item) with
        | none => rw [hf] at h; cases h
        | some r =>
          obtain ⟨ret, s2⟩ := r
          rw [hf] at h
          simp only at h
          have h2 := VnodeFree_PoolInv hi hw hf
          generalize (if ret = LOS_OK then rc + 1 else rc) = rcn at h
          split at h
          · simp only [Option.some.injEq, Prod.mk.injEq] at h
            rw [← h.2]
            exact h2
          · exact ih s2 _ rc1 s1 h2.1 h2.2 h

theorem GetFromFreeList_PoolInv {env : Env} {s : State}
    (hi : PoolInv env s) (hw : FreeWiped s) :
    PoolInvD env (GetFromFreeList s).2 (GetFromFreeList s).1 ∧ FreeWiped (GetFromFreeList s).2 := by
  unfold GetFromFreeList
  split
  · exact ⟨hi, hw⟩
  · split
    · rename_i hnil
      refine ⟨⟨?_, hi.total_le, hi.nodup, hi.alloc_iff, hi.literal_virtual⟩, ?_⟩
      · simp [hnil]
      · exact hw
    · rename_i v rest hcons
      have hnd : (allVnodes s).Nodup := by simpa using hi.nodup
      have hvall : v ∈ allVnodes s := by simp [allVnodes, hcons]
      have hfnd : (v :: rest).Nodup := by
        have : (s.g_vnodeFreeList).Nodup := by
          unfold allVnodes at hnd
          exact (List.nodup_append.1 (List.nodup_append.1 hnd).1).1
        rwa [hcons] at this
      have hvrest : v ∉ rest := (List.nodup_cons.1 hfnd).1
      have hfree : (LOS_ListDelete s v).g_vnodeFreeList = rest := by
        simp [LOS_ListDelete, hcons, filter_ne_of_not_mem hvrest]
      refine ⟨⟨?_, hi.total_le, ?_, ?_, ?_⟩, ?_⟩
      · show (LOS_ListDelete s v).g_freeVnodeSize - 1 = ((LOS_ListDelete s v).g_vnodeFreeList.length : Int)
        rw [hfree]
        have := hi.free_size
        rw [hcons] at this
        show s.g_freeVnodeSize - 1 = _
        rw [this]
        simp
      · show ([v] ++ allVnodes (LOS_ListDelete s v)).Nodup
        rw [allVnodes_ListDelete, List.singleton_append, List.nodup_cons]
        exact ⟨fun hm => (mem_filter_ne.1 hm).2 rfl, hnd.filter _⟩
      · intro q
        have := hi.alloc_iff q
        simp only [Option.toList, List.nil_append] at this
        show ((LOS_ListDelete s v).vnode q).isSome = true ↔ q ∈ [v] ++ allVnodes (LOS_ListDelete s v)
        rw [allVnodes_ListDelete, vnode_ListDelete, this, List.singleton_append, List.mem_cons,
          mem_filter_ne]
        constructor
        · intro hq
          by_cases e : q = v
          · exact Or.inl e
          · exact Or.inr ⟨hq, e⟩
        · rintro (e | ⟨hq, _⟩)
          · exact e ▸ hvall
          · exact hq
      · intro q hq
        have hqv : q ∈ s.g_vnodeVirtualList := hi.literal_virtual q hq
        have hne : q ≠ v := by
          intro e
          subst e
          unfold allVnodes at hnd
          exact (List.nodup_append.1 (List.nodup_append.1 hnd).1).2.2
            (by rw [hcons]; exact List.mem_cons_self _ _) hqv
        exact mem_filter_ne.2 ⟨hqv, hne⟩
      · intro q hq
        have hq1 : q ∈ (LOS_ListDelete s v).g_vnodeFreeList := hq
        rw [hfree] at hq1
        show s.vnode q = some zeroVnode
        exact hw q (by rw [hcons]; exact List.mem_cons_of_mem _ hq1)

theorem VnodeReclaimLru_PoolInv {env : Env} {s : State} {r : Option Nat} {s1 : State}
    (hi : PoolInv env s) (hw : FreeWiped s) (h : VnodeReclaimLru env s = some (r, s1)) :
    PoolInvD env s1 r ∧ FreeWiped s1 := by
  unfold VnodeReclaimLru at h
  cases hl : reclaimLoop env s.g_vnodeActiveList s 0 with
  | none => rw [hl] at h; cases h
  | some x =>
    obtain ⟨rc, s2⟩ := x
    rw [hl] at h
    simp only at h
    have h2 := reclaimLoop_PoolInv env _ _ _ _ _ hi hw hl
    split at h
    · simp only [Option.some.injEq, Prod.mk.injEq] at h
      rw [← h.1, ← h.2]
      exact h2
    · simp only [Option.some.injEq] at h
      have := GetFromFreeList_PoolInv h2.1 h2.2
      rw [h] at this
      exact this

theorem vnode_zalloc (s : State) (total : Int) (q : Nat) :
    State.vnode { s with heap := s.heap ++ [some zeroVnode], g_totalVnodeSize := total } q =
      if q = s.heap.length then some zeroVnode else s.vnode q := by
  unfold State.vnode
  simp only [List.getD_eq_getElem?_getD]
  by_cases h : q = s.heap.length
  · subst h; simp
  · rw [if_neg h]
    rcases Nat.lt_or_gt_of_ne h with hlt | hgt
    · rw [List.getElem?_append_left hlt]
    · rw [List.getElem?_eq_none (by simp; omega), List.getElem?_eq_none (by omega)]

theorem zallocVnode_PoolInv {env : Env} {s : State}
    (hi : PoolInv env s) (hw : FreeWiped s)
    (hlt : s.g_totalVnodeSize < (env.LOSCFG_MAX_VNODE_SIZE : Int)) :
    PoolInvD env (zallocVnode env s).2 (zallocVnode env s).1 ∧ FreeWiped (zallocVnode env s).2 := by
  have hnd : (allVnodes s).Nodup := by simpa using hi.nodup
  have hai : ∀ p, (s.vnode p).isSome = true ↔ p ∈ allVnodes s := by simpa using hi.alloc_iff
  unfold zallocVnode
  split
  · have hfresh : s.heap.length ∉ allVnodes s := by
      intro hm
      have := (hai _).2 hm
      cases hv : s.vnode s.heap.length with
      | none => rw [hv] at this; cases this
      | some vn => exact absurd (vnode_lt_length hv) (Nat.lt_irrefl _)
    refine ⟨⟨hi.free_size, ?_, ?_, ?_, hi.literal_virtual⟩, ?_⟩
    · show s.g_totalVnodeSize + 1 ≤ _
      omega
    · show ([s.heap.length] ++ allVnodes s).Nodup
      rw [List.singleton_append, List.nodup_cons]
      exact ⟨hfresh, hnd⟩
    · intro q
      dsimp only
      rw [vnode_zalloc]
      show _ ↔ q ∈ [s.heap.length] ++ allVnodes s
      rw [List.singleton_append, List.mem_cons, ← hai]
      by_cases hq : q = s.heap.length <;> simp [hq]
    · intro q hq
      dsimp only
      rw [vnode_zalloc]
      split
      · rfl
      · exact hw q hq
  · refine ⟨⟨hi.free_size, ?_, hi.nodup, hi.alloc_iff, hi.literal_virtual⟩, hw⟩
    show s.g_totalVnodeSize + 1 ≤ _
    omega

theorem allocSlot_PoolInv {env : Env} {s : State} {r : Option Nat} {s1 : State}
    (hi : PoolInv env s) (hw : FreeWiped s) (h : allocSlot env s = some (r, s1)) :
    PoolInvD env s1 r ∧ FreeWiped s1 := by
  unfold allocSlot at h
  have h0 := GetFromFreeList_PoolInv hi hw
  generalize GetFromFreeList s = r0 at h h0
  obtain ⟨v0, s0⟩ := r0
  simp only at h h0
  by_cases hc : v0 = none ∧ s0.g_totalVnodeSize < (env.LOSCFG_MAX_VNODE_SIZE : Int)
  · rw [if_pos hc] at h
    obtain ⟨hv0, hlt⟩ := hc
    subst hv0
    have h1 := zallocVnode_PoolInv h0.1 h0.2 hlt
    generalize zallocVnode env s0 = r1 at h h1
    obtain ⟨v1, s1a⟩ := r1
    simp only at h h1
    by_cases hv1 : v1 = none
    · rw [if_pos hv1] at h
      subst hv1
      exact VnodeReclaimLru_PoolInv h1.1 h1.2 h
    · rw [if_neg hv1] at h
      simp only [Option.some.injEq, Prod.mk.injEq] at h
      rw [← h.1, ← h.2]
      exact h1
  · rw [if_neg hc] at h
    simp only at h
    by_cases hv0 : v0 = none
    · rw [if_pos hv0] at h
      subst hv0
      exact VnodeReclaimLru_PoolInv h0.1 h0.2 h
    · rw [if_neg hv0] at h
      simp only [Option.some.injEq, Prod.mk.injEq] at h
      rw [← h.1, ← h.2]
      exact h0

/-- The vnode record `VnodeAlloc` leaves in the slot it hands out. -/
theorem enrolVnode_virtual {s : State} {p : Nat} {vn : Vnode} (h : s.vnode p = some vn) :
    enrolVnode s none p = some
      { s.setVnode p { vn with type := VNODE_TYPE_UNKNOWN, vop := some g_devfsOps,
                               mappingHost := some p } with
        g_vnodeVirtualList := p :: s.g_vnodeVirtualList } := by
  simp [enrolVnode, h, State.setVnode]

theorem enrolVnode_active {s : State} {p : Nat} {vn : Vnode} (op : Nat) (h : s.vnode p = some vn) :
    enrolVnode s (some op) p = some
      { s.setVnode p { vn with type := VNODE_TYPE_UNKNOWN, vop := some op,
                               mappingHost := some p } with
        g_vnodeActiveList := s.g_vnodeActiveList ++ [p] } := by
  simp [enrolVnode, h, State.setVnode]

theorem enrolVnode_literalPaths {s s1 : State} {p : Nat} {vop : Option Nat}
    (h : enrolVnode s vop p = some s1) : s1.literalPaths = s.literalPaths := by
  cases hv : s.vnode p with
  | none => simp [enrolVnode, hv] at h
  | some vn =>
    cases vop with
    | none =>
      rw [enrolVnode_virtual hv] at h
      cases h
      rfl
    | some op =>
      rw [enrolVnode_active op hv] at h
      cases h
      rfl

/-- What `enrolVnode` does, in one statement for both lists. -/
theorem enrolVnode_spec {s : State} {p : Nat} {vn : Vnode} (vop : Option Nat)
    (h : s.vnode p = some vn) :
    ∃ s1, enrolVnode s vop p = some s1 ∧
      s1.g_vnodeFreeList = s.g_vnodeFreeList ∧
      s1.g_freeVnodeSize = s.g_freeVnodeSize ∧
      s1.g_totalVnodeSize = s.g_totalVnodeSize ∧
      s1.g_vnodeVirtualList = (if vop = none then p :: s.g_vnodeVirtualList
        else s.g_vnodeVirtualList) ∧
      s1.g_vnodeActiveList = (if vop = none then s.g_vnodeActiveList
        else s.g_vnodeActiveList ++ [p]) ∧
      s1.vnode p = some { vn with type := VNODE_TYPE_UNKNOWN,
                                  vop := some (vop.getD g_devfsOps), mappingHost := some p } ∧
      (∀ q, q ≠ p → s1.vnode q = s.vnode q) := by
  have hlt := vnode_lt_length h
  cases vop with
  | none =>
    refine ⟨_, enrolVnode_virtual h, rfl, rfl, rfl, by simp, by simp, ?_, ?_⟩
    · exact vnode_setVnode_same (s := s) _ hlt
    · intro q hq
      exact vnode_setVnode_ne (s := s) _ hq
  | some op =>
    refine ⟨_, enrolVnode_active op h, rfl, rfl, rfl, by simp, by simp, ?_, ?_⟩
    · exact vnode_setVnode_same (s := s) _ hlt
    · intro q hq
      exact vnode_setVnode_ne (s := s) _ hq

theorem enrolVnode_PoolInv {env : Env} {s : State} {p : Nat} (vop : Option Nat)
    (hi : PoolInvD env s (some p)) (hw : FreeWiped s) :
    ∃ s1, enrolVnode s vop p = some s1 ∧ PoolInv env s1 ∧ FreeWiped s1 := by
  have hnd : (p :: allVnodes s).Nodup := by simpa using hi.nodup
  have hai : ∀ q, (s.vnode q).isSome = true ↔ q ∈ p :: allVnodes s := by simpa using hi.alloc_iff
  have hp : (s.vnode p).isSome = true := (hai p).2 (List.mem_cons_self _ _)
  obtain ⟨vn, hv⟩ := Option.isSome_iff_exists.1 hp
  obtain ⟨s1, he, hf, hfs, hts, hvl, hal, hvp, hvq⟩ := enrolVnode_spec vop hv
  have hperm : (allVnodes s1).Perm (p :: allVnodes s) := by
    unfold allVnodes
    rw [hf, hvl, hal]
    cases vop with
    | none =>
      simp only [if_true]
      rw [List.append_assoc, List.append_assoc, List.cons_append]
      exact List.perm_middle
    | some op =>
      simp only [if_false, reduceCtorEq]
      rw [← List.append_assoc]
      exact List.perm_append_singleton _ _
  have hpnf : p ∉ s.g_vnodeFreeList := by
    intro hm
    have : p ∈ allVnodes s := by simp [allVnodes, hm]
    exact (List.nodup_cons.1 hnd).1 this
  refine ⟨s1, he, ⟨?_, ?_, ?_, ?_, ?_⟩, ?_⟩
  · rw [hfs, hf]; exact hi.free_size
  · rw [hts]; exact hi.total_le
  · simp only [Option.toList, List.nil_append]
    exact hperm.nodup_iff.2 hnd
  · intro q
    simp only [Option.toList, List.nil_append]
    rw [hperm.mem_iff, ← hai]
    by_cases hq : q = p
    · subst hq; simp [hvp, hp]
    · rw [hvq q hq]
  · intro q hq
    rw [enrolVnode_literalPaths he] at hq
    have := hi.literal_virtual q hq
    rw [hvl]
    split
    · exact List.mem_cons_of_mem _ this
    · exact this
  · intro q hq
    rw [hf] at hq
    have hne : q ≠ p := fun e => hpnf (e ▸ hq)
    rw [hvq q hne]
    exact hw q hq

/-- `VnodeAlloc` keeps the pool predicate. -/
theorem VnodeAlloc_PoolInv {env : Env} {s : State} {vop : Option Nat} {ret : Int}
    {v : Option Nat} {s1 : State}
    (hi : PoolInv env s) (hw : FreeWiped s) (h : VnodeAlloc env s vop = some (ret, v, s1)) :
    PoolInv env s1 ∧ FreeWiped s1 := by
  unfold VnodeAlloc at h
  cases ha : allocSlot env s with
  | none => rw [ha] at h; cases h
  | some x =>
    obtain ⟨r, s2⟩ := x
    have h2 := allocSlot_PoolInv hi hw ha
    rw [ha] at h
    cases r with
    | none =>
      simp only [Option.some.injEq, Prod.mk.injEq] at h
      rw [← h.2.2]
      exact h2
    | some p =>
      simp only at h
      obtain ⟨s3, he, h3⟩ := enrolVnode_PoolInv vop h2.1 h2.2
      rw [he] at h
      simp only [Option.some.injEq, Prod.mk.injEq] at h
      rw [← h.2.2]
      exact h3

/-- When the slot selection returns, so does `VnodeAlloc` on a pool state. -/
theorem VnodeAlloc_of_allocSlot {env : Env} {s : State} (vop : Option Nat) {r : Option Nat}
    {s1 : State} (hi : PoolInv env s) (hw : FreeWiped s) (ha : allocSlot env s = some (r, s1)) :
    ∃ s2, VnodeAlloc env s vop = some (if r = none then -ENOMEM else LOS_OK, r, s2) := by
  have h2 := allocSlot_PoolInv hi hw ha
  unfold VnodeAlloc
  rw [ha]
  cases r with
  | none => exact ⟨s1, by simp⟩
  | some p =>
    obtain ⟨s3, he, _⟩ := enrolVnode_PoolInv vop h2.1 h2.2
    exact ⟨s3, by simp [he]⟩

theorem PoolInv_bootState (env : Env) : PoolInv env bootState ∧ FreeWiped bootState := by
  refine ⟨⟨rfl, ?_, ?_, ?_, ?_⟩, ?_⟩
  · show (0 : Int) ≤ _
    exact Int.ofNat_nonneg _
  · simp [allVnodes, bootState]
  · intro p
    simp [allVnodes, bootState, State.vnode]
  · intro p hp
    simp [bootState] at hp
  · intro p hp
    simp [bootState] at hp

theorem VnodeFree_active_sublist {env : Env} {s : State} {v : Option Nat} {ret : Int}
    {s1 : State} (h : VnodeFree env s v = some (ret, s1)) :
    s1.g_vnodeActiveList.Sublist s.g_vnodeActiveList := by
  rcases VnodeFree_cases h with ⟨_, _, rfl⟩ | ⟨p, vn, _, _, _, _, rfl⟩ |
    ⟨p, vn, _, hv, _, hop, _, rfl⟩ | ⟨p, vn, op, _, hv, _, hop, _, _, rfl⟩
  · exact List.Sublist.refl _
  · exact List.Sublist.refl _
  · exact List.filter_sublist _
  · exact List.filter_sublist _

theorem reclaimLoop_active_sublist (env : Env) :
    ∀ (items : List Nat) (s : State) (rc rc1 : Int) (s1 : State),
      reclaimLoop env items s rc = some (rc1, s1) →
      s1.g_vnodeActiveList.Sublist s.g_vnodeActiveList := by
  intro items
  induction items with
  | nil =>
    intro s rc rc1 s1 h
    simp only [reclaimLoop, Option.some.injEq, Prod.mk.injEq] at h
    rw [← h.2]
  | cons item rest ih =>
    intro s rc rc1 s1 h
    unfold reclaimLoop at h
    cases hv : s.vnode item with
    | none => rw [hv] at h; cases h
    | some vn =>
      rw [hv] at h
      simp only at h
      by_cases hs : skipReclaim vn = true
      · rw [if_pos hs] at h
        exact ih s rc rc1 s1 h
      · rw [if_neg hs] at h
        cases hf : VnodeFree env s (some item) with
        | none => rw [hf] at h; cases h
        | some r =>
          obtain ⟨ret, s2⟩ := r
          rw [hf] at h
          simp only at h
          have h2 := VnodeFree_active_sublist hf
          generalize (if ret = LOS_OK then rc + 1 else rc) = rcn at h
          split at h
          · simp only [Option.some.injEq, Prod.mk.injEq] at h
            rw [← h.2]
            exact h2
          · exact (ih s2 _ rc1 s1 h).trans h2

theorem GetFromFreeList_active_sublist (s : State) :
    (GetFromFreeList s).2.g_vnodeActiveList.Sublist s.g_vnodeActiveList := by
  unfold GetFromFreeList
  split
  · exact List.Sublist.refl _
  · split
    · exact List.Sublist.refl _
    · exact List.filter_sublist _

theorem VnodeReclaimLru_active_sublist {env : Env} {s : State} {r : Option Nat} {s1 : State}
    (h : VnodeReclaimLru env s = some (r, s1)) :
    s1.g_vnodeActiveList.Sublist s.g_vnodeActiveList := by
  unfold VnodeReclaimLru at h
  cases hl : reclaimLoop env s.g_vnodeActiveList s 0 with
  | none => rw [hl] at h; cases h
  | some x =>
    obtain ⟨rc, s2⟩ := x
    rw [hl] at h
    simp only at h
    have h2 := reclaimLoop_active_sublist env _ _ _ _ _ hl
    split at h
    · simp only [Option.some.injEq, Prod.mk.injEq] at h
      rw [← h.2]
      exact h2
    · simp only [Option.some.injEq] at h
      have := GetFromFreeList_active_sublist s2
      rw [h] at this
      exact this.trans h2

theorem zallocVnode_active (env : Env) (s : State) :
    (zallocVnode env s).2.g_vnodeActiveList = s.g_vnodeActiveList := by
  unfold zallocVnode
  split <;> rfl

theorem allocSlot_active_sublist {env : Env} {s : State} {r : Option Nat} {s1 : State}
    (h : allocSlot env s = some (r, s1)) :
    s1.g_vnodeActiveList.Sublist s.g_vnodeActiveList := by
  unfold allocSlot at h
  have h0 := GetFromFreeList_active_sublist s
  generalize GetFromFreeList s = r0 at h h0
  obtain ⟨v0, s0⟩ := r0
  simp only at h h0
  by_cases hc : v0 = none ∧ s0.g_totalVnodeSize < (env.LOSCFG_MAX_VNODE_SIZE : Int)
  · rw [if_pos hc] at h
    have h1 := zallocVnode_active env s0
    generalize zallocVnode env s0 = r1 at h h1
    obtain ⟨v1, s1a⟩ := r1
    simp only at h h1
    by_cases hv1 : v1 = none
    · rw [if_pos hv1] at h
      have := VnodeReclaimLru_active_sublist h
      rw [h1] at this
      exact this.trans h0
    · rw [if_neg hv1] at h
      simp only [Option.some.injEq, Prod.mk.injEq] at h
      rw [← h.2, h1]
      exact h0
  · rw [if_neg hc] at h
    simp only at h
    by_cases hv0 : v0 = none
    · rw [if_pos hv0] at h
      exact (VnodeReclaimLru_active_sublist h).trans h0
    · rw [if_neg hv0] at h
      simp only [Option.some.injEq, Prod.mk.injEq] at h
      rw [← h.2]
      exact h0

/-- What a successful `VnodeAlloc` leaves behind for the vnode it hands out. -/
theorem VnodeAlloc_enrolled (env : Env) (s : State) (vop : Option Nat) (p : Nat) (s1 : State)
    (h : VnodeAlloc env s vop = some (LOS_OK, some p, s1)) :
    ∃ vn, s1.vnode p = some vn ∧ vn.type = VNODE_TYPE_UNKNOWN ∧
      (vop = none → p ∈ s1.g_vnodeVirtualList ∧ vn.vop = some g_devfsOps) ∧
      (∀ op, vop = some op →
        vn.vop = some op ∧ s1.g_vnodeActiveList.getLast? = some p ∧
        ∃ l, s1.g_vnodeActiveList = l ++ [p] ∧ l.Sublist s.g_vnodeActiveList) := by
  unfold VnodeAlloc at h
  cases ha : allocSlot env s with
  | none => rw [ha] at h; cases h
  | some x =>
    obtain ⟨r, s2⟩ := x
    rw [ha] at h
    cases r with
    | none =>
      simp only [Option.some.injEq, Prod.mk.injEq] at h
      exact absurd h.1 (by decide)
    | some q =>
      simp only at h
      cases he : enrolVnode s2 vop q with
      | none => rw [he] at h; cases h
      | some s3 =>
        rw [he] at h
        simp only [Option.some.injEq, Prod.mk.injEq, true_and] at h
        obtain ⟨hq, hs⟩ := h
        subst hq hs
        cases hv : s2.vnode q with
        | none => simp [enrolVnode, hv] at he
        | some vn0 =>
          obtain ⟨s4, he4, -, -, -, hvl, hal, hvp, -⟩ := enrolVnode_spec vop hv
          rw [he] at he4
          cases he4
          refine ⟨_, hvp, rfl, ?_, ?_⟩
          · intro hn
            subst hn
            rw [hvl]
            simp
          · intro op ho
            subst ho
            rw [hal]
            simp only [reduceCtorEq, if_false]
            refine ⟨by simp, by simp, s2.g_vnodeActiveList, rfl, allocSlot_active_sublist ha⟩

/-! ## Slot selection -/

theorem GetFromFreeList_of_nonpos {s : State} (h : s.g_freeVnodeSize ≤ 0) :
    GetFromFreeList s = (none, s) := by
  simp [GetFromFreeList, h]

theorem GetFromFreeList_nil {env : Env} {s : State} (hi : PoolInv env s)
    (hnil : s.g_vnodeFreeList = []) : GetFromFreeList s = (none, s) := by
  have := hi.free_size
  rw [hnil] at this
  exact GetFromFreeList_of_nonpos (by rw [this]; simp)

theorem GetFromFreeList_cons {env : Env} {s : State} {v : Nat} {rest : List Nat}
    (hi : PoolInv env s) (hc : s.g_vnodeFreeList = v :: rest) :
    (GetFromFreeList s).1 = some v := by
  have := hi.free_size
  rw [hc] at this
  have hpos : ¬ s.g_freeVnodeSize ≤ 0 := by
    rw [this]; simp
  simp [GetFromFreeList, hpos, hc]

theorem allocSlot_free_head {env : Env} {s : State} {v : Nat} {rest : List Nat}
    (hi : PoolInv env s) (hc : s.g_vnodeFreeList = v :: rest) :
    allocSlot env s = some (some v, (GetFromFreeList s).2) := by
  have h1 := GetFromFreeList_cons hi hc
  unfold allocSlot
  generalize GetFromFreeList s = r0 at h1
  obtain ⟨v0, s0⟩ := r0
  simp only at h1
  subst h1
  simp

theorem allocSlot_fresh {env : Env} {s : State} (hfs : s.g_freeVnodeSize ≤ 0)
    (hlt : s.g_totalVnodeSize < (env.LOSCFG_MAX_VNODE_SIZE : Int))
    (hz : env.zallocOk s = true) :
    allocSlot env s = some (some s.heap.length,
      { s with heap := s.heap ++ [some zeroVnode], g_totalVnodeSize := s.g_totalVnodeSize + 1 }) := by
  unfold allocSlot
  rw [GetFromFreeList_of_nonpos hfs]
  simp [hlt, zallocVnode, hz]

theorem allocSlot_reclaim {env : Env} {s : State} (hfs : s.g_freeVnodeSize ≤ 0)
    (hno : ¬ (s.g_totalVnodeSize < (env.LOSCFG_MAX_VNODE_SIZE : Int) ∧ env.zallocOk s = true)) :
    allocSlot env s = VnodeReclaimLru env (reclaimEntry env s) := by
  unfold allocSlot reclaimEntry
  rw [GetFromFreeList_of_nonpos hfs]
  by_cases hlt : s.g_totalVnodeSize < (env.LOSCFG_MAX_VNODE_SIZE : Int)
  · have hz : env.zallocOk s = false := by
      cases h : env.zallocOk s with
      | false => rfl
      | true => exact absurd ⟨hlt, h⟩ hno
    simp [hlt, zallocVnode, hz]
  · simp [hlt]

theorem reclaimLoop_all_skipped (env : Env) (s : State) (rc : Int) :
    ∀ items : List Nat, (∀ p ∈ items, ∃ vn, s.vnode p = some vn ∧ skipReclaim vn = true) →
      reclaimLoop env items s rc = some (rc, s) := by
  intro items
  induction items with
  | nil => intro _; rfl
  | cons item rest ih =>
    intro h
    obtain ⟨vn, hv, hs⟩ := h item (List.mem_cons_self _ _)
    unfold reclaimLoop
    rw [hv]
    simp only [hs, if_true]
    exact ih (fun p hp => h p (List.mem_cons_of_mem _ hp))

theorem VnodeReclaimLru_none_of_noReclaimable {env : Env} {s : State} (h : NoReclaimable s) :
    VnodeReclaimLru env s = some (none, s) := by
  unfold VnodeReclaimLru
  rw [reclaimLoop_all_skipped env s 0 _ h]
  simp

/-- A fresh slot: empty free list, room under the ceiling, allocator succeeding. -/
theorem VnodeAlloc_fresh {env : Env} {s : State} (vop : Option Nat)
    (hfs : s.g_freeVnodeSize ≤ 0)
    (hlt : s.g_totalVnodeSize < (env.LOSCFG_MAX_VNODE_SIZE : Int))
    (hz : env.zallocOk s = true) :
    ∃ s1, VnodeAlloc env s vop = some (LOS_OK, some s.heap.length, s1) ∧
      s1.g_vnodeFreeList = s.g_vnodeFreeList ∧
      s1.g_freeVnodeSize = s.g_freeVnodeSize ∧
      s1.g_totalVnodeSize = s.g_totalVnodeSize + 1 := by
  have hv := vnode_zalloc s (s.g_totalVnodeSize + 1) s.heap.length
  rw [if_pos rfl] at hv
  obtain ⟨s1, he, hf, hfs1, hts, -⟩ := enrolVnode_spec vop hv
  refine ⟨s1, ?_, hf, hfs1, hts⟩
  unfold VnodeAlloc
  rw [allocSlot_fresh hfs hlt hz]
  simp only
  rw [he]

/-- A saturated pool: nothing free, no room, nothing to reclaim. -/
theorem VnodeAlloc_full {env : Env} {s : State} (vop : Option Nat)
    (hfs : s.g_freeVnodeSize ≤ 0)
    (hge : ¬ s.g_totalVnodeSize < (env.LOSCFG_MAX_VNODE_SIZE : Int))
    (hnr : NoReclaimable s) :
    VnodeAlloc env s vop = some (-ENOMEM, none, s) := by
  unfold VnodeAlloc
  rw [allocSlot_reclaim hfs (fun h => hge h.1)]
  have : reclaimEntry env s = s := by simp [reclaimEntry, hge]
  rw [this, VnodeReclaimLru_none_of_noReclaimable hnr]

theorem AllocRun_statuses {env : Env} (hz : ∀ s, env.zallocOk s = true)
    {s : State} {rets : List Int} {s1 : State} (h : AllocRun env s rets s1) :
    ∀ n : Nat, s.g_freeVnodeSize = 0 → s.g_totalVnodeSize = (n : Int) →
      n ≤ env.LOSCFG_MAX_VNODE_SIZE → NoReclaimable s →
      rets = List.replicate (min rets.length (env.LOSCFG_MAX_VNODE_SIZE - n)) LOS_OK ++
        List.replicate (rets.length - (env.LOSCFG_MAX_VNODE_SIZE - n)) (-ENOMEM) := by
  induction h with
  | done s => intro n _ _ _ _; simp
  | @call s sa sb sc vop v ret rets ha hc hnr _ ih =>
    intro n hfs ht hle hnr0
    obtain ⟨-, -, -, hcfs, hcts⟩ := hc
    by_cases hlt : n < env.LOSCFG_MAX_VNODE_SIZE
    · have hlt1 : s.g_totalVnodeSize < (env.LOSCFG_MAX_VNODE_SIZE : Int) := by
        rw [ht]; exact_mod_cast hlt
      obtain ⟨sx, hx, -, hxfs, hxts⟩ := VnodeAlloc_fresh vop (le_of_eq hfs) hlt1 (hz s)
      rw [hx] at ha
      simp only [Option.some.injEq, Prod.mk.injEq] at ha
      obtain ⟨hret, -, hsx⟩ := ha
      subst hsx
      have hb := ih (n + 1) (by rw [hcfs, hxfs, hfs]) (by rw [hcts, hxts, ht]; push_cast; rfl)
        hlt hnr
      have e1 : min (rets.length + 1) (env.LOSCFG_MAX_VNODE_SIZE - n) =
          min rets.length (env.LOSCFG_MAX_VNODE_SIZE - (n + 1)) + 1 := by omega
      have e2 : rets.length + 1 - (env.LOSCFG_MAX_VNODE_SIZE - n) =
          rets.length - (env.LOSCFG_MAX_VNODE_SIZE - (n + 1)) := by omega
      rw [List.length_cons, e1, e2, List.replicate_succ, List.cons_append, ← hb, hret]
    · have hge : ¬ s.g_totalVnodeSize < (env.LOSCFG_MAX_VNODE_SIZE : Int) := by
        rw [ht]; exact_mod_cast hlt
      rw [VnodeAlloc_full vop (le_of_eq hfs) hge hnr0] at ha
      simp only [Option.some.injEq, Prod.mk.injEq] at ha
      obtain ⟨hret, -, hsx⟩ := ha
      subst hsx
      have hb := ih n (by rw [hcfs, hfs]) (by rw [hcts, ht]) hle hnr
      have e0 : env.LOSCFG_MAX_VNODE_SIZE - n = 0 := by omega
      rw [e0] at hb ⊢
      simp only [Nat.min_zero, List.replicate_zero, List.nil_append, Nat.sub_zero,
        List.length_cons, List.replicate_succ] at hb ⊢
      rw [← hb, hret]

/-! ## The reclaim pass -/

theorem vnode_freedState_ne (s : State) {p q : Nat} (h : q ≠ p) :
    (freedState s p).vnode q = s.vnode q := by
  unfold freedState
  cases hv : s.vnode p with
  | none => rfl
  | some vn =>
    simp only
    split
    · rw [vnode_freedDevice, if_neg h]
    · rw [vnode_freedRecycled (vnode_lt_length hv), if_neg h]

theorem literalPaths_freedState {s : State} {p q : Nat}
    (h : q ∈ (freedState s p).literalPaths) : q ∈ s.literalPaths := by
  unfold freedState at h
  cases hv : s.vnode p with
  | none => rw [hv] at h; exact h
  | some vn =>
    rw [hv] at h
    simp only at h
    split at h
    · exact (mem_filter_ne.1 h).1
    · exact (mem_filter_ne.1 h).1

theorem VnodeFree_unpinned {env : Env} {s : State} {p : Nat} {vn : Vnode}
    (hv : s.vnode p = some vn) (hu : ¬ vn.useCount > 0) (hop : vn.vop ≠ none)
    (hlit : p ∉ s.literalPaths) :
    VnodeFree env s (some p) = some (LOS_OK, freedState s p) := by
  obtain ⟨op, ho⟩ := Option.ne_none_iff_exists'.1 hop
  unfold freedState
  rw [hv]
  simp only
  by_cases hd : op = g_devfsOps
  · subst hd
    rw [if_pos ho]
    exact VnodeFree_device hv hu ho (Or.inr hlit)
  · have : vn.vop ≠ some g_devfsOps := by rw [ho]; simpa using hd
    rw [if_neg this]
    exact VnodeFree_recycled hv hu ho hd (Or.inr hlit)

theorem VnodeFree_reclaimable {env : Env} {s : State} {p : Nat} {vn : Vnode}
    (hv : s.vnode p = some vn) (hs : skipReclaim vn = false) (hop : vn.vop ≠ none)
    (hlit : p ∉ s.literalPaths) :
    VnodeFree env s (some p) = some (LOS_OK, freedState s p) := by
  have hu : ¬ vn.useCount > 0 := by
    intro hu
    simp [skipReclaim, hu] at hs
  exact VnodeFree_unpinned hv hu hop hlit

theorem reclaimable_congr {s t : State} {p : Nat} (h : t.vnode p = s.vnode p) :
    reclaimable t p = reclaimable s p := by
  unfold reclaimable
  rw [h]

/-- The reclaim loop frees the vnodes of `batchOf` one after the other. -/
theorem reclaimLoop_eq (env : Env) :
    ∀ (items : List Nat) (s : State) (rc : Int) (n : Nat),
      items.Nodup → rc + (n : Int) = VNODE_LRU_COUNT → 0 < n →
      (∀ p ∈ items, ∃ vn, s.vnode p = some vn ∧ vn.vop ≠ none) →
      (∀ p ∈ items, p ∉ s.literalPaths) →
      reclaimLoop env items s rc =
        some (rc + ((batchOf s items n).length : Int), (batchOf s items n).foldl freedState s) := by
  intro items
  induction items with
  | nil =>
    intro s rc n _ _ _ _ _
    simp [reclaimLoop, batchOf]
  | cons item rest ih =>
    intro s rc n hnd hrc hn hall hlit
    have hlr : ∀ p ∈ rest, p ∉ s.literalPaths :=
      fun p hp => hlit p (List.mem_cons_of_mem _ hp)
    obtain ⟨vn, hv, hop⟩ := hall item (List.mem_cons_self _ _)
    obtain ⟨hir, hndr⟩ := List.nodup_cons.1 hnd
    have hrest : ∀ p ∈ rest, ∃ vn, s.vnode p = some vn ∧ vn.vop ≠ none :=
      fun p hp => hall p (List.mem_cons_of_mem _ hp)
    unfold reclaimLoop
    rw [hv]
    simp only
    cases hs : skipReclaim vn with
    | true =>
      have he : reclaimable s item = false := by simp [reclaimable, hv, hs]
      have hb : batchOf s (item :: rest) n = batchOf s rest n := by
        simp [batchOf, List.filter_cons, he]
      rw [hb]
      simp only [if_true]
      exact ih s rc n hndr hrc hn hrest hlr
    | false =>
      have he : reclaimable s item = true := by simp [reclaimable, hv, hs]
      obtain ⟨m, rfl⟩ : ∃ m, n = m + 1 := ⟨n - 1, by omega⟩
      have hb : batchOf s (item :: rest) (m + 1) = item :: batchOf s rest m := by
        simp [batchOf, List.filter_cons, he]
      rw [hb, VnodeFree_reclaimable hv hs hop (hlit item (List.mem_cons_self _ _))]
      simp only [Bool.false_eq_true, if_false, if_true, List.foldl_cons, List.length_cons]
      have hvq : ∀ q ∈ rest, (freedState s item).vnode q = s.vnode q := by
        intro q hq
        exact vnode_freedState_ne s (fun e => hir (e ▸ hq))
      have hbq : batchOf (freedState s item) rest m = batchOf s rest m := by
        unfold batchOf
        congr 1
        apply List.filter_congr
        intro q hq
        exact reclaimable_congr (hvq q hq)
      by_cases hm : m = 0
      · subst hm
        have hge : rc + 1 ≥ VNODE_LRU_COUNT := by
          have : rc + 1 = VNODE_LRU_COUNT := by rw [← hrc]; push_cast; rfl
          omega
        rw [if_pos hge]
        simp [batchOf]
      · have hlt : ¬ rc + 1 ≥ VNODE_LRU_COUNT := by
          have : rc + 1 + (m : Int) = VNODE_LRU_COUNT := by rw [← hrc]; push_cast; ring
          have hmpos : (0 : Int) < m := by exact_mod_cast Nat.pos_of_ne_zero hm
          omega
        rw [if_neg hlt]
        have := ih (freedState s item) (rc + 1) m hndr
          (by rw [← hrc]; push_cast; ring) (Nat.pos_of_ne_zero hm)
          (fun q hq => by rw [hvq q hq]; exact hrest q hq)
          (fun q hq hl => hlr q hq (literalPaths_freedState hl))
        rw [this, hbq]
        congr 2
        push_cast
        ring

theorem isDevice_congr {s t : State} {p : Nat} (h : t.vnode p = s.vnode p) :
    isDevice t p = isDevice s p := by
  unfold isDevice
  rw [h]

theorem FreedBatch_single {s : State} {p : Nat} {vn : Vnode} (hv : s.vnode p = some vn) :
    FreedBatch s [p] (freedState s p) := by
  have hf : ∀ l : List Nat, l.filter (fun q => decide (q ∉ [p])) = l.filter (fun w => w != p) := by
    intro l
    apply List.filter_congr
    intro q _
    by_cases e : q = p <;> simp [e]
  by_cases hd : vn.vop = some g_devfsOps
  · have hdev : isDevice s p = true := by simp [isDevice, hv, hd]
    have hst : freedState s p = freedDevice s p := by simp [freedState, hv, hd]
    rw [hst]
    refine ⟨?_, ?_, ?_, ?_, ?_, ?_, ?_, rfl⟩
    · rw [hf]; rfl
    · rw [hf]; rfl
    · rw [hf]; simp [hdev]; rfl
    · simp [hdev]; rfl
    · simp [hdev]; rfl
    · intro q hq
      rw [vnode_freedDevice, if_neg (by simpa using hq)]
    · intro q hq
      have : q = p := by simpa using hq
      subst this
      rw [vnode_freedDevice, if_pos rfl, if_pos hdev]
  · have hdev : isDevice s p = false := by simp [isDevice, hv, hd]
    have hst : freedState s p = freedRecycled s p := by simp [freedState, hv, hd]
    rw [hst]
    refine ⟨?_, ?_, ?_, ?_, ?_, ?_, ?_, rfl⟩
    · rw [hf]; rfl
    · rw [hf]; rfl
    · rw [hf]; simp [hdev]; rfl
    · simp [hdev]; rfl
    · simp [hdev]; rfl
    · intro q hq
      rw [vnode_freedRecycled (vnode_lt_length hv), if_neg (by simpa using hq)]
    · intro q hq
      have : q = p := by simpa using hq
      subst this
      rw [vnode_freedRecycled (vnode_lt_length hv), if_pos rfl, hdev]
      simp

theorem FreedBatch_nil (s : State) : FreedBatch s [] s := by
  refine ⟨?_, ?_, ?_, ?_, ?_, ?_, ?_, rfl⟩ <;> simp

theorem FreedBatch_cons {s s2 t : State} {p : Nat} {rest : List Nat}
    (hp : p ∉ rest) (h1 : FreedBatch s [p] s2) (h2 : FreedBatch s2 rest t) :
    FreedBatch s (p :: rest) t := by
  have hff : ∀ l : List Nat, (l.filter (fun q => decide (q ∉ [p]))).filter
      (fun q => decide (q ∉ rest)) = l.filter (fun q => decide (q ∉ p :: rest)) := by
    intro l
    rw [List.filter_filter]
    apply List.filter_congr
    intro q _
    by_cases e1 : q = p <;> by_cases e2 : q ∈ rest <;> simp [e1, e2]
  have hdev : ∀ q ∈ rest, isDevice s2 q = isDevice s q := by
    intro q hq
    exact isDevice_congr (h1.others q (by simpa using fun e : q = p => hp (e ▸ hq)))
  have hfd : rest.filter (fun q => isDevice s2 q) = rest.filter (fun q => isDevice s q) :=
    List.filter_congr (fun q hq => hdev q hq)
  have hfn : rest.filter (fun q => !isDevice s2 q) = rest.filter (fun q => !isDevice s q) :=
    List.filter_congr (fun q hq => by rw [hdev q hq])
  refine ⟨?_, ?_, ?_, ?_, ?_, ?_, ?_, h2.root.trans h1.root⟩
  · rw [h2.active, h1.active, hff]
  · rw [h2.virt, h1.virt, hff]
  · rw [h2.free, h1.free, hfn]
    cases hd : isDevice s p with
    | true =>
      have a1 : [p].filter (fun p => !isDevice s p) = [] := by simp [hd]
      have a2 : (p :: rest).filter (fun p => !isDevice s p) =
          rest.filter (fun p => !isDevice s p) := by simp [List.filter_cons, hd]
      rw [a1, a2, List.reverse_nil, List.nil_append, hff]
    | false =>
      have a1 : [p].filter (fun p => !isDevice s p) = [p] := by simp [hd]
      have a2 : (p :: rest).filter (fun p => !isDevice s p) =
          p :: rest.filter (fun p => !isDevice s p) := by simp [List.filter_cons, hd]
      rw [a1, a2, List.reverse_singleton, List.singleton_append, List.filter_cons,
        if_pos (by simpa using hp), hff, List.reverse_cons, List.append_assoc,
        List.singleton_append]
  · rw [h2.free_size, h1.free_size, hfn]
    cases hd : isDevice s p <;> simp [hd, List.filter_cons]
    ring
  · rw [h2.total_size, h1.total_size, hfd]
    cases hd : isDevice s p <;> simp [hd, List.filter_cons]
    ring
  · intro q hq
    have hqp : q ≠ p := fun e => hq (e ▸ List.mem_cons_self _ _)
    have hqr : q ∉ rest := fun hm => hq (List.mem_cons_of_mem _ hm)
    rw [h2.others q hqr, h1.others q (by simpa using hqp)]
  · intro q hq
    rcases List.mem_cons.1 hq with e | hm
    · subst e
      rw [h2.others q hp, h1.freed q (List.mem_singleton_self _)]
    · rw [h2.freed q hm, hdev q hm]

theorem FreedBatch_foldl :
    ∀ (batch : List Nat) (s : State), batch.Nodup →
      (∀ p ∈ batch, ∃ vn, s.vnode p = some vn) →
      FreedBatch s batch (batch.foldl freedState s) := by
  intro batch
  induction batch with
  | nil => intro s _ _; exact FreedBatch_nil s
  | cons p rest ih =>
    intro s hnd hall
    obtain ⟨hp, hndr⟩ := List.nodup_cons.1 hnd
    obtain ⟨vn, hv⟩ := hall p (List.mem_cons_self _ _)
    have h1 := FreedBatch_single hv
    refine FreedBatch_cons hp h1 (ih (freedState s p) hndr ?_)
    intro q hq
    rw [h1.others q (by simpa using fun e : q = p => hp (e ▸ hq))]
    exact hall q (List.mem_cons_of_mem _ hq)

theorem PoolInv_allVnodes_nodup {env : Env} {s : State} (hi : PoolInv env s) :
    (allVnodes s).Nodup := by
  simpa using hi.nodup

theorem PoolInv_active_nodup {env : Env} {s : State} (hi : PoolInv env s) :
    s.g_vnodeActiveList.Nodup := by
  have := PoolInv_allVnodes_nodup hi
  unfold allVnodes at this
  exact (List.nodup_append.1 this).2.1

theorem PoolInv_active_allocated {env : Env} {s : State} (hi : PoolInv env s) {p : Nat}
    (hp : p ∈ s.g_vnodeActiveList) : ∃ vn, s.vnode p = some vn := by
  have := (hi.alloc_iff p).2 (by simp [allVnodes, hp])
  exact Option.isSome_iff_exists.1 this

theorem PoolInv_active_not_free {env : Env} {s : State} (hi : PoolInv env s) {p : Nat}
    (hp : p ∈ s.g_vnodeActiveList) : p ∉ s.g_vnodeFreeList ∧ p ∉ s.g_vnodeVirtualList := by
  have := PoolInv_allVnodes_nodup hi
  unfold allVnodes at this
  have hd := (List.nodup_append.1 this).2.2
  constructor
  · intro hf
    exact hd (List.mem_append_left _ hf) hp
  · intro hv
    exact hd (List.mem_append_right _ hv) hp

theorem PoolInv_active_not_literal {env : Env} {s : State} (hi : PoolInv env s) {p : Nat}
    (hp : p ∈ s.g_vnodeActiveList) : p ∉ s.literalPaths :=
  fun hl => (PoolInv_active_not_free hi hp).2 (hi.literal_virtual p hl)

theorem GetFromFreeList_spec {env : Env} {s : State} {v : Nat} {rest : List Nat}
    (hi : PoolInv env s) (hc : s.g_vnodeFreeList = v :: rest) :
    ∃ s1, GetFromFreeList s = (some v, s1) ∧ s1.g_vnodeFreeList = rest ∧
      s1.g_vnodeActiveList = s.g_vnodeActiveList ∧
      s1.g_vnodeVirtualList = s.g_vnodeVirtualList ∧
      (∀ q, s1.vnode q = s.vnode q) := by
  have hnd := PoolInv_allVnodes_nodup hi
  unfold allVnodes at hnd
  rw [hc] at hnd
  have h1 := List.nodup_append.1 hnd
  have h2 := List.nodup_append.1 h1.1
  have hvr : v ∉ rest := (List.nodup_cons.1 h2.1).1
  have hvv : v ∉ s.g_vnodeVirtualList := fun hm => h2.2.2 (List.mem_cons_self _ _) hm
  have hva : v ∉ s.g_vnodeActiveList := fun hm =>
    h1.2.2 (List.mem_append_left _ (List.mem_cons_self _ _)) hm
  have hfs := hi.free_size
  rw [hc] at hfs
  have hpos : ¬ s.g_freeVnodeSize ≤ 0 := by rw [hfs]; simp
  refine ⟨{ LOS_ListDelete s v with g_freeVnodeSize := (LOS_ListDelete s v).g_freeVnodeSize - 1 },
    by simp only [GetFromFreeList, if_neg hpos, hc], ?_, ?_, ?_, fun q => rfl⟩
  · simp [LOS_ListDelete, hc, filter_ne_of_not_mem hvr]
  · simp [LOS_ListDelete, filter_ne_of_not_mem hva]
  · simp [LOS_ListDelete, filter_ne_of_not_mem hvv]

theorem eligibleVnodes_eq {s : State} (hnn : ActiveCountsNonneg s) :
    eligibleVnodes s = s.g_vnodeActiveList.filter (reclaimable s) := by
  unfold eligibleVnodes
  apply List.filter_congr
  intro p hp
  unfold reclaimable
  cases hv : s.vnode p with
  | none => rfl
  | some vn =>
    have h0 := hnn p hp vn hv
    simp only [eligible, skipReclaim, Bool.not_or, beq_iff_eq]
    congr 2
    by_cases e : vn.useCount = 0
    · simp [e]
    · have : vn.useCount > 0 := by omega
      simp [e, this]

theorem filter_not_mem_of_disjoint {l batch : List Nat} (h : ∀ q ∈ l, q ∉ batch) :
    l.filter (fun q => decide (q ∉ batch)) = l := by
  rw [List.filter_eq_self]
  intro q hq
  simpa using h q hq

/-! ## Sequences of pool calls -/

theorem setVnode_PoolInv {env : Env} {s : State} {p : Nat} (vn : Vnode)
    (hi : PoolInv env s) (hw : FreeWiped s)
    (hp : p ∈ s.g_vnodeVirtualList ++ s.g_vnodeActiveList) :
    PoolInv env (s.setVnode p vn) ∧ FreeWiped (s.setVnode p vn) := by
  have hpa : p ∈ allVnodes s := by
    unfold allVnodes
    rw [List.append_assoc]
    exact List.mem_append_right _ hp
  have hsome : (s.vnode p).isSome = true := (hi.alloc_iff p).2 (by simpa using hpa)
  obtain ⟨vn0, hv0⟩ := Option.isSome_iff_exists.1 hsome
  have hlt := vnode_lt_length hv0
  have hnf : p ∉ s.g_vnodeFreeList := by
    have hnd := PoolInv_allVnodes_nodup hi
    unfold allVnodes at hnd
    rw [List.append_assoc] at hnd
    intro hf
    exact (List.nodup_append.1 hnd).2.2 hf hp
  refine ⟨⟨hi.free_size, hi.total_le, hi.nodup, ?_, hi.literal_virtual⟩, ?_⟩
  · intro q
    show _ ↔ q ∈ none.toList ++ allVnodes s
    rw [← hi.alloc_iff q]
    by_cases hq : q = p
    · subst hq
      rw [vnode_setVnode_same vn hlt, hsome]
      rfl
    · rw [vnode_setVnode_ne vn hq]
  · intro q hq
    have hne : q ≠ p := fun e => hnf (e ▸ hq)
    rw [vnode_setVnode_ne vn hne]
    exact hw q hq

theorem VnodeReclaimLru_total {env : Env} {s : State} (hi : PoolInv env s)
    (hops : ActiveHaveOps s) : ∃ r, VnodeReclaimLru env s = some r := by
  have hloop := reclaimLoop_eq env s.g_vnodeActiveList s 0 10 (PoolInv_active_nodup hi)
    (by decide) (by decide)
    (fun p hp => by
      obtain ⟨vn, hv⟩ := PoolInv_active_allocated hi hp
      exact ⟨vn, hv, hops p hp vn hv⟩)
    (fun p hp => PoolInv_active_not_literal hi hp)
  unfold VnodeReclaimLru
  rw [hloop]
  simp only
  split
  · exact ⟨_, rfl⟩
  · exact ⟨_, rfl⟩

/-- On a pool state whose active vnodes have an ops table `VnodeAlloc` returns. -/
theorem VnodeAlloc_total {env : Env} {s : State} (vop : Option Nat) (hi : PoolInv env s)
    (hw : FreeWiped s) (hops : ActiveHaveOps s) : ∃ r, VnodeAlloc env s vop = some r := by
  have hslot : ∃ r s1, allocSlot env s = some (r, s1) := by
    cases hfl : s.g_vnodeFreeList with
    | cons v rest => exact ⟨_, _, allocSlot_free_head hi hfl⟩
    | nil =>
      have hfs : s.g_freeVnodeSize ≤ 0 := by
        have := hi.free_size; rw [hfl] at this; rw [this]; simp
      by_cases hfresh : s.g_totalVnodeSize < (env.LOSCFG_MAX_VNODE_SIZE : Int) ∧
          env.zallocOk s = true
      · exact ⟨_, _, allocSlot_fresh hfs hfresh.1 hfresh.2⟩
      · rw [allocSlot_reclaim hfs hfresh]
        have hi2 : PoolInv env (reclaimEntry env s) := by
          unfold reclaimEntry
          split
          · rename_i hlt
            exact ⟨hi.free_size, by show s.g_totalVnodeSize + 1 ≤ _; omega, hi.nodup,
              hi.alloc_iff, hi.literal_virtual⟩
          · exact hi
        have hops2 : ActiveHaveOps (reclaimEntry env s) := by
          unfold reclaimEntry
          split
          · exact hops
          · exact hops
        obtain ⟨⟨r, s1⟩, hr⟩ := VnodeReclaimLru_total hi2 hops2
        exact ⟨r, s1, hr⟩
  obtain ⟨r, s1, ha⟩ := hslot
  obtain ⟨s2, h2⟩ := VnodeAlloc_of_allocSlot vop hi hw ha
  exact ⟨_, h2⟩

theorem VnodeAlloc_status {env : Env} {s : State} {vop : Option Nat} {ret : Int}
    {v : Option Nat} {s1 : State} (h : VnodeAlloc env s vop = some (ret, v, s1)) :
    (ret = LOS_OK ∧ ∃ p, v = some p) ∨ (ret = -ENOMEM ∧ v = none) := by
  unfold VnodeAlloc at h
  cases ha : allocSlot env s with
  | none => rw [ha] at h; cases h
  | some x =>
    obtain ⟨r, s2⟩ := x
    rw [ha] at h
    cases r with
    | none =>
      simp only [Option.some.injEq, Prod.mk.injEq] at h
      exact Or.inr ⟨h.1.symm, h.2.1.symm⟩
    | some q =>
      simp only at h
      cases he : enrolVnode s2 vop q with
      | none => rw [he] at h; cases h
      | some s3 =>
        rw [he] at h
        simp only [Option.some.injEq, Prod.mk.injEq] at h
        exact Or.inl ⟨h.1.symm, q, h.2.1.symm⟩

theorem VnodesInit_PoolInv (env : Env) :
    ∃ ret s, VnodesInit env bootState = some (ret, s) ∧ PoolInv env s ∧ FreeWiped s := by
  have hb := PoolInv_bootState env
  have hops : ActiveHaveOps bootState := fun p hp => by simp [bootState] at hp
  obtain ⟨⟨ret, v, s1⟩, ha⟩ := @VnodeAlloc_total env bootState none hb.1 hb.2 hops
  have h1 := VnodeAlloc_PoolInv hb.1 hb.2 ha
  have hroot : PoolInv env { s1 with g_rootVnode := v } ∧
      FreeWiped { s1 with g_rootVnode := v } :=
    ⟨⟨h1.1.free_size, h1.1.total_le, h1.1.nodup, h1.1.alloc_iff, h1.1.literal_virtual⟩, h1.2⟩
  have hs0 :
      ({ bootState with
          g_vnodeFreeList := [], g_vnodeVirtualList := [], g_vnodeActiveList := [] } : State) =
        bootState := rfl
  unfold VnodesInit
  simp only [hs0, ha]
  rcases VnodeAlloc_status ha with ⟨hr, p, hv⟩ | ⟨hr, hv⟩
  · subst hr hv
    obtain ⟨vn, hvn, -, hvirt, -⟩ := VnodeAlloc_enrolled env bootState none p s1 ha
    have hmem : p ∈ ({ s1 with g_rootVnode := some p } : State).g_vnodeVirtualList ++
        ({ s1 with g_rootVnode := some p } : State).g_vnodeActiveList :=
      List.mem_append_left _ (hvirt rfl).1
    have hvn2 : State.vnode { s1 with g_rootVnode := some p } p = some vn := hvn
    simp only [ne_eq, not_true_eq_false, if_false, hvn2]
    obtain ⟨h3, hw3⟩ := setVnode_PoolInv
      { vn with
        mode := S_IRWXU ||| S_IRWXG ||| S_IRWXO ||| S_IFDIR
        type := VNODE_TYPE_DIR
        filePath := some ['/'] } hroot.1 hroot.2 hmem
    refine ⟨_, _, rfl, ⟨h3.free_size, h3.total_le, h3.nodup, h3.alloc_iff, ?_⟩, hw3⟩
    intro q hq
    rcases List.mem_cons.1 hq with e | hm
    · rw [e]
      exact (hvirt rfl).1
    · exact h3.literal_virtual q hm
  · subst hr hv
    have hne : (-ENOMEM : Int) ≠ LOS_OK := by decide
    simp only [ne_eq, hne, not_false_eq_true, if_true]
    exact ⟨_, _, rfl, hroot⟩

theorem runPoolCalls_PoolInv (env : Env) :
    ∀ (calls : List PoolCall) (s s1 : State), PoolInv env s → FreeWiped s →
      runPoolCalls env calls s = some s1 → PoolInv env s1 ∧ FreeWiped s1 := by
  intro calls
  induction calls with
  | nil =>
    intro s s1 hi hw h
    simp only [runPoolCalls, Option.some.injEq] at h
    rw [← h]
    exact ⟨hi, hw⟩
  | cons c rest ih =>
    intro s s1 hi hw h
    cases c with
    | alloc vop =>
      simp only [runPoolCalls] at h
      cases ha : VnodeAlloc env s vop with
      | none => rw [ha] at h; cases h
      | some x =>
        obtain ⟨ret, v, s2⟩ := x
        rw [ha] at h
        have h2 := VnodeAlloc_PoolInv hi hw ha
        exact ih s2 s1 h2.1 h2.2 h
    | free vnode =>
      simp only [runPoolCalls] at h
      cases ha : VnodeFree env s vnode with
      | none => rw [ha] at h; cases h
      | some x =>
        obtain ⟨ret, s2⟩ := x
        rw [ha] at h
        have h2 := VnodeFree_PoolInv hi hw ha
        exact ih s2 s1 h2.1 h2.2 h
    | write p vn =>
      simp only [runPoolCalls] at h
      split at h
      · rename_i hp
        have h2 := setVnode_PoolInv vn hi hw hp
        exact ih _ s1 h2.1 h2.2 h
      · cases h

/-! ## Facts about the example states -/

theorem wf_oneActive : PoolInv envOne oneActive ∧ FreeWiped oneActive :=
  VnodeAlloc_PoolInv (PoolInv_bootState envOne).1 (PoolInv_bootState envOne).2
    (by decide : VnodeAlloc envOne bootState (some 5) = some (LOS_OK, some 0, oneActive))

theorem activeHaveOps_oneActive : ActiveHaveOps oneActive := by
  intro p hp vn hv
  have : p = 0 := by simpa [oneActive, bootState] using hp
  subst this
  have : vn = { plainVnode (some 5) 0 0 with mappingHost := some 0 } := by
    have h2 : oneActive.vnode 0 = some { plainVnode (some 5) 0 0 with mappingHost := some 0 } :=
      rfl
    rw [h2] at hv
    exact (Option.some.inj hv).symm
  subst this
  decide

theorem activeCountsNonneg_oneActive : ActiveCountsNonneg oneActive := by
  intro p hp vn hv
  have : p = 0 := by simpa [oneActive, bootState] using hp
  subst this
  have : vn = { plainVnode (some 5) 0 0 with mappingHost := some 0 } := by
    have h2 : oneActive.vnode 0 = some { plainVnode (some 5) 0 0 with mappingHost := some 0 } :=
      rfl
    rw [h2] at hv
    exact (Option.some.inj hv).symm
  subst this
  decide

theorem NoReclaimable_onePinned : NoReclaimable onePinned := by
  intro p hp
  have : p = 0 := by simpa [onePinned, bootState] using hp
  subst this
  exact ⟨_, rfl, by decide⟩

theorem AllocRun_envOne : AllocRun envOne bootState [LOS_OK, -ENOMEM] onePinned :=
  @AllocRun.call envOne bootState oneActive onePinned onePinned (some 5) (some 0) LOS_OK
    [-ENOMEM] (by decide) ⟨rfl, rfl, rfl, rfl, rfl⟩ NoReclaimable_onePinned
    (@AllocRun.call envOne onePinned onePinned onePinned onePinned none none (-ENOMEM) []
      (by decide) ⟨rfl, rfl, rfl, rfl, rfl⟩ NoReclaimable_onePinned (AllocRun.done onePinned))

/-! ## The loop of `VnodeFreeAll` -/

theorem fromMount_congr {s t : State} {p : Nat} (m : Option Nat) (h : t.vnode p = s.vnode p) :
    fromMount t m p = fromMount s m p := by
  unfold fromMount; rw [h]

theorem isMountNew_congr {s t : State} {p : Nat} (h : t.vnode p = s.vnode p) :
    isMountNew t p = isMountNew s p := by
  unfold isMountNew; rw [h]

theorem isPinned_congr {s t : State} {p : Nat} (h : t.vnode p = s.vnode p) :
    isPinned t p = isPinned s p := by
  unfold isPinned; rw [h]

/-- The loop of `VnodeFreeAll`: it stops with `-EBUSY` at the first pinned vnode of
the mount that is not a mount root, and otherwise frees all such vnodes. -/
theorem freeAllLoop_spec (env : Env) (m : Option Nat) :
    ∀ (items : List Nat) (s : State), items.Nodup →
      (∀ p ∈ items, ∃ vn, s.vnode p = some vn ∧ vn.vop ≠ none) →
      (∀ p ∈ items, p ∉ s.literalPaths) →
      ∃ ret s1, freeAllLoop env m items s = some (ret, s1) ∧
        (ret = LOS_OK ∨ ret = -EBUSY) ∧
        (ret = -EBUSY ↔ ∃ p ∈ items, fromMount s m p = true ∧ isMountNew s p = false ∧
          isPinned s p = true) ∧
        (ret = LOS_OK →
          FreedBatch s (items.filter (fun p => fromMount s m p && !isMountNew s p)) s1) := by
  have hne : LOS_OK ≠ -EBUSY := by decide
  intro items
  induction items with
  | nil =>
    intro s _ _ _
    exact ⟨LOS_OK, s, rfl, Or.inl rfl, by simp [hne], fun _ => FreedBatch_nil s⟩
  | cons item rest ih =>
    intro s hnd hall hlit
    have hlr : ∀ p ∈ rest, p ∉ s.literalPaths :=
      fun p hp => hlit p (List.mem_cons_of_mem _ hp)
    obtain ⟨vn, hv, hop⟩ := hall item (List.mem_cons_self _ _)
    obtain ⟨hir, hndr⟩ := List.nodup_cons.1 hnd
    have hrest : ∀ p ∈ rest, ∃ vn, s.vnode p = some vn ∧ vn.vop ≠ none :=
      fun p hp => hall p (List.mem_cons_of_mem _ hp)
    have hfm : fromMount s m item = decide (vn.originMount = m) := by
      by_cases e : vn.originMount = m <;> simp [fromMount, hv, e]
    have hmn : isMountNew s item = hasFlag vn.flag VNODE_FLAG_MOUNT_NEW := by
      simp [isMountNew, hv]
    have hpin : isPinned s item = decide (vn.useCount > 0) := by
      simp [isPinned, hv]
    unfold freeAllLoop
    rw [hv]
    simp only
    by_cases htarget : vn.originMount = m ∧ ¬ hasFlag vn.flag VNODE_FLAG_MOUNT_NEW = true
    · rw [if_pos htarget]
      have ht : (fromMount s m item && !isMountNew s item) = true := by
        rw [hfm, hmn]; simp [htarget.1, htarget.2]
      by_cases hu : vn.useCount > 0
      · rw [VnodeFree_busy hv hu]
        simp only [ne_eq, hne.symm, not_false_eq_true, if_true]
        refine ⟨-EBUSY, s, rfl, Or.inr rfl, ?_, fun h => absurd h.symm hne⟩
        refine ⟨fun _ => ⟨item, List.mem_cons_self _ _, ?_, ?_, ?_⟩, fun _ => rfl⟩
        · rw [hfm]; simp [htarget.1]
        · rw [hmn]; simpa using htarget.2
        · rw [hpin]; simp [hu]
      · rw [VnodeFree_unpinned hv hu hop (hlit item (List.mem_cons_self _ _))]
        simp only [ne_eq, not_true_eq_false, if_false]
        have hvq : ∀ q ∈ rest, (freedState s item).vnode q = s.vnode q := by
          intro q hq
          exact vnode_freedState_ne s (fun e => hir (e ▸ hq))
        obtain ⟨ret, s1, hl, hro, hbusy, hok⟩ := ih (freedState s item) hndr
          (fun q hq => by rw [hvq q hq]; exact hrest q hq)
          (fun q hq hl => hlr q hq (literalPaths_freedState hl))
        refine ⟨ret, s1, hl, hro, ?_, ?_⟩
        · rw [hbusy]
          constructor
          · rintro ⟨p, hp, h1, h2, h3⟩
            have e := hvq p hp
            rw [fromMount_congr m e] at h1
            rw [isMountNew_congr e] at h2
            rw [isPinned_congr e] at h3
            exact ⟨p, List.mem_cons_of_mem _ hp, h1, h2, h3⟩
          · rintro ⟨p, hp, h1, h2, h3⟩
            rcases List.mem_cons.1 hp with e | hp
            · subst e
              rw [hpin] at h3
              exact absurd (of_decide_eq_true h3) hu
            · have e := hvq p hp
              exact ⟨p, hp, by rw [fromMount_congr m e]; exact h1,
                by rw [isMountNew_congr e]; exact h2, by rw [isPinned_congr e]; exact h3⟩
        · intro hr
          have hf : rest.filter (fun p => fromMount (freedState s item) m p &&
              !isMountNew (freedState s item) p) =
              rest.filter (fun p => fromMount s m p && !isMountNew s p) := by
            apply List.filter_congr
            intro q hq
            rw [fromMount_congr m (hvq q hq), isMountNew_congr (hvq q hq)]
          have h2 := hok hr
          rw [hf] at h2
          rw [List.filter_cons, if_pos ht]
          exact FreedBatch_cons (fun hm => hir (List.mem_filter.1 hm).1)
            (FreedBatch_single hv) h2
    · rw [if_neg htarget]
      have ht : (fromMount s m item && !isMountNew s item) = false := by
        rw [hfm, hmn]
        by_cases h1 : vn.originMount = m
        · have : hasFlag vn.flag VNODE_FLAG_MOUNT_NEW = true := by
            by_contra h2
            exact htarget ⟨h1, h2⟩
          simp [this]
        · simp [h1]
      obtain ⟨ret, s1, hl, hro, hbusy, hok⟩ := ih s hndr hrest hlr
      refine ⟨ret, s1, hl, hro, ?_, ?_⟩
      · rw [hbusy]
        constructor
        · rintro ⟨p, hp, h⟩
          exact ⟨p, List.mem_cons_of_mem _ hp, h⟩
        · rintro ⟨p, hp, h1, h2, h3⟩
          rcases List.mem_cons.1 hp with e | hp
          · subst e
            rw [h1, h2] at ht
            simp at ht
          · exact ⟨p, hp, h1, h2, h3⟩
      · intro hr
        rw [List.filter_cons, ht]
        simpa using hok hr

/-! ## `total_size` when the allocator succeeds -/

theorem length_filter_ne_of_mem {l : List Nat} {p : Nat} (hnd : l.Nodup) (hp : p ∈ l) :
    ((l.filter (fun w => w != p)).length : Int) = (l.length : Int) - 1 := by
  have h1 : l.filter (fun w => w != p) = l.erase p := by
    rw [hnd.erase_eq_filter]
  rw [h1, List.length_erase_of_mem hp]
  have : 0 < l.length := List.length_pos_of_mem hp
  omega

theorem VnodeFree_CountInv {env : Env} {s : State} {v : Option Nat} {ret : Int} {s1 : State}
    (hi : PoolInv env s) (hc : CountInvD s none) (h : VnodeFree env s v = some (ret, s1)) :
    CountInvD s1 none := by
  have hnd := PoolInv_allVnodes_nodup hi
  unfold CountInvD at hc ⊢
  simp only [Option.toList, List.nil_append] at hc ⊢
  rcases VnodeFree_cases h with ⟨_, _, rfl⟩ | ⟨p, vn, _, _, _, _, rfl⟩ |
    ⟨p, vn, _, hv, _, hop, _, rfl⟩ | ⟨p, vn, op, _, hv, _, hop, _, _, rfl⟩
  · exact hc
  · exact hc
  · have hp : p ∈ allVnodes s := by
      have := (hi.alloc_iff p).1 (by rw [hv]; rfl)
      simpa using this
    rw [allVnodes_freedDevice, length_filter_ne_of_mem hnd hp]
    show s.g_totalVnodeSize - 1 = _
    rw [hc]
  · have hp : p ∈ allVnodes s := by
      have := (hi.alloc_iff p).1 (by rw [hv]; rfl)
      simpa using this
    rw [allVnodes_freedRecycled, List.length_cons]
    show s.g_totalVnodeSize = _
    rw [hc]
    have := length_filter_ne_of_mem hnd hp
    push_cast
    omega

theorem reclaimLoop_CountInv (env : Env) :
    ∀ (items : List Nat) (s : State) (rc : Int) (rc1 : Int) (s1 : State),
      PoolInv env s → FreeWiped s → CountInvD s none →
      reclaimLoop env items s rc = some (rc1, s1) → CountInvD s1 none := by
  intro items
  induction items with
  | nil =>
    intro s rc rc1 s1 _ _ hc h
    simp only [reclaimLoop, Option.some.injEq, Prod.mk.injEq] at h
    rw [← h.2]
    exact hc
  | cons item rest ih =>
    intro s rc rc1 s1 hi hw hc h
    unfold reclaimLoop at h
    cases hv : s.vnode item with
    | none => rw [hv] at h; cases h
    | some vn =>
      rw [hv] at h
      simp only at h
      by_cases hs : skipReclaim vn = true
      · rw [if_pos hs] at h
        exact ih s rc rc1 s1 hi hw hc h
      · rw [if_neg hs] at h
        cases hf : VnodeFree env s (some item) with
        | none => rw [hf] at h; cases h
        | some r =>
          obtain ⟨ret, s2⟩ := r
          rw [hf] at h
          simp only at h
          have h2 := VnodeFree_PoolInv hi hw hf
          have h3 := VnodeFree_CountInv hi hc hf
          generalize (if ret = LOS_OK then rc + 1 else rc) = rcn at h
          split at h
          · simp only [Option.some.injEq, Prod.mk.injEq] at h
            rw [← h.2]
            exact h3
          · exact ih s2 _ rc1 s1 h2.1 h2.2 h3 h

theorem GetFromFreeList_CountInv {env : Env} {s : State}
    (hi : PoolInv env s) (hc : CountInvD s none) :
    CountInvD (GetFromFreeList s).2 (GetFromFreeList s).1 := by
  cases hfl : s.g_vnodeFreeList with
  | nil => rw [GetFromFreeList_nil hi hfl]; exact hc
  | cons v rest =>
    have hnd := PoolInv_allVnodes_nodup hi
    have hp : v ∈ allVnodes s := by simp [allVnodes, hfl]
    have hfs := hi.free_size
    rw [hfl] at hfs
    have hpos : ¬ s.g_freeVnodeSize ≤ 0 := by rw [hfs]; simp
    unfold CountInvD at hc ⊢
    simp only [GetFromFreeList, if_neg hpos, hfl]
    show s.g_totalVnodeSize = (([v] ++ allVnodes (LOS_ListDelete s v)).length : Int)
    rw [allVnodes_ListDelete, List.singleton_append, List.length_cons]
    have := length_filter_ne_of_mem hnd hp
    simp only [Option.toList, List.nil_append] at hc
    push_cast
    omega

theorem VnodeReclaimLru_CountInv {env : Env} {s : State} {r : Option Nat} {s1 : State}
    (hi : PoolInv env s) (hw : FreeWiped s) (hc : CountInvD s none)
    (h : VnodeReclaimLru env s = some (r, s1)) : CountInvD s1 r := by
  unfold VnodeReclaimLru at h
  cases hl : reclaimLoop env s.g_vnodeActiveList s 0 with
  | none => rw [hl] at h; cases h
  | some x =>
    obtain ⟨rc, s2⟩ := x
    rw [hl] at h
    simp only at h
    have h2 := reclaimLoop_PoolInv env _ _ _ _ _ hi hw hl
    have h3 := reclaimLoop_CountInv env _ _ _ _ _ hi hw hc hl
    split at h
    · simp only [Option.some.injEq, Prod.mk.injEq] at h
      rw [← h.1, ← h.2]
      exact h3
    · simp only [Option.some.injEq] at h
      have := GetFromFreeList_CountInv h2.1 h3
      rw [h] at this
      exact this

theorem allocSlot_CountInv {env : Env} (hz : ∀ s, env.zallocOk s = true) {s : State}
    {r : Option Nat} {s1 : State} (hi : PoolInv env s) (hw : FreeWiped s)
    (hc : CountInvD s none) (h : allocSlot env s = some (r, s1)) : CountInvD s1 r := by
  cases hfl : s.g_vnodeFreeList with
  | cons v rest =>
    rw [allocSlot_free_head hi hfl] at h
    simp only [Option.some.injEq, Prod.mk.injEq] at h
    have := GetFromFreeList_CountInv hi hc
    rw [GetFromFreeList_cons hi hfl, h.2] at this
    rw [← h.1]
    exact this
  | nil =>
    have hfs : s.g_freeVnodeSize ≤ 0 := by
      have := hi.free_size; rw [hfl] at this; rw [this]; simp
    by_cases hlt : s.g_totalVnodeSize < (env.LOSCFG_MAX_VNODE_SIZE : Int)
    · rw [allocSlot_fresh hfs hlt (hz s)] at h
      simp only [Option.some.injEq, Prod.mk.injEq] at h
      rw [← h.1, ← h.2]
      unfold CountInvD at hc ⊢
      simp only [Option.toList, List.nil_append] at hc
      show s.g_totalVnodeSize + 1 = (([s.heap.length] ++ allVnodes s).length : Int)
      rw [List.singleton_append, List.length_cons, hc]
      push_cast
      ring
    · rw [allocSlot_reclaim hfs (fun x => hlt x.1)] at h
      have e : reclaimEntry env s = s := by simp [reclaimEntry, hlt]
      rw [e] at h
      exact VnodeReclaimLru_CountInv hi hw hc h

theorem enrolVnode_CountInv {s : State} {p : Nat} {vop : Option Nat} {s1 : State}
    (hc : CountInvD s (some p)) (h : enrolVnode s vop p = some s1) : CountInvD s1 none := by
  cases hv : s.vnode p with
  | none => simp [enrolVnode, hv] at h
  | some vn =>
    obtain ⟨s2, he, hf, -, hts, hvl, hal, -, -⟩ := enrolVnode_spec vop hv
    rw [h] at he
    cases he
    unfold CountInvD at hc ⊢
    simp only [Option.toList, List.nil_append, List.singleton_append, List.length_cons] at hc ⊢
    rw [hts, hc]
    unfold allVnodes
    rw [hf, hvl, hal]
    cases vop <;> simp <;> ring

theorem VnodeAlloc_CountInv {env : Env} (hz : ∀ s, env.zallocOk s = true) {s : State}
    {vop : Option Nat} {ret : Int} {v : Option Nat} {s1 : State}
    (hi : PoolInv env s) (hw : FreeWiped s) (hc : CountInvD s none)
    (h : VnodeAlloc env s vop = some (ret, v, s1)) : CountInvD s1 none := by
  unfold VnodeAlloc at h
  cases ha : allocSlot env s with
  | none => rw [ha] at h; cases h
  | some x =>
    obtain ⟨r, s2⟩ := x
    have h2 := allocSlot_CountInv hz hi hw hc ha
    rw [ha] at h
    cases r with
    | none =>
      simp only [Option.some.injEq, Prod.mk.injEq] at h
      rw [← h.2.2]
      exact h2
    | some p =>
      simp only at h
      cases he : enrolVnode s2 vop p with
      | none => rw [he] at h; cases h
      | some s3 =>
        rw [he] at h
        simp only [Option.some.injEq, Prod.mk.injEq] at h
        rw [← h.2.2]
        exact enrolVnode_CountInv h2 he

theorem runPoolCalls_CountInv (env : Env) (hz : ∀ s, env.zallocOk s = true) :
    ∀ (calls : List PoolCall) (s s1 : State), PoolInv env s → FreeWiped s → CountInvD s none →
      runPoolCalls env calls s = some s1 → CountInvD s1 none := by
  intro calls
  induction calls with
  | nil =>
    intro s s1 _ _ hc h
    simp only [runPoolCalls, Option.some.injEq] at h
    rw [← h]
    exact hc
  | cons c rest ih =>
    intro s s1 hi hw hc h
    cases c with
    | alloc vop =>
      simp only [runPoolCalls] at h
      cases ha : VnodeAlloc env s vop with
      | none => rw [ha] at h; cases h
      | some x =>
        obtain ⟨ret, v, s2⟩ := x
        rw [ha] at h
        have h2 := VnodeAlloc_PoolInv hi hw ha
        exact ih s2 s1 h2.1 h2.2 (VnodeAlloc_CountInv hz hi hw hc ha) h
    | free vnode =>
      simp only [runPoolCalls] at h
      cases ha : VnodeFree env s vnode with
      | none => rw [ha] at h; cases h
      | some x =>
        obtain ⟨ret, s2⟩ := x
        rw [ha] at h
        have h2 := VnodeFree_PoolInv hi hw ha
        exact ih s2 s1 h2.1 h2.2 (VnodeFree_CountInv hi hc ha) h
    | write p vn =>
      simp only [runPoolCalls] at h
      split at h
      · rename_i hp
        have h2 := setVnode_PoolInv vn hi hw hp
        exact ih _ s1 h2.1 h2.2 hc h
      · cases h

/-- With an allocator that never fails, `total_size` is the number of slots on the
three lists after every sequence of pool calls on the empty pool; only a failing
`zalloc` lets the counter run ahead of the slots. -/
theorem total_counts_slots (env : Env) (hz : ∀ s, env.zallocOk s = true)
    (calls : List PoolCall) (s1 : State) (h : runPoolCalls env calls bootState = some s1) :
    s1.g_totalVnodeSize = ((allVnodes s1).length : Int) := by
  have hb := PoolInv_bootState env
  have := runPoolCalls_CountInv env hz calls bootState s1 hb.1 hb.2 rfl h
  simpa [CountInvD] using this

/-! ## The loop of `VnodeReaddir` -/

theorem readdirLoop_skip_all (p c : Int) :
    ∀ (items : List PathCache) (i cnt : Int) (dirs : List Dirent),
      i + (items.length : Int) ≤ p →
      readdirLoop p c items i cnt dirs = some (.ok (i + (items.length : Int), cnt), dirs) := by
  intro items
  induction items with
  | nil => intro i cnt dirs _; simp [readdirLoop]
  | cons it rest ih =>
    intro i cnt dirs h
    have hlt : i < p := by
      simp only [List.length_cons] at h
      push_cast at h
      omega
    unfold readdirLoop
    rw [if_pos hlt, ih (i + 1) cnt dirs (by simp only [List.length_cons] at h; push_cast at h; omega)]
    have e : i + 1 + (rest.length : Int) = i + ((it :: rest).length : Int) := by
      rw [List.length_cons]
      push_cast
      omega
    rw [e]

theorem readdirLoop_skip (p c : Int) :
    ∀ (items : List PathCache) (i cnt : Int) (dirs : List Dirent),
      i ≤ p → p < i + (items.length : Int) →
      readdirLoop p c items i cnt dirs =
        readdirLoop p c (items.drop (p - i).toNat) p cnt dirs := by
  intro items
  induction items with
  | nil =>
    intro i cnt dirs h1 h2
    simp only [List.length_nil] at h2
    push_cast at h2
    omega
  | cons it rest ih =>
    intro i cnt dirs h1 h2
    by_cases hlt : i < p
    · conv_lhs => unfold readdirLoop
      rw [if_pos hlt, ih (i + 1) cnt dirs (by omega)
        (by simp only [List.length_cons] at h2; push_cast at h2; omega)]
      have : (p - i).toNat = (p - (i + 1)).toNat + 1 := by omega
      rw [this, List.drop_succ_cons]
    · have : i = p := by omega
      subst this
      simp

theorem readdirLoop_write (p c : Int) :
    ∀ (items : List PathCache) (j : Nat) (dirs : List Dirent) (i1 cnt1 : Int)
      (dirs1 : List Dirent),
      readdirLoop p c items (p + (j : Int)) (j : Int) dirs = some (.ok (i1, cnt1), dirs1) →
      ∃ k : Nat, k = min (max (c - (j : Int)) 1).toNat items.length ∧
        i1 = p + (j : Int) + (k : Int) ∧ cnt1 = (j : Int) + (k : Int) ∧
        dirs1.length = dirs.length ∧
        (∀ t, t < k → ∃ it, items[t]? = some it ∧
          dirs1[j + t]? = some (direntOf it (p + (j : Int) + (t : Int))) ∧
          it.name.length < D_NAME_SIZE) ∧
        (∀ idx, idx < j → dirs1[idx]? = dirs[idx]?) := by
  intro items
  induction items with
  | nil =>
    intro j dirs i1 cnt1 dirs1 h
    simp only [readdirLoop, Option.some.injEq, Prod.mk.injEq, Except.ok.injEq] at h
    obtain ⟨⟨h1, h2⟩, h3⟩ := h
    subst h3
    refine ⟨0, by simp, by simp [← h1], by simp [← h2], rfl, ?_, fun _ _ => rfl⟩
    intro t ht
    omega
  | cons it rest ih =>
    intro j dirs i1 cnt1 dirs1 h
    unfold readdirLoop at h
    have hnlt : ¬ (p + (j : Int) < p) := by omega
    have hidx : (p + (j : Int) - p).toNat = j := by simp
    rw [if_neg hnlt] at h
    simp only [hidx] at h
    by_cases hcap : j < dirs.length
    · rw [if_pos hcap] at h
      by_cases hname : D_NAME_SIZE ≤ it.name.length
      · rw [if_pos hname] at h
        simp at h
      · rw [if_neg hname] at h
        by_cases hstop : (j : Int) + 1 ≥ c
        · rw [if_pos hstop] at h
          simp only [Option.some.injEq, Prod.mk.injEq, Except.ok.injEq] at h
          obtain ⟨⟨h1, h2⟩, h3⟩ := h
          subst h3
          refine ⟨1, ?_, by simp [← h1], by simp [← h2], by simp, ?_, ?_⟩
          · simp only [List.length_cons]
            omega
          · intro t ht
            have : t = 0 := by omega
            subst this
            refine ⟨it, by simp, ?_, by omega⟩
            simp [List.getElem?_set, hcap]
          · intro idx hidx
            rw [List.getElem?_set_ne (by omega)]
        · rw [if_neg hstop] at h
          have h' : readdirLoop p c rest (p + ((j + 1 : Nat) : Int)) ((j + 1 : Nat) : Int)
              (dirs.set j (direntOf it (p + (j : Int)))) = some (.ok (i1, cnt1), dirs1) := by
            rw [← h]
            push_cast
            congr 1
            omega
          obtain ⟨k, hk, hi, hc, hlen, hent, hold⟩ := ih (j + 1) _ i1 cnt1 dirs1 h'
          refine ⟨k + 1, ?_, ?_, ?_, ?_, ?_, ?_⟩
          · simp only [List.length_cons]
            push_cast at hk
            omega
          · rw [hi]; push_cast; omega
          · rw [hc]; push_cast; omega
          · rw [hlen]; simp
          · intro t ht
            cases t with
            | zero =>
              refine ⟨it, by simp, ?_, by omega⟩
              show dirs1[j]? = _
              rw [hold j (by omega)]
              simp [List.getElem?_set, hcap]
            | succ t =>
              obtain ⟨it2, h1, h2, h3⟩ := hent t (by omega)
              refine ⟨it2, by simpa using h1, ?_, h3⟩
              have e : j + (t + 1) = j + 1 + t := by omega
              rw [e, h2]
              congr 2
              push_cast
              omega
          · intro idx hidx
            rw [hold idx (by omega), List.getElem?_set_ne (by omega)]
    · rw [if_neg hcap] at h
      cases h

theorem readdirLoop_error (p c : Int) :
    ∀ (items : List PathCache) (i cnt : Int) (dirs : List Dirent) (x : Int)
      (dirs1 : List Dirent),
      readdirLoop p c items i cnt dirs = some (.error x, dirs1) → x = -ENAMETOOLONG := by
  intro items
  induction items with
  | nil =>
    intro i cnt dirs x dirs1 h
    simp [readdirLoop] at h
  | cons it rest ih =>
    intro i cnt dirs x dirs1 h
    unfold readdirLoop at h
    split at h
    · exact ih _ _ _ _ _ h
    · simp only at h
      split at h
      · split at h
        · simp only [Option.some.injEq, Prod.mk.injEq, Except.error.injEq] at h
          exact h.1.symm
        · split at h
          · simp at h
          · exact ih _ _ _ _ _ h
      · cases h

/-- What a returning `VnodeReaddir` has done, for a cursor `p ≥ 0` and `n` children:
with `p < n` it wrote `k = min(max(read_cnt, 1), n - p)` entries, the `j`-th for the
child at list index `p + j`, and moved the cursor to `p + k`; with `p ≥ n` it wrote
nothing and set the cursor to `n`. -/
theorem VnodeReaddir_returns {s : State} {vp : Nat} {d d1 : DirStream} {ret : Int}
    (hp : 0 ≤ d.fd_position) (h : VnodeReaddir s vp (some d) = some (ret, some d1))
    (hret : 0 ≤ ret) :
    d1.read_cnt = d.read_cnt ∧
    (d.fd_position < ((childPathCaches s vp).length : Int) →
      ∃ k : Nat, ret = (k : Int) ∧
        k = min (max d.read_cnt 1).toNat ((childPathCaches s vp).length - d.fd_position.toNat) ∧
        d1.fd_position = d.fd_position + (k : Int) ∧
        ∀ j, j < k → ∃ it, (childPathCaches s vp)[d.fd_position.toNat + j]? = some it ∧
          d1.fd_dir[j]? = some (direntOf it (d.fd_position + (j : Int))) ∧
          it.name.length < D_NAME_SIZE) ∧
    (((childPathCaches s vp).length : Int) ≤ d.fd_position →
      ret = 0 ∧ d1.fd_position = ((childPathCaches s vp).length : Int) ∧
        d1.fd_dir = d.fd_dir) := by
  unfold VnodeReaddir at h
  simp only at h
  generalize hkids : childPathCaches s vp = kids at h ⊢
  cases hl : readdirLoop d.fd_position d.read_cnt kids 0 0 d.fd_dir with
  | none => rw [hl] at h; cases h
  | some r =>
    obtain ⟨e, dirs⟩ := r
    rw [hl] at h
    cases e with
    | error x =>
      exfalso
      simp only [Option.some.injEq, Prod.mk.injEq] at h
      have hx := readdirLoop_error _ _ _ _ _ _ _ _ hl
      rw [← h.1, hx] at hret
      exact absurd hret (by decide)
    | ok x =>
      obtain ⟨i1, cnt1⟩ := x
      simp only [Option.some.injEq, Prod.mk.injEq] at h
      obtain ⟨hc, hd⟩ := h
      subst hc hd
      refine ⟨rfl, ?_, ?_⟩
      · intro hlt
        rw [readdirLoop_skip _ _ _ _ _ _ hp (by omega)] at hl
        have hl2 : readdirLoop d.fd_position d.read_cnt (kids.drop (d.fd_position - 0).toNat)
            (d.fd_position + ((0 : Nat) : Int)) ((0 : Nat) : Int) d.fd_dir =
            some (.ok (i1, cnt1), dirs) := by
          simpa using hl
        obtain ⟨k, hk, hi, hcnt, -, hent, -⟩ := readdirLoop_write _ _ _ _ _ _ _ _ hl2
        refine ⟨k, by simpa using hcnt, ?_, by simpa using hi, ?_⟩
        · rw [hk]
          simp
        · intro j hj
          obtain ⟨it, h1, h2, h3⟩ := hent j hj
          refine ⟨it, ?_, by simpa using h2, h3⟩
          rw [List.getElem?_drop] at h1
          simpa using h1
      · intro hge
        rw [readdirLoop_skip_all _ _ _ _ _ _ (by omega)] at hl
        simp only [Option.some.injEq, Prod.mk.injEq, Except.ok.injEq] at hl
        obtain ⟨⟨h1, h2⟩, h3⟩ := hl
        refine ⟨h2.symm, by simp [← h1], by simp [← h3]⟩

/-- With `read_cnt ≥ 1` a returning `VnodeReaddir` has written exactly
`min(read_cnt, max(n - p, 0))` entries. -/
theorem VnodeReaddir_count {s : State} {vp : Nat} {d d1 : DirStream} {ret : Int}
    (hp : 0 ≤ d.fd_position) (hc : 1 ≤ d.read_cnt)
    (h : VnodeReaddir s vp (some d) = some (ret, some d1)) (hret : 0 ≤ ret) :
    ret = min d.read_cnt (max (((childPathCaches s vp).length : Int) - d.fd_position) 0) ∧
    ret ≤ d.read_cnt := by
  obtain ⟨-, h1, h2⟩ := VnodeReaddir_returns hp h hret
  by_cases hlt : d.fd_position < ((childPathCaches s vp).length : Int)
  · obtain ⟨k, hk, hkv, -, -⟩ := h1 hlt
    rw [hk]
    omega
  · obtain ⟨h0, -, -⟩ := h2 (by omega)
    rw [h0]
    omega

theorem vnode_memoPath_ne (s : State) {v q : Nat} (path : List Char) (h : q ≠ v) :
    (memoPath s v path).vnode q = s.vnode q := by
  unfold memoPath
  split
  · split
    · exact vnode_setVnode_ne _ h
    · rfl
  · rfl

theorem vnode_memoPath_same {s : State} {v : Nat} {vn : Vnode} (path : List Char)
    (hv : s.vnode v = some vn) :
    (memoPath s v path).vnode v =
      some (if vn.filePath = none then { vn with filePath := some path } else vn) := by
  unfold memoPath
  rw [hv]
  simp only
  split
  · exact vnode_setVnode_same _ (vnode_lt_length hv)
  · exact hv

/-- The body of `Step` once the current vnode is a directory and a name was found. -/
theorem Step_eq {env : Env} {s : State} {cd : List Char} {cur : Nat} {vn : Vnode}
    {nd : List Char} {len : Nat} (flags : Nat)
    (hv : s.vnode cur = some vn) (hdir : vn.type = VNODE_TYPE_DIR)
    (hname : NextName cd = some (nd, len)) :
    Step env s cd (some cur) flags =
      match resolveName env s cur nd len flags with
      | none => none
      | some (ret, nextVnode, s1) => stepFinish s1 cur nd len ret nextVnode := by
  unfold Step resolveName stepFinish
  simp only [hv, hdir, ne_eq, not_true_eq_false, if_false, hname]

theorem Step_notdir {env : Env} {s : State} (cd : List Char) {cur : Nat} {vn : Vnode}
    (flags : Nat) (hv : s.vnode cur = some vn) (hdir : vn.type ≠ VNODE_TYPE_DIR) :
    Step env s cd (some cur) flags = some (-ENOTDIR, some cd, some cur, s) := by
  unfold Step
  simp only [hv, ne_eq, hdir, not_false_eq_true, if_true]

theorem Step_slashes {env : Env} {s : State} {cd : List Char} {cur : Nat} {vn : Vnode}
    (flags : Nat) (hv : s.vnode cur = some vn) (hdir : vn.type = VNODE_TYPE_DIR)
    (hname : NextName cd = none) :
    Step env s cd (some cur) flags = some (LOS_OK, none, some cur, s) := by
  unfold Step
  simp only [hv, hdir, ne_eq, not_true_eq_false, if_false, hname]

/-- The last iteration of the walk: `Step` has consumed the path. -/
theorem lookupLoop_terminal {env : Env} {flags : Nat} {np : List Char} {fuel : Nat} {s : State}
    {cd : List Char} {cv : Option Nat} (result : Option Nat) (ret : Int) {ret1 : Int}
    {cd1 : Option (List Char)} {v : Nat} {s1 : State} {vn1 : Vnode}
    (hcd : cd ≠ []) (hstep : Step env s cd cv flags = some (ret1, cd1, some v, s1))
    (hend : cd1 = none ∨ cd1 = some []) (hv : s1.vnode v = some vn1) :
    lookupLoop env flags np (fuel + 1) s cd cv result ret =
      some (ret1, some v, memoPath s1 v np) := by
  rw [lookupLoop, if_neg hcd, hstep]
  simp only [if_pos hend, hv, memoPath]
  split <;> rfl

/-- An iteration of the walk that is not the last one. -/
theorem lookupLoop_continue {env : Env} {flags : Nat} {np : List Char} {fuel : Nat} {s : State}
    {cd : List Char} {cv : Option Nat} (result : Option Nat) (ret : Int)
    {cd1 : List Char} {v : Nat} {s1 : State} {vn1 : Vnode}
    (hcd : cd ≠ []) (hstep : Step env s cd cv flags = some (LOS_OK, some cd1, some v, s1))
    (hmore : cd1 ≠ []) (hperm : env.VfsVnodePermissionCheck s1 (some v) = false)
    (hv : s1.vnode v = some vn1) (hm : vn1.filePath = none → env.mallocOk s1 = true) :
    lookupLoop env flags np (fuel + 1) s cd cv result ret =
      lookupLoop env flags np fuel (memoPath s1 v (np.take (np.length - cd1.length))) cd1
        (some v) result LOS_OK := by
  rw [lookupLoop, if_neg hcd, hstep]
  have h1 : ¬ ((some cd1 : Option (List Char)) = none ∨ some cd1 = some []) := by
    simp [hmore]
  simp only [if_neg h1, hperm, Bool.false_eq_true, if_false, ne_eq, not_true_eq_false, hv,
    memoPath]
  split
  · rename_i hnone
    rw [if_pos (hm hnone)]
  · rfl

/-- The status passed into the loop is only returned when no iteration runs. -/
theorem lookupLoop_ret {env : Env} {flags : Nat} {np : List Char} (fuel : Nat) (s : State)
    {cd : List Char} (cv : Option Nat) (result : Option Nat) (ret ret0 : Int) (hcd : cd ≠ []) :
    lookupLoop env flags np fuel s cd cv result ret =
      lookupLoop env flags np fuel s cd cv result ret0 := by
  cases fuel with
  | zero => simp [lookupLoop, hcd]
  | succ n => rw [lookupLoop, lookupLoop, if_neg hcd, if_neg hcd]

/-- A walk that starts with `k` resolving iterations goes on from where they end. -/
theorem lookupLoop_walkSteps {env : Env} {flags : Nat} {np : List Char} :
    ∀ (k : Nat) (s : State) (cd : List Char) (cv : Nat) (s1 : State) (cd1 : List Char) (cv1 : Nat),
      walkSteps env flags np k s cd cv = some (s1, cd1, cv1) → cd1 ≠ [] →
      ∀ (fuel : Nat) (result : Option Nat) (ret : Int),
        lookupLoop env flags np (k + fuel) s cd (some cv) result ret =
          lookupLoop env flags np fuel s1 cd1 (some cv1) result ret := by
  intro k
  induction k with
  | zero =>
    intro s cd cv s1 cd1 cv1 h _ fuel result ret
    simp only [walkSteps, Option.some.injEq, Prod.mk.injEq] at h
    obtain ⟨rfl, rfl, rfl⟩ := h
    rw [Nat.zero_add]
  | succ k ih =>
    intro s cd cv s1 cd1 cv1 h hne fuel result ret
    rw [walkSteps] at h
    by_cases hcd : cd = []
    · rw [if_pos hcd] at h; cases h
    · rw [if_neg hcd] at h
      cases hs : Step env s cd (some cv) flags with
      | none => rw [hs] at h; cases h
      | some r =>
        obtain ⟨ret1, cdo, vo, s2⟩ := r
        rw [hs] at h
        cases cdo with
        | none => cases h
        | some cd2 =>
          cases vo with
          | none => cases h
          | some v =>
            simp only at h
            cases hv : s2.vnode v with
            | none => rw [hv] at h; cases h
            | some vn =>
              rw [hv] at h
              simp only at h
              split at h
              · rename_i hc
                obtain ⟨hc1, hc2, hc3, hc4⟩ := hc
                subst hc2
                have e : k + 1 + fuel = (k + fuel) + 1 := by omega
                rw [e, lookupLoop_continue result ret hcd hs hc1 hc3 hv hc4,
                  ih _ _ _ _ _ _ h hne fuel result LOS_OK]
                exact lookupLoop_ret fuel s1 (some cv1) result LOS_OK ret hne
              · cases h

/-- A property of states that every `Step` and every path memo carries along is
carried along by the whole walk. -/
theorem lookupLoop_frame {env : Env} {flags : Nat} {np : List Char} (R : State → State → Prop)
    (hrefl : ∀ s, R s s) (htrans : ∀ a b c, R a b → R b c → R a c)
    (hstep : ∀ s cd cv r, Step env s cd cv flags = some r → R s r.2.2.2)
    (hmemo : ∀ s v path, R s (memoPath s v path)) :
    ∀ (fuel : Nat) (s : State) (cd : List Char) (cv : Option Nat) (result : Option Nat)
      (ret : Int) (r : Int × Option Nat × State),
      lookupLoop env flags np fuel s cd cv result ret = some r → R s r.2.2 := by
  intro fuel
  induction fuel with
  | zero =>
    intro s cd cv result ret r h
    rw [lookupLoop] at h
    split at h
    · cases h; exact hrefl s
    · cases h
  | succ n ih =>
    intro s cd cv result ret r h
    rw [lookupLoop] at h
    split at h
    · cases h; exact hrefl s
    · cases hs : Step env s cd cv flags with
      | none => rw [hs] at h; cases h
      | some q =>
        have hq := hstep s cd cv q hs
        obtain ⟨ret1, cd1, cv1, s1⟩ := q
        rw [hs] at h
        simp only at h hq
        split at h
        · cases cv1 with
          | none => cases h
          | some v =>
            simp only at h
            cases hv : s1.vnode v with
            | none => rw [hv] at h; cases h
            | some vn =>
              rw [hv] at h
              simp only at h
              have hm := hmemo s1 v np
              unfold memoPath at hm
              rw [hv] at hm
              simp only at hm
              split at h
              · rename_i hnone
                rw [if_pos hnone] at hm
                cases h
                exact htrans _ _ _ hq hm
              · cases h; exact hq
        · split at h
          · cases h; exact hq
          · split at h
            · cases h; exact hq
            · cases cd1 with
              | none => cases h
              | some cd2 =>
                cases cv1 with
                | none => cases h
                | some v =>
                  simp only at h
                  cases hv : s1.vnode v with
                  | none => rw [hv] at h; cases h
                  | some vn =>
                    rw [hv] at h
                    simp only at h
                    have hm := hmemo s1 v (np.take (np.length - cd2.length))
                    unfold memoPath at hm
                    rw [hv] at hm
                    simp only at hm
                    split at h
                    · rename_i hnone
                      rw [if_pos hnone] at hm
                      split at h
                      · exact htrans _ _ _ (htrans _ _ _ hq hm) (ih _ _ _ _ _ _ h)
                      · cases h; exact hq
                    · exact htrans _ _ _ hq (ih _ _ _ _ _ _ h)

theorem RefreshLRU_vnode {s s2 : State} {v : Option Nat} (h : RefreshLRU s v = some s2) (q : Nat) :
    s2.vnode q = s.vnode q := by
  unfold RefreshLRU at h
  cases v with
  | none => cases h; rfl
  | some p =>
    simp only at h
    cases hp : s.vnode p with
    | none => rw [hp] at h; cases h
    | some vn =>
      rw [hp] at h
      simp only at h
      split at h
      · cases h; rfl
      · cases h; rfl

theorem RefreshLRU_some {s : State} {p : Nat} {vn : Vnode} (h : s.vnode p = some vn) :
    ∃ s2, RefreshLRU s (some p) = some s2 := by
  unfold RefreshLRU
  simp only [h]
  split
  · exact ⟨_, rfl⟩
  · exact ⟨_, rfl⟩

theorem NextName_ne_nil {cd nd : List Char} {len : Nat} (h : NextName cd = some (nd, len)) :
    cd ≠ [] := by
  rintro rfl
  simp [NextName, skipSlashes] at h

/-- A walk whose last `Step` resolves the last name to `c` and converts it to `w`. -/
theorem lookupLoop_last {env : Env} {flags : Nat} {s s1 s2 : State} {cd nd : List Char}
    {cur len w : Nat} {vn wvn : Vnode} {ret1 : Int} {nv : Option Nat}
    (hv : s.vnode cur = some vn) (hdir : vn.type = VNODE_TYPE_DIR)
    (hname : NextName cd = some (nd, len))
    (hres : resolveName env s cur nd len flags = some (ret1, nv, s1))
    (hfin : stepFinish s1 cur nd len ret1 nv = some (ret1, some (nd.drop len), some w, s2))
    (hw : s2.vnode w = some wvn) (hlast : nd.drop len = [])
    (fuel : Nat) (np : List Char) (result : Option Nat) (ret : Int) :
    lookupLoop env flags np (fuel + 1) s cd (some cur) result ret =
      some (ret1, some w, memoPath s2 w np) := by
  have hs : Step env s cd (some cur) flags = some (ret1, some (nd.drop len), some w, s2) := by
    rw [Step_eq flags hv hdir hname, hres]
    exact hfin
  exact lookupLoop_terminal result ret (NextName_ne_nil hname) hs (Or.inr (by rw [hlast])) hw

theorem setVnode_setVnode (s : State) (p : Nat) (a b : Vnode) :
    (s.setVnode p a).setVnode p b = s.setVnode p b := by
  unfold State.setVnode
  simp [List.set_set]

theorem list_set_getD_self (l : List (Option Vnode)) (p : Nat) (x : Vnode)
    (h : l.getD p none = some x) : l.set p (some x) = l := by
  induction l generalizing p with
  | nil => rfl
  | cons a t ih =>
    cases p with
    | zero =>
      simp only [List.getD_cons_zero] at h
      simp [h]
    | succ n =>
      simp only [List.getD_cons_succ] at h
      simp only [List.set_cons_succ, List.cons.injEq, true_and]
      exact ih n h

theorem setVnode_self {s : State} {p : Nat} {vn : Vnode} (h : s.vnode p = some vn) :
    s.setVnode p vn = s := by
  unfold State.vnode at h
  unfold State.setVnode
  rw [list_set_getD_self _ _ _ h]

/-- Pinning a directory and unpinning it again restores the state. -/
theorem unpin_pinned {s : State} {d : Nat} {dvn : Vnode} (h : s.vnode d = some dvn) :
    (pinned s d dvn).setVnode d
      { ({ dvn with useCount := dvn.useCount + 1 } : Vnode) with
        useCount := dvn.useCount + 1 - 1 } = s := by
  unfold pinned
  rw [setVnode_setVnode]
  have : ({ ({ dvn with useCount := dvn.useCount + 1 } : Vnode) with
      useCount := dvn.useCount + 1 - 1 } : Vnode) = dvn := by
    cases dvn
    simp
  rw [this]
  exact setVnode_self h

theorem vnode_pinned_same {s : State} {d : Nat} {dvn : Vnode} (h : s.vnode d = some dvn) :
    (pinned s d dvn).vnode d = some { dvn with useCount := dvn.useCount + 1 } :=
  vnode_setVnode_same _ (vnode_lt_length h)

/-- The dispatch with `V_DUMMY` and without `V_CREATE`: `-ENOENT`, state unchanged. -/
theorem stepDispatch_dummy_noent {env : Env} {s : State} {d : Nat} {dvn : Vnode}
    (nd : List Char) (len : Nat) {flags : Nat} (h : s.vnode d = some dvn)
    (hdummy : hasFlag flags V_DUMMY = true) (hcreate : hasFlag flags V_CREATE = false) :
    stepDispatch env s d nd len flags = some (-ENOENT, none, s) := by
  unfold stepDispatch
  simp only [h, hdummy, if_true, ProcessVirtualVnode, hcreate, Bool.false_eq_true, if_false]
  have h1 := vnode_pinned_same h
  unfold pinned at h1
  simp only [h1]
  have h2 := unpin_pinned h
  unfold pinned at h2
  have hne : (-ENOENT : Int) ≠ LOS_OK := by decide
  rw [if_neg hne, h2]

/-- The dispatch through the `Lookup` of the directory's driver. -/
theorem stepDispatch_lookup {env : Env} {s : State} {d : Nat} {dvn : Vnode}
    (nd : List Char) (len : Nat) {flags : Nat} {op : Nat}
    {f : State → Nat → List Char → Nat → Int × Option Nat × State}
    (h : s.vnode d = some dvn) (hdummy : hasFlag flags V_DUMMY = false)
    (hop : dvn.vop = some op) (hf : (opsAt env op).Lookup = some f) :
    stepDispatch env s d nd len flags =
      match (f (pinned s d dvn) d nd len).2.2.vnode d with
      | none => none
      | some vn2 =>
        let s3 := (f (pinned s d dvn) d nd len).2.2.setVnode d
          { vn2 with useCount := vn2.useCount - 1 }
        if (f (pinned s d dvn) d nd len).1 = LOS_OK then
          some ((f (pinned s d dvn) d nd len).1, (f (pinned s d dvn) d nd len).2.1,
            PathCacheAlloc s3 d (f (pinned s d dvn) d nd len).2.1 nd len)
        else some ((f (pinned s d dvn) d nd len).1, (f (pinned s d dvn) d nd len).2.1, s3) := by
  unfold stepDispatch pinned
  simp only [h, hdummy, Bool.false_eq_true, if_false, hop, hf]

/-- The dispatch through the device table: `-ENOENT`, state unchanged. -/
theorem stepDispatch_devfs {env : Env} {s : State} {d : Nat} {dvn : Vnode}
    (nd : List Char) (len : Nat) {flags : Nat} (h : s.vnode d = some dvn)
    (hdummy : hasFlag flags V_DUMMY = false) (hop : dvn.vop = some g_devfsOps) :
    stepDispatch env s d nd len flags = some (-ENOENT, none, s) := by
  have hf : (opsAt env g_devfsOps).Lookup = some VnodeDevLookup := by
    simp [opsAt, devfsOpsTable]
  rw [stepDispatch_lookup nd len h hdummy hop hf]
  simp only [VnodeDevLookup, vnode_pinned_same h]
  have hne : (-ENOENT : Int) ≠ LOS_OK := by decide
  rw [if_neg hne]
  have h2 := unpin_pinned h
  rw [h2]

theorem stepFinish_failed (s : State) (cur : Nat) (nd : List Char) (len : Nat) {ret : Int}
    (hne : ret ≠ LOS_OK) :
    stepFinish s cur nd len ret none = some (ret, some (nd.drop len), some cur, s) := by
  simp [stepFinish, ConvertVnodeIfMounted, RefreshLRU, hne]

/-- The walk of `VnodeLookupAt` goes on from where its first `k` resolving
iterations end. -/
theorem VnodeLookupAt_walk {env : Env} {flags k : Nat} {s s1 : State}
    {path np cd : List Char} {org : Option Nat} {r d : Nat}
    (hstart : WalkStart env s path org np r) (hnp : np ≠ ['/'])
    (hwalk : walkSteps env flags np k s np r = some (s1, cd, d)) (hcd : cd ≠ [])
    (fuel : Nat) (result : Option Nat) :
    VnodeLookupAt env (k + fuel) s path result flags org =
      lookupLoop env flags np fuel s1 cd (some d) result LOS_OK := by
  unfold VnodeLookupAt
  rcases hstart with ⟨ho, hp⟩ | ⟨ho, hn, hr⟩
  · subst ho hp
    simp only [reduceCtorEq, false_and, if_false, if_neg hnp]
    rw [lookupLoop_walkSteps k _ _ _ _ _ _ hwalk hcd fuel result env.uninitRet]
    exact lookupLoop_ret fuel s1 (some d) result _ _ hcd
  · subst ho
    simp only [PreProcess, hn, ne_eq, not_true_eq_false, and_false, if_false, if_neg hnp, hr]
    exact lookupLoop_walkSteps k _ _ _ _ _ _ hwalk hcd fuel result LOS_OK

/-- A virtual allocation served by the free list or by a fresh slot: the slot was on
neither the virtual nor the active list. -/
theorem VnodeAlloc_virtual_unused {env : Env} {s : State} (hi : PoolInv env s)
    (hw : FreeWiped s)
    (hroom : s.g_vnodeFreeList ≠ [] ∨
      (s.g_totalVnodeSize < (env.LOSCFG_MAX_VNODE_SIZE : Int) ∧ env.zallocOk s = true)) :
    ∃ v s2, VnodeAlloc env s none = some (LOS_OK, some v, s2) ∧
      v ∉ s.g_vnodeVirtualList ∧ v ∉ s.g_vnodeActiveList ∧
      (s.vnode v = none ∨ s.vnode v = some zeroVnode) ∧
      s2.vnode v = some (virtualVnode v) ∧
      (∀ q, q ≠ v → s2.vnode q = s.vnode q) ∧
      s2.g_vnodeVirtualList = v :: s.g_vnodeVirtualList ∧
      s2.g_vnodeActiveList = s.g_vnodeActiveList := by
  cases hfl : s.g_vnodeFreeList with
  | cons v rest =>
    obtain ⟨s1, hg, -, hact, hvirt, hvn⟩ := GetFromFreeList_spec hi hfl
    have ha := allocSlot_free_head hi hfl
    rw [hg] at ha
    have hz : s.vnode v = some zeroVnode := hw v (by rw [hfl]; exact List.mem_cons_self _ _)
    have hz1 : s1.vnode v = some zeroVnode := by rw [hvn]; exact hz
    obtain ⟨s2, he, -, -, -, hvl, hal, hp, hq⟩ := enrolVnode_spec none hz1
    have hnd := PoolInv_allVnodes_nodup hi
    unfold allVnodes at hnd
    rw [hfl, List.append_assoc] at hnd
    have hdis := (List.nodup_append.1 hnd).2.2
    have hnot : v ∉ s.g_vnodeVirtualList ++ s.g_vnodeActiveList :=
      fun hm => hdis (List.mem_cons_self _ _) hm
    refine ⟨v, s2, ?_, fun hm => hnot (List.mem_append_left _ hm),
      fun hm => hnot (List.mem_append_right _ hm), Or.inr hz, ?_, ?_, ?_, ?_⟩
    · unfold VnodeAlloc
      rw [ha]
      simp only [he]
    · rw [hp]; rfl
    · intro q hne
      rw [hq q hne, hvn]
    · rw [hvl, if_pos rfl, hvirt]
    · rw [hal, if_pos rfl, hact]
  | nil =>
    rcases hroom with hne | ⟨hlt, hzo⟩
    · exact absurd hfl hne
    · have hfs : s.g_freeVnodeSize ≤ 0 := by
        have := hi.free_size; rw [hfl] at this; rw [this]; simp
      have ha := allocSlot_fresh hfs hlt hzo
      have hv := vnode_zalloc s (s.g_totalVnodeSize + 1) s.heap.length
      rw [if_pos rfl] at hv
      obtain ⟨s2, he, -, -, -, hvl, hal, hp, hq⟩ := enrolVnode_spec none hv
      have hnone : s.vnode s.heap.length = none := by
        cases hx : s.vnode s.heap.length with
        | none => rfl
        | some vn => exact absurd (vnode_lt_length hx) (Nat.lt_irrefl _)
      have hnot : s.heap.length ∉ allVnodes s := by
        intro hm
        have := (hi.alloc_iff s.heap.length).2 (by simpa using hm)
        rw [hnone] at this
        cases this
      unfold allVnodes at hnot
      refine ⟨s.heap.length, s2, ?_, fun hm => hnot (by simp [hm]),
        fun hm => hnot (by simp [hm]), Or.inl hnone, ?_, ?_, ?_, ?_⟩
      · unfold VnodeAlloc
        rw [ha]
        simp only [he]
      · rw [hp]; rfl
      · intro q hne
        rw [hq q hne, vnode_zalloc, if_neg hne]
      · rw [hvl, if_pos rfl]
      · rw [hal, if_pos rfl]

theorem memoPath_fields (s : State) (v : Nat) (path : List Char) :
    (memoPath s v path).g_vnodeFreeList = s.g_vnodeFreeList ∧
    (memoPath s v path).g_vnodeVirtualList = s.g_vnodeVirtualList ∧
    (memoPath s v path).g_vnodeActiveList = s.g_vnodeActiveList ∧
    (memoPath s v path).g_freeVnodeSize = s.g_freeVnodeSize ∧
    (memoPath s v path).g_totalVnodeSize = s.g_totalVnodeSize ∧
    (memoPath s v path).g_rootVnode = s.g_rootVnode ∧
    (memoPath s v path).pathCache = s.pathCache ∧
    (memoPath s v path).mounts = s.mounts := by
  unfold memoPath
  split
  · split
    · exact ⟨rfl, rfl, rfl, rfl, rfl, rfl, rfl, rfl⟩
    · exact ⟨rfl, rfl, rfl, rfl, rfl, rfl, rfl, rfl⟩
  · exact ⟨rfl, rfl, rfl, rfl, rfl, rfl, rfl, rfl⟩

/-- The dispatch with `V_CREATE | V_DUMMY` when `VnodeAlloc` hands out `v`. -/
theorem stepDispatch_create {env : Env} {s s2 : State} {d v : Nat} {dvn vn : Vnode}
    (nd : List Char) (len : Nat) {flags : Nat} (h : s.vnode d = some dvn)
    (hdummy : hasFlag flags V_DUMMY = true) (hcreate : hasFlag flags V_CREATE = true)
    (halloc : VnodeAlloc env (pinned s d dvn) none = some (LOS_OK, some v, s2))
    (hv : s2.vnode v = some vn) (hne : v ≠ d)
    (hd2 : s2.vnode d = some { dvn with useCount := dvn.useCount + 1 }) :
    stepDispatch env s d nd len flags =
      some (LOS_OK, some v,
        PathCacheAlloc ((s2.setVnode v { vn with parent := some d }).setVnode d dvn) d (some v)
          nd len) := by
  unfold pinned at halloc
  unfold stepDispatch
  simp only [h, hdummy, if_true, ProcessVirtualVnode, hcreate, halloc, hv]
  have h3 : (s2.setVnode v { vn with parent := some d }).vnode d =
      some { dvn with useCount := dvn.useCount + 1 } := by
    rw [vnode_setVnode_ne _ hne.symm]; exact hd2
  simp only [h3]
  have : ({ ({ dvn with useCount := dvn.useCount + 1 } : Vnode) with
      useCount := dvn.useCount + 1 - 1 } : Vnode) = dvn := by
    cases dvn
    simp
  rw [this]

theorem wf_devState : PoolInv envFour devState ∧ FreeWiped devState := by
  refine ⟨⟨by decide, by decide, by decide, ?_, by decide⟩, ?_⟩
  · intro p
    rcases p with _ | _ | p
    · decide
    · decide
    · have h1 : devState.vnode (p + 2) = none := rfl
      rw [h1]
      simp [allVnodes, devState, rootOnly, bootState]
  · intro p hp
    simp [devState, rootOnly, bootState] at hp

theorem KeepsPaths_refl (s : State) : KeepsPaths s s :=
  fun _ vn _ h hf => ⟨vn, h, hf⟩

theorem KeepsPaths_trans {a b c : State} (h1 : KeepsPaths a b) (h2 : KeepsPaths b c) :
    KeepsPaths a c := by
  intro p vn fp h hf
  obtain ⟨vn1, h3, hf1⟩ := h1 p vn fp h hf
  exact h2 p vn1 fp h3 hf1

theorem KeepsPaths_of_vnode {s t : State} (h : ∀ q, t.vnode q = s.vnode q) : KeepsPaths s t :=
  fun p vn _ hv hf => ⟨vn, by rw [h p]; exact hv, hf⟩

theorem KeepsPaths_setVnode {s : State} {p : Nat} {vn vn1 : Vnode} (h : s.vnode p = some vn)
    (hf : vn1.filePath = vn.filePath) : KeepsPaths s (s.setVnode p vn1) := by
  intro q vq fp hq hfq
  by_cases e : q = p
  · subst e
    rw [h] at hq
    injection hq with hq
    subst hq
    exact ⟨vn1, vnode_setVnode_same _ (vnode_lt_length h), by rw [hf]; exact hfq⟩
  · exact ⟨vq, by rw [vnode_setVnode_ne _ e]; exact hq, hfq⟩

theorem KeepsPaths_memoPath (s : State) (v : Nat) (path : List Char) :
    KeepsPaths s (memoPath s v path) := by
  intro q vq fp hq hfq
  by_cases e : q = v
  · subst e
    refine ⟨_, vnode_memoPath_same path hq, ?_⟩
    have : vq.filePath ≠ none := by rw [hfq]; simp
    rw [if_neg this]
    exact hfq
  · exact ⟨vq, by rw [vnode_memoPath_ne s path e]; exact hq, hfq⟩

theorem stepDispatch_KeepsPaths {env : Env} {flags : Nat}
    (hflags : hasFlag flags V_DUMMY = true → hasFlag flags V_CREATE = false)
    (hdrv : DriverKeepsPaths env) {s : State} {cur : Nat} {nd : List Char} {len : Nat}
    {r : Int × Option Nat × State} (h : stepDispatch env s cur nd len flags = some r) :
    KeepsPaths s r.2.2 := by
  unfold stepDispatch at h
  cases hv : s.vnode cur with
  | none => rw [hv] at h; cases h
  | some vn =>
    rw [hv] at h
    simp only at h
    have hpin : KeepsPaths s (s.setVnode cur { vn with useCount := vn.useCount + 1 }) :=
      KeepsPaths_setVnode hv rfl
    generalize s.setVnode cur { vn with useCount := vn.useCount + 1 } = s1 at h hpin
    have hmid : ∀ q : Int × Option Nat × State,
        (if hasFlag flags V_DUMMY = true then ProcessVirtualVnode env s1 cur flags
          else
            match vn.vop with
            | none => some (-ENOSYS, none, s1)
            | some op =>
              match (opsAt env op).Lookup with
              | none => some (-ENOSYS, none, s1)
              | some f => some (f s1 cur nd len)) = some q → KeepsPaths s1 q.2.2 := by
      intro q hq
      split at hq
      · rename_i hd
        unfold ProcessVirtualVnode at hq
        rw [hflags hd] at hq
        simp only [Bool.false_eq_true, if_false, Option.some.injEq] at hq
        subst hq
        exact KeepsPaths_refl s1
      · split at hq
        · cases hq; exact KeepsPaths_refl s1
        · split at hq
          · cases hq; exact KeepsPaths_refl s1
          · rename_i f hf
            cases hq
            exact hdrv _ f hf s1 cur nd len
    generalize (if hasFlag flags V_DUMMY = true then ProcessVirtualVnode env s1 cur flags
          else
            match vn.vop with
            | none => some (-ENOSYS, none, s1)
            | some op =>
              match (opsAt env op).Lookup with
              | none => some (-ENOSYS, none, s1)
              | some f => some (f s1 cur nd len)) = mid at h hmid
    cases mid with
    | none => cases h
    | some q =>
      obtain ⟨ret, nv, s2⟩ := q
      have h2 := hmid _ rfl
      simp only at h h2
      cases hv2 : s2.vnode cur with
      | none => rw [hv2] at h; cases h
      | some vn2 =>
        rw [hv2] at h
        simp only at h
        have hun : KeepsPaths s2 (s2.setVnode cur { vn2 with useCount := vn2.useCount - 1 }) :=
          KeepsPaths_setVnode hv2 rfl
        have hall := KeepsPaths_trans hpin (KeepsPaths_trans h2 hun)
        split at h
        · cases h
          refine KeepsPaths_trans hall (KeepsPaths_of_vnode ?_)
          intro q
          unfold PathCacheAlloc
          split <;> rfl
        · cases h
          exact hall

theorem Step_KeepsPaths {env : Env} {flags : Nat}
    (hflags : hasFlag flags V_DUMMY = true → hasFlag flags V_CREATE = false)
    (hdrv : DriverKeepsPaths env) (s : State) (cd : List Char) (cv : Option Nat)
    (r : Int × Option (List Char) × Option Nat × State)
    (h : Step env s cd cv flags = some r) : KeepsPaths s r.2.2.2 := by
  cases cv with
  | none => simp [Step] at h
  | some cur =>
    cases hv : s.vnode cur with
    | none => simp [Step, hv] at h
    | some vn =>
      by_cases hdir : vn.type = VNODE_TYPE_DIR
      · cases hn : NextName cd with
        | none =>
          rw [Step_slashes flags hv hdir hn] at h
          cases h
          exact KeepsPaths_refl s
        | some x =>
          obtain ⟨nd, len⟩ := x
          rw [Step_eq flags hv hdir hn] at h
          cases hr : resolveName env s cur nd len flags with
          | none => rw [hr] at h; cases h
          | some q =>
            obtain ⟨ret, nv, s1⟩ := q
            rw [hr] at h
            simp only at h
            have h1 : KeepsPaths s s1 := by
              unfold resolveName at hr
              split at hr
              · cases hr; exact KeepsPaths_refl s
              · exact stepDispatch_KeepsPaths hflags hdrv hr
            unfold stepFinish at h
            split at h
            · cases h
            · split at h
              · cases h
              · rename_i s2 hl
                cases h
                exact KeepsPaths_trans h1 (KeepsPaths_of_vnode (RefreshLRU_vnode hl))
      · rw [Step_notdir cd flags hv hdir] at h
        cases h
        exact KeepsPaths_refl s

/-- A walk that returns `LOS_OK` returns a vnode with a file path. -/
theorem lookupLoop_ok_path {env : Env} {flags : Nat} {np : List Char} :
    ∀ (fuel : Nat) (s : State) (cd : List Char) (cv result : Option Nat) (ret : Int)
      (res : Option Nat) (s1 : State), cd ≠ [] →
      lookupLoop env flags np fuel s cd cv result ret = some (LOS_OK, res, s1) →
      ∃ v vn, res = some v ∧ s1.vnode v = some vn ∧ vn.filePath ≠ none := by
  intro fuel
  induction fuel with
  | zero =>
    intro s cd cv result ret res s1 hcd h
    simp [lookupLoop, hcd] at h
  | succ n ih =>
    intro s cd cv result ret res s1 hcd h
    rw [lookupLoop, if_neg hcd] at h
    cases hs : Step env s cd cv flags with
    | none => rw [hs] at h; cases h
    | some q =>
      obtain ⟨ret1, cd1, cv1, s2⟩ := q
      rw [hs] at h
      simp only at h
      split at h
      · cases cv1 with
        | none => cases h
        | some v =>
          simp only at h
          cases hv : s2.vnode v with
          | none => rw [hv] at h; cases h
          | some vn =>
            rw [hv] at h
            simp only at h
            split at h
            · simp only [Option.some.injEq, Prod.mk.injEq] at h
              obtain ⟨-, rfl, rfl⟩ := h
              exact ⟨v, _, rfl, vnode_setVnode_same _ (vnode_lt_length hv), by simp⟩
            · rename_i hfp
              simp only [Option.some.injEq, Prod.mk.injEq] at h
              obtain ⟨-, rfl, rfl⟩ := h
              exact ⟨v, vn, rfl, hv, hfp⟩
      · rename_i hnt
        split at h
        · simp only [Option.some.injEq, Prod.mk.injEq] at h
          exact absurd h.1 (by decide)
        · split at h
          · rename_i hne
            simp only [Option.some.injEq, Prod.mk.injEq] at h
            exact absurd h.1 hne
          · cases cd1 with
            | none => exact absurd (Or.inl rfl) hnt
            | some cd2 =>
              have hcd2 : cd2 ≠ [] := fun e => hnt (Or.inr (by rw [e]))
              cases cv1 with
              | none => cases h
              | some v =>
                simp only at h
                cases hv : s2.vnode v with
                | none => rw [hv] at h; cases h
                | some vn =>
                  rw [hv] at h
                  simp only at h
                  split at h
                  · split at h
                    · exact ih _ _ _ _ _ _ _ hcd2 h
                    · simp only [Option.some.injEq, Prod.mk.injEq] at h
                      exact absurd h.1 (by decide)
                  · exact ih _ _ _ _ _ _ _ hcd2 h

/-- The loop that `VnodeLookupAt` runs on a path other than `"/"`. -/
theorem VnodeLookupAt_loop {env : Env} {flags : Nat} {s : State} {path np : List Char}
    {org : Option Nat} {r : Nat} (hstart : WalkStart env s path org np r) (hnp : np ≠ ['/'])
    (fuel : Nat) (result : Option Nat) :
    ∃ ret0, VnodeLookupAt env fuel s path result flags org =
      lookupLoop env flags np fuel s np (some r) result ret0 := by
  unfold VnodeLookupAt
  rcases hstart with ⟨ho, hp⟩ | ⟨ho, hn, hr⟩
  · subst ho hp
    simp only [reduceCtorEq, false_and, if_false, if_neg hnp]
    exact ⟨_, rfl⟩
  · subst ho
    simp only [PreProcess, hn, ne_eq, not_true_eq_false, and_false, if_false, if_neg hnp, hr]
    exact ⟨_, rfl⟩

theorem skipSlashes_slashes (k : Nat) : skipSlashes (slashes k) = [] := by
  induction k with
  | zero => rfl
  | succ n ih =>
    show skipSlashes ('/' :: slashes n) = []
    simp only [skipSlashes, if_true]
    exact ih

theorem skipSlashes_append (cd : List Char) (k : Nat) :
    skipSlashes (cd ++ slashes k) =
      if skipSlashes cd = [] then [] else skipSlashes cd ++ slashes k := by
  induction cd with
  | nil => simp [skipSlashes, skipSlashes_slashes]
  | cons c rest ih =>
    by_cases hc : c = '/'
    · subst hc
      simp only [List.cons_append, skipSlashes, if_true]
      exact ih
    · simp [skipSlashes, hc]

theorem segmentLength_le (nd : List Char) : segmentLength nd ≤ nd.length := by
  induction nd with
  | nil => simp [segmentLength]
  | cons c rest ih =>
    by_cases hc : c = '/'
    · simp [segmentLength, hc]
    · simp only [segmentLength, if_neg hc, List.length_cons]
      omega

theorem segmentLength_append (nd : List Char) (k : Nat) :
    segmentLength (nd ++ slashes k) = segmentLength nd := by
  induction nd with
  | nil =>
    cases k with
    | zero => rfl
    | succ n =>
      show segmentLength ('/' :: slashes n) = _
      simp [segmentLength]
  | cons c rest ih =>
    by_cases hc : c = '/'
    · simp [segmentLength, hc]
    · show segmentLength (c :: (rest ++ slashes k)) = segmentLength (c :: rest)
      simp only [segmentLength, if_neg hc, ih]

theorem NextName_append_none {cd : List Char} (k : Nat) (h : NextName cd = none) :
    NextName (cd ++ slashes k) = none := by
  unfold NextName at h ⊢
  rw [skipSlashes_append]
  cases hs : skipSlashes cd with
  | nil => simp
  | cons c rest => rw [hs] at h; cases h

theorem NextName_append_some {cd nd : List Char} {len : Nat} (k : Nat)
    (h : NextName cd = some (nd, len)) :
    NextName (cd ++ slashes k) = some (nd ++ slashes k, len) ∧ len ≤ nd.length := by
  unfold NextName at h ⊢
  rw [skipSlashes_append]
  cases hs : skipSlashes cd with
  | nil => rw [hs] at h; cases h
  | cons c rest =>
    rw [hs] at h
    simp only [Option.some.injEq, Prod.mk.injEq] at h
    obtain ⟨h1, h2⟩ := h
    subst h1
    have hle : len ≤ (c :: rest).length := by
      rw [← h2]
      exact le_trans (Nat.mod_le _ _) (segmentLength_le _)
    refine ⟨?_, hle⟩
    have hne : ¬ (c :: rest = []) := by simp
    rw [if_neg hne]
    have e := segmentLength_append (c :: rest) k
    simp only [List.cons_append] at e ⊢
    rw [e, h2]

theorem PathCacheLookup_congr (s : State) (cur : Nat) {n1 n2 : List Char} {len : Nat}
    (h : n1.take len = n2.take len) :
    PathCacheLookup s cur n1 len = PathCacheLookup s cur n2 len := by
  unfold PathCacheLookup
  rw [h]

theorem PathCacheAlloc_congr (s : State) (cur : Nat) (nv : Option Nat) {n1 n2 : List Char}
    {len : Nat} (h : n1.take len = n2.take len) :
    PathCacheAlloc s cur nv n1 len = PathCacheAlloc s cur nv n2 len := by
  unfold PathCacheAlloc
  rw [h]

theorem stepDispatch_congr {env : Env} (hdrv : DriverReadsLen env) (s : State) (cur : Nat)
    {n1 n2 : List Char} {len : Nat} (flags : Nat) (h : n1.take len = n2.take len) :
    stepDispatch env s cur n1 len flags = stepDispatch env s cur n2 len flags := by
  unfold stepDispatch
  cases hv : s.vnode cur with
  | none => rfl
  | some vn =>
    simp only
    have hmid : (match vn.vop with
        | none => some (-ENOSYS, none, s.setVnode cur { vn with useCount := vn.useCount + 1 })
        | some op =>
          match (opsAt env op).Lookup with
          | none => some (-ENOSYS, none, s.setVnode cur { vn with useCount := vn.useCount + 1 })
          | some f =>
            some (f (s.setVnode cur { vn with useCount := vn.useCount + 1 }) cur n1 len)) =
      (match vn.vop with
        | none => some (-ENOSYS, none, s.setVnode cur { vn with useCount := vn.useCount + 1 })
        | some op =>
          match (opsAt env op).Lookup with
          | none => some (-ENOSYS, none, s.setVnode cur { vn with useCount := vn.useCount + 1 })
          | some f =>
            some (f (s.setVnode cur { vn with useCount := vn.useCount + 1 }) cur n2 len)) := by
      cases hop : vn.vop with
      | none => rfl
      | some op =>
        simp only
        cases hf : (opsAt env op).Lookup with
        | none => rfl
        | some f =>
          simp only
          rw [hdrv op f hf _ cur n1 len, hdrv op f hf _ cur n2 len, h]
    rw [hmid]
    simp only [PathCacheAlloc_congr _ cur _ h]

theorem resolveName_congr {env : Env} (hdrv : DriverReadsLen env) (s : State) (cur : Nat)
    {n1 n2 : List Char} {len : Nat} (flags : Nat) (h : n1.take len = n2.take len) :
    resolveName env s cur n1 len flags = resolveName env s cur n2 len flags := by
  unfold resolveName
  rw [PathCacheLookup_congr s cur h, stepDispatch_congr hdrv s cur flags h]

/-- Trailing slashes after the path are handed through by `Step`. -/
theorem Step_append {env : Env} (hdrv : DriverReadsLen env) (s : State) (cd : List Char)
    (cv : Option Nat) (flags k : Nat) :
    Step env s (cd ++ slashes k) cv flags =
      (Step env s cd cv flags).map
        (fun r => (r.1, r.2.1.map (fun rest => rest ++ slashes k), r.2.2.1, r.2.2.2)) := by
  cases cv with
  | none => simp [Step]
  | some cur =>
    cases hv : s.vnode cur with
    | none => simp [Step, hv]
    | some vn =>
      by_cases hdir : vn.type = VNODE_TYPE_DIR
      · cases hn : NextName cd with
        | none =>
          rw [Step_slashes flags hv hdir hn, Step_slashes flags hv hdir (NextName_append_none k hn)]
          rfl
        | some x =>
          obtain ⟨nd, len⟩ := x
          obtain ⟨hn2, hle⟩ := NextName_append_some k hn
          rw [Step_eq flags hv hdir hn, Step_eq flags hv hdir hn2]
          have ht : (nd ++ slashes k).take len = nd.take len := List.take_append_of_le_length hle
          rw [resolveName_congr hdrv s cur flags ht]
          cases resolveName env s cur nd len flags with
          | none => rfl
          | some q =>
            obtain ⟨ret, nv, s1⟩ := q
            simp only [stepFinish]
            cases ConvertVnodeIfMounted s1 nv with
            | none => rfl
            | some nv1 =>
              simp only
              cases RefreshLRU s1 nv1 with
              | none => rfl
              | some s2 =>
                simp only [Option.map_some', List.drop_append_of_le_length hle]
      · rw [Step_notdir cd flags hv hdir, Step_notdir (cd ++ slashes k) flags hv hdir]
        rfl

theorem Step_none_dir {env : Env} {s s2 : State} {cd : List Char} {cv cv1 : Option Nat}
    {flags : Nat} {ret1 : Int} (h : Step env s cd cv flags = some (ret1, none, cv1, s2)) :
    ∃ cur vn, cv = some cur ∧ cv1 = some cur ∧ s2 = s ∧ s.vnode cur = some vn ∧
      vn.type = VNODE_TYPE_DIR ∧ ret1 = LOS_OK := by
  cases cv with
  | none => simp [Step] at h
  | some cur =>
    cases hv : s.vnode cur with
    | none => simp [Step, hv] at h
    | some vn =>
      by_cases hdir : vn.type = VNODE_TYPE_DIR
      · cases hn : NextName cd with
        | none =>
          rw [Step_slashes flags hv hdir hn] at h
          simp only [Option.some.injEq, Prod.mk.injEq, true_and] at h
          exact ⟨cur, vn, rfl, h.2.1.symm, h.2.2.symm, hv, hdir, h.1.symm⟩
        | some x =>
          obtain ⟨nd, len⟩ := x
          rw [Step_eq flags hv hdir hn] at h
          cases hr : resolveName env s cur nd len flags with
          | none => rw [hr] at h; cases h
          | some q =>
            obtain ⟨ret, nv, s1⟩ := q
            rw [hr] at h
            simp only [stepFinish] at h
            split at h
            · cases h
            · split at h
              · cases h
              · simp at h
      · rw [Step_notdir cd flags hv hdir] at h
        simp at h

/-- An iteration that fails with more of the path to go ends the walk. -/
theorem lookupLoop_fail {env : Env} {flags : Nat} {np : List Char} {fuel : Nat} {s : State}
    {cd : List Char} {cv : Option Nat} (result : Option Nat) (ret : Int) {ret1 : Int}
    {cd1 : List Char} {cv1 : Option Nat} {s1 : State}
    (hcd : cd ≠ []) (hstep : Step env s cd cv flags = some (ret1, some cd1, cv1, s1))
    (hmore : cd1 ≠ []) (hperm : env.VfsVnodePermissionCheck s1 cv1 = false)
    (hret : ret1 ≠ LOS_OK) :
    lookupLoop env flags np (fuel + 1) s cd cv result ret = some (ret1, result, s1) := by
  rw [lookupLoop, if_neg hcd, hstep]
  have h1 : ¬ ((some cd1 : Option (List Char)) = none ∨ some cd1 = some []) := by
    simp [hmore]
  simp only [if_neg h1, hperm, Bool.false_eq_true, if_false, ne_eq, hret, not_false_eq_true,
    if_true]

theorem take_trailing (np cd : List Char) (k : Nat) :
    (np ++ slashes k).take ((np ++ slashes k).length - (cd ++ slashes k).length) =
      np.take (np.length - cd.length) := by
  have e : (np ++ slashes k).length - (cd ++ slashes k).length = np.length - cd.length := by
    simp only [List.length_append]
    omega
  rw [e]
  exact List.take_append_of_le_length (Nat.sub_le _ _)

theorem slashes_ne_nil {k : Nat} (hk : 0 < k) : slashes k ≠ [] := by
  cases k with
  | zero => omega
  | succ n => simp [slashes, List.replicate_succ]

theorem NextName_slashes (k : Nat) : NextName (slashes k) = none := by
  unfold NextName
  rw [skipSlashes_slashes]

/-- The walk of a path with trailing slashes, compared with the walk of the path. -/
theorem lookupLoop_trailing {env : Env} {flags : Nat} {np : List Char} {k : Nat}
    (hdrv : DriverReadsLen env) (hmalloc : ∀ s, env.mallocOk s = true) (hk : 0 < k) :
    ∀ (n : Nat) (s : State) (cd : List Char) (cv result : Option Nat) (ret : Int) (v : Nat)
      (s1 : State), cd ≠ [] →
      lookupLoop env flags np n s cd cv result ret = some (LOS_OK, some v, s1) →
      (∀ t, env.VfsVnodePermissionCheck t (some v) = false) →
      ∃ vn, s1.vnode v = some vn ∧
        (vn.type = VNODE_TYPE_DIR → ∃ s2,
          lookupLoop env flags (np ++ slashes k) (n + 1) s (cd ++ slashes k) cv result ret =
            some (LOS_OK, some v, s2)) ∧
        (vn.type ≠ VNODE_TYPE_DIR →
          lookupLoop env flags (np ++ slashes k) (n + 1) s (cd ++ slashes k) cv result ret =
            some (-ENOTDIR, result, s1)) := by
  intro n
  induction n with
  | zero =>
    intro s cd cv result ret v s1 hcd h
    simp [lookupLoop, hcd] at h
  | succ n ih =>
    intro s cd cv result ret v s1 hcd h hperm
    have hcdk : cd ++ slashes k ≠ [] := by simp [hcd]
    rw [lookupLoop, if_neg hcd] at h
    cases hs : Step env s cd cv flags with
    | none => rw [hs] at h; cases h
    | some q =>
      obtain ⟨ret1, cd1, cv1, s2⟩ := q
      have hsk := Step_append hdrv s cd cv flags k
      rw [hs] at h hsk
      simp only [Option.map_some'] at hsk
      simp only at h
      split at h
      · -- the walk of the path ends here
        rename_i hend
        cases cv1 with
        | none => cases h
        | some w =>
          simp only at h
          cases hv : s2.vnode w with
          | none => rw [hv] at h; cases h
          | some vn =>
            have hres : ret1 = LOS_OK ∧ w = v ∧ memoPath s2 w np = s1 := by
              rw [hv] at h
              simp only at h
              unfold memoPath
              rw [hv]
              simp only
              split at h
              · rename_i hnone
                rw [if_pos hnone]
                simp only [Option.some.injEq, Prod.mk.injEq] at h
                exact ⟨h.1, h.2.1, h.2.2⟩
              · rename_i hsome
                rw [if_neg hsome]
                simp only [Option.some.injEq, Prod.mk.injEq] at h
                exact ⟨h.1, h.2.1, h.2.2⟩
            obtain ⟨rfl, rfl, hs1⟩ := hres
            have hv1 := vnode_memoPath_same np hv
            rw [hs1] at hv1
            refine ⟨_, hv1, ?_, ?_⟩
            · intro hdir
              have hdir0 : vn.type = VNODE_TYPE_DIR := by
                split at hdir <;> exact hdir
              rcases hend with hnone | hnil
              · subst hnone
                exact ⟨_, lookupLoop_terminal result ret hcdk hsk (Or.inl rfl) hv⟩
              · subst hnil
                simp only [Option.map_some', List.nil_append] at hsk
                have hcont := @lookupLoop_continue env flags (np ++ slashes k) (n + 1) s
                  (cd ++ slashes k) cv result ret (slashes k) w s2 vn hcdk hsk
                  (slashes_ne_nil hk) (hperm s2) hv (fun _ => hmalloc s2)
                have e := take_trailing np [] k
                simp only [List.nil_append, List.length_nil, Nat.sub_zero, List.take_length] at e
                rw [e, hs1] at hcont
                rw [hcont]
                have hstep2 := @Step_slashes env s1 (slashes k) w _ flags hv1
                  (by split <;> exact hdir0) (NextName_slashes k)
                exact ⟨_, lookupLoop_terminal result LOS_OK (slashes_ne_nil hk) hstep2
                  (Or.inl rfl) hv1⟩
            · intro hndir
              have hndir0 : vn.type ≠ VNODE_TYPE_DIR := by
                split at hndir <;> exact hndir
              rcases hend with hnone | hnil
              · subst hnone
                obtain ⟨cur, vn0, -, hc1, hs2, hv0, hd0, -⟩ := Step_none_dir hs
                injection hc1 with hc1
                subst hc1 hs2
                rw [hv] at hv0
                injection hv0 with hv0
                subst hv0
                exact absurd hd0 hndir0
              · subst hnil
                simp only [Option.map_some', List.nil_append] at hsk
                have hcont := @lookupLoop_continue env flags (np ++ slashes k) (n + 1) s
                  (cd ++ slashes k) cv result ret (slashes k) w s2 vn hcdk hsk
                  (slashes_ne_nil hk) (hperm s2) hv (fun _ => hmalloc s2)
                have e := take_trailing np [] k
                simp only [List.nil_append, List.length_nil, Nat.sub_zero, List.take_length] at e
                rw [e, hs1] at hcont
                rw [hcont]
                have hstep2 := @Step_notdir env s1 (slashes k) w _ flags hv1
                  (by split <;> exact hndir0)
                exact lookupLoop_fail result LOS_OK (slashes_ne_nil hk) hstep2
                  (slashes_ne_nil hk) (hperm s1) (by decide)
      · rename_i hnt
        split at h
        · simp only [Option.some.injEq, Prod.mk.injEq] at h
          exact absurd h.1 (by decide)
        · rename_i hp
          split at h
          · rename_i hne
            simp only [Option.some.injEq, Prod.mk.injEq] at h
            exact absurd h.1 hne
          · rename_i hok
            cases cd1 with
            | none => exact absurd (Or.inl rfl) hnt
            | some cd2 =>
              have hcd2 : cd2 ≠ [] := fun e => hnt (Or.inr (by rw [e]))
              cases cv1 with
              | none => cases h
              | some w =>
                simp only at h
                cases hv : s2.vnode w with
                | none => rw [hv] at h; cases h
                | some vn =>
                  have hok1 : ret1 = LOS_OK := by
                    by_contra hc
                    exact hok hc
                  subst hok1
                  have hperm2 : env.VfsVnodePermissionCheck s2 (some w) = false := by
                    cases hb : env.VfsVnodePermissionCheck s2 (some w) with
                    | false => rfl
                    | true => exact absurd hb hp
                  simp only [Option.map_some'] at hsk
                  have hcd2k : cd2 ++ slashes k ≠ [] := by simp [hcd2]
                  have hcont := @lookupLoop_continue env flags (np ++ slashes k) (n + 1) s
                    (cd ++ slashes k) cv result ret (cd2 ++ slashes k) w s2 vn hcdk hsk
                    hcd2k hperm2 hv (fun _ => hmalloc s2)
                  rw [take_trailing] at hcont
                  rw [hcont]
                  have hA : lookupLoop env flags np n
                      (memoPath s2 w (np.take (np.length - cd2.length))) cd2 (some w) result
                      LOS_OK = some (LOS_OK, some v, s1) := by
                    rw [hv] at h
                    simp only at h
                    unfold memoPath
                    rw [hv]
                    simp only
                    split at h
                    · rename_i hnone
                      rw [if_pos hnone]
                      rw [if_pos (hmalloc s2)] at h
                      exact h
                    · rename_i hsome
                      rw [if_neg hsome]
                      exact h
                  exact ih _ _ _ _ _ _ _ hcd2 hA hperm

theorem opsAt_envFour {op : Nat} {f : State → Nat → List Char → Nat → Int × Option Nat × State}
    (h : (opsAt envFour op).Lookup = some f) : f = VnodeDevLookup := by
  unfold opsAt at h
  split at h
  · exact (Option.some.inj h).symm
  · cases h

theorem DriverReadsLen_envFour : DriverReadsLen envFour := by
  intro op f hf s cur name len
  rw [opsAt_envFour hf]
  rfl

theorem UseKept_refl (s : State) : UseKept s s :=
  ⟨Nat.le_refl _, fun _ vn h => Or.inr ⟨vn, h, rfl⟩, fun _ _ h => h⟩

theorem UseKept_trans {a b c : State} (h1 : UseKept a b) (h2 : UseKept b c) : UseKept a c := by
  refine ⟨Nat.le_trans h1.len h2.len, ?_, ?_⟩
  · intro p vn hv
    rcases h1.kept p vn hv with hn | ⟨vn1, hv1, hc1⟩
    · exact Or.inl (h2.gone p (Nat.lt_of_lt_of_le (vnode_lt_length hv) h1.len) hn)
    · rcases h2.kept p vn1 hv1 with hn | ⟨vn2, hv2, hc2⟩
      · exact Or.inl hn
      · exact Or.inr ⟨vn2, hv2, hc2.trans hc1⟩
  · intro p hp hn
    exact h2.gone p (Nat.lt_of_lt_of_le hp h1.len) (h1.gone p hp hn)

theorem CountFrame_refl (s : State) : CountFrame s s :=
  fun h => ⟨h, UseKept_refl s⟩

theorem CountFrame_trans {a b c : State} (h1 : CountFrame a b) (h2 : CountFrame b c) :
    CountFrame a c := by
  intro ha
  obtain ⟨hb, k1⟩ := h1 ha
  obtain ⟨hc, k2⟩ := h2 hb
  exact ⟨hc, UseKept_trans k1 k2⟩

theorem CountFrame_of_heap {s t : State} (h : t.heap = s.heap) : CountFrame s t := by
  have hv : ∀ q, t.vnode q = s.vnode q := fun q => by unfold State.vnode; rw [h]
  intro hs
  refine ⟨fun p vn hp => hs p vn (by rw [← hv p]; exact hp), ⟨by rw [h], ?_, ?_⟩⟩
  · intro p vn hp
    exact Or.inr ⟨vn, by rw [hv p]; exact hp, rfl⟩
  · intro p _ hn
    rw [hv p]; exact hn

theorem length_setVnode (s : State) (p : Nat) (vn : Vnode) :
    (s.setVnode p vn).heap.length = s.heap.length := by
  simp [State.setVnode]

theorem CountFrame_setVnode {s : State} {p : Nat} {vn vn1 : Vnode} (h : s.vnode p = some vn)
    (hc : vn1.useCount = vn.useCount) : CountFrame s (s.setVnode p vn1) := by
  have hlt := vnode_lt_length h
  intro hs
  refine ⟨?_, ⟨by rw [length_setVnode], ?_, ?_⟩⟩
  · intro q vq hq
    by_cases e : q = p
    · subst e
      rw [vnode_setVnode_same _ hlt] at hq
      injection hq with hq
      subst hq
      rw [hc]
      exact hs q vn h
    · rw [vnode_setVnode_ne _ e] at hq
      exact hs q vq hq
  · intro q vq hq
    by_cases e : q = p
    · subst e
      rw [h] at hq
      injection hq with hq
      subst hq
      exact Or.inr ⟨vn1, vnode_setVnode_same _ hlt, hc⟩
    · exact Or.inr ⟨vq, by rw [vnode_setVnode_ne _ e]; exact hq, rfl⟩
  · intro q _ hn
    have e : q ≠ p := by
      rintro rfl
      rw [h] at hn
      cases hn
    rw [vnode_setVnode_ne _ e]
    exact hn

theorem CountFrame_freedDevice (s : State) (p : Nat) : CountFrame s (freedDevice s p) := by
  intro hs
  refine ⟨?_, ⟨by simp [freedDevice], ?_, ?_⟩⟩
  · intro q vq hq
    rw [vnode_freedDevice] at hq
    split at hq
    · cases hq
    · exact hs q vq hq
  · intro q vq hq
    rw [vnode_freedDevice]
    split
    · exact Or.inl rfl
    · exact Or.inr ⟨vq, hq, rfl⟩
  · intro q _ hn
    rw [vnode_freedDevice]
    split
    · rfl
    · exact hn

theorem CountFrame_freedRecycled {s : State} {p : Nat} {vn : Vnode} (h : s.vnode p = some vn)
    (hu : ¬ vn.useCount > 0) : CountFrame s (freedRecycled s p) := by
  have hlt := vnode_lt_length h
  intro hs
  have h0 : vn.useCount = 0 := by
    have := hs p vn h
    omega
  refine ⟨?_, ⟨by simp [freedRecycled], ?_, ?_⟩⟩
  · intro q vq hq
    rw [vnode_freedRecycled hlt] at hq
    split at hq
    · injection hq with hq
      subst hq
      decide
    · exact hs q vq hq
  · intro q vq hq
    rw [vnode_freedRecycled hlt]
    split
    · rename_i e
      subst e
      rw [h] at hq
      injection hq with hq
      subst hq
      exact Or.inr ⟨zeroVnode, rfl, by rw [h0]; rfl⟩
    · exact Or.inr ⟨vq, hq, rfl⟩
  · intro q _ hn
    rw [vnode_freedRecycled hlt]
    split
    · rename_i e
      subst e
      rw [h] at hn
      cases hn
    · exact hn

theorem VnodeFree_CountFrame {env : Env} {s : State} {v : Option Nat} {ret : Int} {s1 : State}
    (h : VnodeFree env s v = some (ret, s1)) : CountFrame s s1 := by
  rcases VnodeFree_cases h with ⟨-, -, rfl⟩ | ⟨p, vn, -, -, -, -, rfl⟩ |
    ⟨p, vn, -, hv, hu, -, -, rfl⟩ | ⟨p, vn, op, -, hv, hu, -, -, -, rfl⟩
  · exact CountFrame_refl _
  · exact CountFrame_refl _
  · exact CountFrame_freedDevice s p
  · exact CountFrame_freedRecycled hv hu

theorem reclaimLoop_CountFrame (env : Env) :
    ∀ (items : List Nat) (s : State) (rc : Int) (rc1 : Int) (s1 : State),
      reclaimLoop env items s rc = some (rc1, s1) → CountFrame s s1 := by
  intro items
  induction items with
  | nil =>
    intro s rc rc1 s1 h
    simp only [reclaimLoop, Option.some.injEq, Prod.mk.injEq] at h
    rw [← h.2]
    exact CountFrame_refl s
  | cons item rest ih =>
    intro s rc rc1 s1 h
    unfold reclaimLoop at h
    cases hv : s.vnode item with
    | none => rw [hv] at h; cases h
    | some vn =>
      rw [hv] at h
      simp only at h
      by_cases hs : skipReclaim vn = true
      · rw [if_pos hs] at h
        exact ih s rc rc1 s1 h
      · rw [if_neg hs] at h
        cases hf : VnodeFree env s (some item) with
        | none => rw [hf] at h; cases h
        | some r =>
          obtain ⟨ret, s2⟩ := r
          rw [hf] at h
          simp only at h
          have h2 := VnodeFree_CountFrame hf
          generalize (if ret = LOS_OK then rc + 1 else rc) = rcn at h
          split at h
          · simp only [Option.some.injEq, Prod.mk.injEq] at h
            rw [← h.2]
            exact h2
          · exact CountFrame_trans h2 (ih s2 _ rc1 s1 h)

theorem GetFromFreeList_heap (s : State) : (GetFromFreeList s).2.heap = s.heap := by
  unfold GetFromFreeList
  split
  · rfl
  · split <;> rfl

theorem VnodeReclaimLru_CountFrame {env : Env} {s : State} {r : Option Nat} {s1 : State}
    (h : VnodeReclaimLru env s = some (r, s1)) : CountFrame s s1 := by
  unfold VnodeReclaimLru at h
  cases hl : reclaimLoop env s.g_vnodeActiveList s 0 with
  | none => rw [hl] at h; cases h
  | some q =>
    obtain ⟨rc, s2⟩ := q
    rw [hl] at h
    simp only at h
    have h2 := reclaimLoop_CountFrame env _ _ _ _ _ hl
    split at h
    · cases h; exact h2
    · simp only [Option.some.injEq] at h
      have e : s1 = (GetFromFreeList s2).2 := by rw [h]
      rw [e]
      exact CountFrame_trans h2 (CountFrame_of_heap (GetFromFreeList_heap s2))

theorem zallocVnode_CountFrame (env : Env) (s : State) : CountFrame s (zallocVnode env s).2 := by
  unfold zallocVnode
  split
  · intro hs
    refine ⟨?_, ⟨by simp, ?_, ?_⟩⟩
    · intro q vq hq
      simp only at hq
      rw [vnode_zalloc] at hq
      split at hq
      · injection hq with hq
        subst hq
        decide
      · exact hs q vq hq
    · intro q vq hq
      have hne : q ≠ s.heap.length := Nat.ne_of_lt (vnode_lt_length hq)
      refine Or.inr ⟨vq, ?_, rfl⟩
      simp only
      rw [vnode_zalloc, if_neg hne]
      exact hq
    · intro q hlt hn
      have hne : q ≠ s.heap.length := Nat.ne_of_lt hlt
      simp only
      rw [vnode_zalloc, if_neg hne]
      exact hn
  · exact CountFrame_of_heap rfl

theorem allocSlot_CountFrame {env : Env} {s : State} {r : Option Nat} {s1 : State}
    (h : allocSlot env s = some (r, s1)) : CountFrame s s1 := by
  unfold allocSlot at h
  simp only at h
  have h0 : CountFrame s (GetFromFreeList s).2 := CountFrame_of_heap (GetFromFreeList_heap s)
  have h1 : CountFrame s
      (if (GetFromFreeList s).1 = none ∧
          (GetFromFreeList s).2.g_totalVnodeSize < (env.LOSCFG_MAX_VNODE_SIZE : Int) then
        zallocVnode env (GetFromFreeList s).2
      else GetFromFreeList s).2 := by
    split
    · exact CountFrame_trans h0 (zallocVnode_CountFrame env _)
    · exact h0
  generalize (if (GetFromFreeList s).1 = none ∧
          (GetFromFreeList s).2.g_totalVnodeSize < (env.LOSCFG_MAX_VNODE_SIZE : Int) then
        zallocVnode env (GetFromFreeList s).2
      else GetFromFreeList s) = r1 at h h1
  split at h
  · exact CountFrame_trans h1 (VnodeReclaimLru_CountFrame h)
  · simp only [Option.some.injEq] at h
    rw [h] at h1
    exact h1

theorem enrolVnode_CountFrame {s : State} {vop : Option Nat} {p : Nat} {s1 : State}
    (h : enrolVnode s vop p = some s1) : CountFrame s s1 := by
  unfold enrolVnode at h
  cases hv : s.vnode p with
  | none => rw [hv] at h; cases h
  | some vn =>
    rw [hv] at h
    cases vop with
    | none =>
      simp only [Option.some.injEq] at h
      rw [← h]
      exact CountFrame_trans (@CountFrame_setVnode s p vn
        { vn with type := VNODE_TYPE_UNKNOWN, vop := some g_devfsOps, mappingHost := some p }
        hv rfl) (CountFrame_of_heap rfl)
    | some op =>
      simp only [Option.some.injEq] at h
      rw [← h]
      exact CountFrame_trans (@CountFrame_setVnode s p vn
        { vn with type := VNODE_TYPE_UNKNOWN, vop := some op, mappingHost := some p }
        hv rfl) (CountFrame_of_heap rfl)

theorem VnodeAlloc_CountFrame {env : Env} {s : State} {vop : Option Nat}
    {r : Int × Option Nat × State} (h : VnodeAlloc env s vop = some r) : CountFrame s r.2.2 := by
  unfold VnodeAlloc at h
  cases ha : allocSlot env s with
  | none => rw [ha] at h; cases h
  | some x =>
    obtain ⟨q, s2⟩ := x
    rw [ha] at h
    have h1 := allocSlot_CountFrame ha
    cases q with
    | none =>
      simp only [Option.some.injEq] at h
      rw [← h]
      exact h1
    | some p =>
      simp only at h
      cases he : enrolVnode s2 vop p with
      | none => rw [he] at h; cases h
      | some s3 =>
        rw [he] at h
        simp only [Option.some.injEq] at h
        rw [← h]
        exact CountFrame_trans h1 (enrolVnode_CountFrame he)

theorem ProcessVirtualVnode_CountFrame {env : Env} {s : State} {parent flags : Nat}
    {r : Int × Option Nat × State} (h : ProcessVirtualVnode env s parent flags = some r) :
    CountFrame s r.2.2 := by
  unfold ProcessVirtualVnode at h
  split at h
  · cases ha : VnodeAlloc env s none with
    | none => rw [ha] at h; cases h
    | some q =>
      have h1 := VnodeAlloc_CountFrame ha
      obtain ⟨ret, vnode, s1⟩ := q
      rw [ha] at h
      simp only at h h1
      split at h
      · cases vnode with
        | none => cases h
        | some v =>
          simp only at h
          cases hv : s1.vnode v with
          | none => rw [hv] at h; cases h
          | some vn =>
            rw [hv] at h
            simp only [Option.some.injEq] at h
            rw [← h]
            exact CountFrame_trans h1 (@CountFrame_setVnode s1 v vn
              { vn with parent := some parent } hv rfl)
      · simp only [Option.some.injEq] at h
        rw [← h]
        exact h1
  · simp only [Option.some.injEq] at h
    rw [← h]
    exact CountFrame_refl s

/-- Pinning the directory, running something that keeps the counts, and unpinning
the directory keeps the counts. -/
theorem CountFrame_pin_unpin {s s2 : State} {d : Nat} {dvn vn2 : Vnode}
    (hd : s.vnode d = some dvn) (hmid : CountFrame (pinned s d dvn) s2)
    (hd2 : s2.vnode d = some vn2) :
    CountFrame s (s2.setVnode d { vn2 with useCount := vn2.useCount - 1 }) := by
  intro hs
  have hlt := vnode_lt_length hd
  have hpd := vnode_pinned_same hd
  have hpn : CountsNonneg (pinned s d dvn) := by
    intro q vq hq
    by_cases e : q = d
    · subst e
      rw [hpd] at hq
      injection hq with hq
      subst hq
      have := hs q dvn hd
      show 0 ≤ dvn.useCount + 1
      omega
    · have e2 : (pinned s d dvn).vnode q = s.vnode q := vnode_setVnode_ne _ e
      rw [e2] at hq
      exact hs q vq hq
  obtain ⟨hn2, hk⟩ := hmid hpn
  have hlt2 := vnode_lt_length hd2
  have hc2 : vn2.useCount = dvn.useCount + 1 := by
    rcases hk.kept d _ hpd with hn | ⟨vn1, hv1, hc1⟩
    · rw [hd2] at hn; cases hn
    · rw [hd2] at hv1
      injection hv1 with hv1
      subst hv1
      exact hc1
  have hplen : (pinned s d dvn).heap.length = s.heap.length := length_setVnode _ _ _
  refine ⟨?_, ⟨?_, ?_, ?_⟩⟩
  · intro q vq hq
    by_cases e : q = d
    · subst e
      rw [vnode_setVnode_same _ hlt2] at hq
      injection hq with hq
      subst hq
      have := hs q dvn hd
      show 0 ≤ vn2.useCount - 1
      omega
    · rw [vnode_setVnode_ne _ e] at hq
      exact hn2 q vq hq
  · rw [length_setVnode, ← hplen]
    exact hk.len
  · intro q vq hq
    by_cases e : q = d
    · subst e
      rw [hd] at hq
      injection hq with hq
      subst hq
      refine Or.inr ⟨_, vnode_setVnode_same _ hlt2, ?_⟩
      show vn2.useCount - 1 = dvn.useCount
      omega
    · rw [vnode_setVnode_ne _ e]
      have e2 : (pinned s d dvn).vnode q = s.vnode q := vnode_setVnode_ne _ e
      exact hk.kept q vq (by rw [e2]; exact hq)
  · intro q hq hn
    have e : q ≠ d := by
      rintro rfl
      rw [hd] at hn
      cases hn
    rw [vnode_setVnode_ne _ e]
    have e2 : (pinned s d dvn).vnode q = s.vnode q := vnode_setVnode_ne _ e
    exact hk.gone q (by rw [hplen]; exact hq) (by rw [e2]; exact hn)

theorem stepDispatch_CountFrame {env : Env} {flags : Nat} (hdrv : DriverKeepsCounts env)
    {s : State} {cur : Nat} {nd : List Char} {len : Nat} {r : Int × Option Nat × State}
    (h : stepDispatch env s cur nd len flags = some r) : CountFrame s r.2.2 := by
  unfold stepDispatch at h
  cases hv : s.vnode cur with
  | none => rw [hv] at h; cases h
  | some vn =>
    rw [hv] at h
    simp only at h
    have hmid : ∀ q : Int × Option Nat × State,
        (if hasFlag flags V_DUMMY = true then
            ProcessVirtualVnode env (s.setVnode cur { vn with useCount := vn.useCount + 1 })
              cur flags
          else
            match vn.vop with
            | none => some (-ENOSYS, none, s.setVnode cur { vn with useCount := vn.useCount + 1 })
            | some op =>
              match (opsAt env op).Lookup with
              | none =>
                some (-ENOSYS, none, s.setVnode cur { vn with useCount := vn.useCount + 1 })
              | some f =>
                some (f (s.setVnode cur { vn with useCount := vn.useCount + 1 }) cur nd len)) =
          some q → CountFrame (pinned s cur vn) q.2.2 := by
      intro q hq
      split at hq
      · exact ProcessVirtualVnode_CountFrame hq
      · split at hq
        · cases hq; exact CountFrame_refl _
        · split at hq
          · cases hq; exact CountFrame_refl _
          · rename_i f hf
            cases hq
            exact hdrv _ f hf _ cur nd len
    generalize (if hasFlag flags V_DUMMY = true then
            ProcessVirtualVnode env (s.setVnode cur { vn with useCount := vn.useCount + 1 })
              cur flags
          else
            match vn.vop with
            | none => some (-ENOSYS, none, s.setVnode cur { vn with useCount := vn.useCount + 1 })
            | some op =>
              match (opsAt env op).Lookup with
              | none =>
                some (-ENOSYS, none, s.setVnode cur { vn with useCount := vn.useCount + 1 })
              | some f =>
                some (f (s.setVnode cur { vn with useCount := vn.useCount + 1 }) cur nd len)) =
      mid at h hmid
    cases mid with
    | none => cases h
    | some q =>
      obtain ⟨ret, nv, s2⟩ := q
      have h2 := hmid _ rfl
      simp only at h h2
      cases hv2 : s2.vnode cur with
      | none => rw [hv2] at h; cases h
      | some vn2 =>
        rw [hv2] at h
        simp only at h
        have hall := CountFrame_pin_unpin hv h2 hv2
        split at h
        · cases h
          refine CountFrame_trans hall (CountFrame_of_heap ?_)
          unfold PathCacheAlloc
          split <;> rfl
        · cases h
          exact hall

theorem RefreshLRU_heap {s s2 : State} {v : Option Nat} (h : RefreshLRU s v = some s2) :
    s2.heap = s.heap := by
  unfold RefreshLRU at h
  cases v with
  | none => cases h; rfl
  | some p =>
    simp only at h
    cases hp : s.vnode p with
    | none => rw [hp] at h; cases h
    | some vn =>
      rw [hp] at h
      simp only at h
      split at h
      · cases h; rfl
      · cases h; rfl

theorem Step_CountFrame {env : Env} {flags : Nat} (hdrv : DriverKeepsCounts env) (s : State)
    (cd : List Char) (cv : Option Nat) (r : Int × Option (List Char) × Option Nat × State)
    (h : Step env s cd cv flags = some r) : CountFrame s r.2.2.2 := by
  cases cv with
  | none => simp [Step] at h
  | some cur =>
    cases hv : s.vnode cur with
    | none => simp [Step, hv] at h
    | some vn =>
      by_cases hdir : vn.type = VNODE_TYPE_DIR
      · cases hn : NextName cd with
        | none =>
          rw [Step_slashes flags hv hdir hn] at h
          cases h
          exact CountFrame_refl s
        | some x =>
          obtain ⟨nd, len⟩ := x
          rw [Step_eq flags hv hdir hn] at h
          cases hr : resolveName env s cur nd len flags with
          | none => rw [hr] at h; cases h
          | some q =>
            obtain ⟨ret, nv, s1⟩ := q
            rw [hr] at h
            simp only at h
            have h1 : CountFrame s s1 := by
              unfold resolveName at hr
              split at hr
              · cases hr; exact CountFrame_refl s
              · exact stepDispatch_CountFrame hdrv hr
            unfold stepFinish at h
            split at h
            · cases h
            · split at h
              · cases h
              · rename_i s2 hl
                cases h
                exact CountFrame_trans h1 (CountFrame_of_heap (RefreshLRU_heap hl))
      · rw [Step_notdir cd flags hv hdir] at h
        cases h
        exact CountFrame_refl s

theorem memoPath_CountFrame (s : State) (v : Nat) (path : List Char) :
    CountFrame s (memoPath s v path) := by
  unfold memoPath
  cases hv : s.vnode v with
  | none => exact CountFrame_refl s
  | some vn =>
    simp only
    split
    · exact CountFrame_setVnode hv rfl
    · exact CountFrame_refl s

theorem DriverKeepsCounts_envFour : DriverKeepsCounts envFour := by
  intro op f hf s cur name len
  rw [opsAt_envFour hf]
  exact CountFrame_refl s

theorem countsNonneg_treeState : CountsNonneg treeState := by
  intro p vn hp
  rcases p with _ | _ | _ | p
  · have e : treeState.vnode 0 = some rootVnode := rfl
    rw [e] at hp
    injection hp with hp
    subst hp
    decide
  · have e : treeState.vnode 1 = some (fileVnode VnodeType.VNODE_TYPE_DIR ['/', 'a'] 1) := rfl
    rw [e] at hp
    injection hp with hp
    subst hp
    decide
  · have e : treeState.vnode 2 =
        some (fileVnode VnodeType.VNODE_TYPE_REG ['/', 'a', '/', 'b'] 2) := rfl
    rw [e] at hp
    injection hp with hp
    subst hp
    decide
  · have e : treeState.vnode (p + 3) = none := rfl
    rw [e] at hp
    cases hp

/-! ## Lemmas for names, creation, the LRU order and the root change -/

theorem skipSlashes_eq_nil_iff (s : List Char) : skipSlashes s = [] ↔ ∀ c ∈ s, c = '/' := by
  induction s with
  | nil => simp [skipSlashes]
  | cons c rest ih =>
    by_cases hc : c = '/'
    · subst hc
      simp only [skipSlashes, if_true, ih, List.mem_cons, forall_eq_or_imp, true_and]
    · simp [skipSlashes, hc]

theorem skipSlashes_decomp (s : List Char) :
    ∃ k, s = slashes k ++ skipSlashes s ∧ ∀ c rest, skipSlashes s = c :: rest → c ≠ '/' := by
  induction s with
  | nil => exact ⟨0, rfl, fun _ _ h => by simp [skipSlashes] at h⟩
  | cons c rest ih =>
    by_cases hc : c = '/'
    · subst hc
      obtain ⟨k, h1, h2⟩ := ih
      refine ⟨k + 1, ?_, ?_⟩
      · simp only [skipSlashes, if_true]
        show '/' :: rest = '/' :: (slashes k ++ skipSlashes rest)
        rw [← h1]
      · simpa only [skipSlashes, if_true] using h2
    · refine ⟨0, by simp [skipSlashes, hc, slashes], ?_⟩
      intro c1 r1 h
      simp only [skipSlashes, if_neg hc, List.cons.injEq] at h
      rw [← h.1]
      exact hc

theorem segmentLength_eq_takeWhile (nd : List Char) :
    segmentLength nd = (nd.takeWhile (fun c => c != '/')).length := by
  induction nd with
  | nil => rfl
  | cons c rest ih =>
    by_cases hc : c = '/'
    · simp [segmentLength, hc]
    · simp [segmentLength, hc, ih]

theorem drop_segmentLength (nd : List Char) :
    nd.drop (segmentLength nd) = nd.dropWhile (fun c => c != '/') := by
  induction nd with
  | nil => rfl
  | cons c rest ih =>
    by_cases hc : c = '/'
    · simp [segmentLength, hc]
    · simp [segmentLength, hc, ih]

theorem segmentLength_replicate (n : Nat) (c : Char) (hc : c ≠ '/') :
    segmentLength (List.replicate n c) = n := by
  induction n with
  | zero => rfl
  | succ k ih => simp [List.replicate_succ, segmentLength, hc, ih]

theorem NextName_replicate (n : Nat) (c : Char) (hc : c ≠ '/') :
    NextName (List.replicate (n + 1) c) = some (List.replicate (n + 1) c, (n + 1) % 256) := by
  have h := segmentLength_replicate (n + 1) c hc
  rw [List.replicate_succ] at h ⊢
  simp only [NextName, skipSlashes, if_neg hc, h]

theorem NextName_ne_root {p nd : List Char} {len : Nat} (h : NextName p = some (nd, len)) :
    p ≠ ['/'] := by
  rintro rfl
  simp [NextName, skipSlashes] at h

theorem RefreshLRU_moved {s : State} {v op : Nat} {vn : Vnode} (h : s.vnode v = some vn)
    (hkind : vn.type = VNODE_TYPE_REG ∨ vn.type = VNODE_TYPE_DIR) (hop : vn.vop = some op)
    (hne : op ≠ g_devfsOps) :
    RefreshLRU s (some v) = some
      { LOS_ListDelete s v with
        g_vnodeActiveList := (LOS_ListDelete s v).g_vnodeActiveList ++ [v] } := by
  unfold RefreshLRU
  simp only [h]
  have hc : ¬ ((vn.type ≠ VNODE_TYPE_REG ∧ vn.type ≠ VNODE_TYPE_DIR) ∨
      vn.vop = some g_devfsOps ∨ vn.vop = none) := by
    rw [hop]
    rintro (⟨h1, h2⟩ | h3 | h4)
    · rcases hkind with hk | hk
      · exact h1 hk
      · exact h2 hk
    · exact hne (Option.some.inj h3)
    · cases h4
  rw [if_neg hc]

theorem RefreshLRU_kept {s : State} {v : Nat} {vn : Vnode} (h : s.vnode v = some vn)
    (hc : (vn.type ≠ VNODE_TYPE_REG ∧ vn.type ≠ VNODE_TYPE_DIR) ∨
      vn.vop = some g_devfsOps ∨ vn.vop = none) :
    RefreshLRU s (some v) = some s := by
  unfold RefreshLRU
  simp only [h]
  rw [if_pos hc]

/-- The name resolution of a `V_CREATE | V_DUMMY` step on a path-cache miss, on a pool
with a free slot or room for a fresh one. -/
theorem resolveName_create {env : Env} {flags : Nat} {s1 : State} {d : Nat} {dvn : Vnode}
    (nd : List Char) (len : Nat)
    (hd : s1.vnode d = some dvn) (hdir : dvn.type = VNODE_TYPE_DIR)
    (hmiss : PathCacheLookup s1 d nd len = none)
    (hdummy : hasFlag flags V_DUMMY = true) (hcreate : hasFlag flags V_CREATE = true)
    (hi : PoolInv env s1) (hw : FreeWiped s1)
    (hroom : s1.g_vnodeFreeList ≠ [] ∨
      (s1.g_totalVnodeSize < (env.LOSCFG_MAX_VNODE_SIZE : Int) ∧
        env.zallocOk (pinned s1 d dvn) = true)) :
    ∃ v sP, resolveName env s1 d nd len flags = some (LOS_OK, some v, sP) ∧
      v ≠ d ∧ v ∉ s1.g_vnodeVirtualList ∧ v ∉ s1.g_vnodeActiveList ∧
      (s1.vnode v = none ∨ s1.vnode v = some zeroVnode) ∧
      sP.vnode v = some { virtualVnode v with parent := some d } ∧
      v ∈ sP.g_vnodeVirtualList ∧ PathCacheLookup sP d nd len = some v ∧
      stepFinish sP d nd len LOS_OK (some v) =
        some (LOS_OK, some (nd.drop len), some v, sP) := by
  have hdl : d ∈ s1.g_vnodeVirtualList ++ s1.g_vnodeActiveList := by
    have hall : d ∈ allVnodes s1 := by
      have := (hi.alloc_iff d).1 (by rw [hd]; rfl)
      simpa using this
    unfold allVnodes at hall
    rw [List.append_assoc] at hall
    rcases List.mem_append.1 hall with hf | hr
    · have hz := hw d hf
      rw [hd] at hz
      injection hz with hz
      rw [hz] at hdir
      cases hdir
    · exact hr
  obtain ⟨hi1, hw1⟩ := @setVnode_PoolInv env s1 d { dvn with useCount := dvn.useCount + 1 }
    hi hw hdl
  have hpd := vnode_pinned_same hd
  obtain ⟨v, s2, halloc, hnv, hna, hold, hv2, hoth, hvl, -⟩ :=
    @VnodeAlloc_virtual_unused env (pinned s1 d dvn) hi1 hw1 hroom
  have hne : v ≠ d := by
    rintro rfl
    rw [hpd] at hold
    rcases hold with h0 | h0
    · cases h0
    · injection h0 with h0
      have := congrArg Vnode.type h0
      simp only [hdir] at this
      cases this
  have hold1 : s1.vnode v = none ∨ s1.vnode v = some zeroVnode := by
    have e : (pinned s1 d dvn).vnode v = s1.vnode v := vnode_setVnode_ne _ hne
    rw [← e]; exact hold
  have hd2 : s2.vnode d = some { dvn with useCount := dvn.useCount + 1 } := by
    rw [hoth d hne.symm]; exact hpd
  have hdisp := stepDispatch_create nd len hd hdummy hcreate halloc hv2 hne hd2
  have hres : resolveName env s1 d nd len flags = some (LOS_OK, some v,
      PathCacheAlloc ((s2.setVnode v { virtualVnode v with parent := some d }).setVnode d dvn)
        d (some v) nd len) := by
    unfold resolveName
    rw [hmiss]
    exact hdisp
  generalize hsP : PathCacheAlloc
    ((s2.setVnode v { virtualVnode v with parent := some d }).setVnode d dvn)
      d (some v) nd len = sP at hres
  have hvP : sP.vnode v = some { virtualVnode v with parent := some d } := by
    rw [← hsP]
    show ((s2.setVnode v { virtualVnode v with parent := some d }).setVnode d dvn).vnode v = _
    rw [vnode_setVnode_ne _ hne]
    exact vnode_setVnode_same _ (vnode_lt_length hv2)
  have hfin : stepFinish sP d nd len LOS_OK (some v) =
      some (LOS_OK, some (nd.drop len), some v, sP) := by
    simp [stepFinish, ConvertVnodeIfMounted, hvP, RefreshLRU, virtualVnode, zeroVnode, hasFlag,
      VNODE_FLAG_MOUNT_ORIGIN]
  refine ⟨v, sP, hres, hne, hnv, hna, hold1, hvP, ?_, ?_, hfin⟩
  · rw [← hsP]
    show v ∈ s2.g_vnodeVirtualList
    rw [hvl]
    exact List.mem_cons_self _ _
  · unfold PathCacheLookup
    rw [← hsP]
    simp [PathCacheAlloc]

theorem wf_rootOnly : PoolInv envFour rootOnly ∧ FreeWiped rootOnly := by
  refine ⟨⟨by decide, by decide, by decide, ?_, by decide⟩, ?_⟩
  · intro p
    rcases p with _ | p
    · decide
    · have h1 : rootOnly.vnode (p + 1) = none := rfl
      rw [h1]
      simp [allVnodes, rootOnly, bootState]
  · intro p hp
    simp [rootOnly, bootState] at hp

theorem hasFlag_or_origin (a : Nat) :
    hasFlag (a ||| VNODE_FLAG_MOUNT_ORIGIN) VNODE_FLAG_MOUNT_ORIGIN = true := by
  unfold hasFlag VNODE_FLAG_MOUNT_ORIGIN
  rw [Nat.and_distrib_right, Nat.and_self]
  have hne : (a &&& 2) ||| 2 ≠ 0 := by
    intro h
    have h1 := congrArg (fun n => Nat.testBit n 1) h
    simp only [Nat.testBit_or, Nat.zero_testBit] at h1
    have h2 : Nat.testBit 2 1 = true := by decide
    rw [h2, Bool.or_true] at h1
    cases h1
  simpa using hne

theorem hasFlag_or_origin_new (a : Nat) :
    hasFlag (a ||| VNODE_FLAG_MOUNT_ORIGIN) VNODE_FLAG_MOUNT_NEW =
      hasFlag a VNODE_FLAG_MOUNT_NEW := by
  unfold hasFlag VNODE_FLAG_MOUNT_ORIGIN VNODE_FLAG_MOUNT_NEW
  rw [Nat.and_distrib_right]
  have h2 : (2 &&& 1 : Nat) = 0 := by decide
  rw [h2, Nat.or_zero]

theorem MountAlloc_spec {env : Env} {s s1 : State} {b m : Nat}
    (h : MountAlloc env s b = some (some m, s1)) :
    ∃ vn, s.vnode b = some vn ∧ m = s.mounts.length ∧
      s1.mounts = s.mounts ++ [{ vnodeBeCovered := some b, vnodeCovered := none }] ∧
      s1.vnode b = some { vn with newMount := some m } ∧
      (∀ q, q ≠ b → s1.vnode q = s.vnode q) := by
  unfold MountAlloc at h
  split at h
  · cases hv : s.vnode b with
    | none => rw [hv] at h; cases h
    | some vn =>
      rw [hv] at h
      simp only [Option.some.injEq, Prod.mk.injEq] at h
      obtain ⟨hm, hs⟩ := h
      subst hm hs
      refine ⟨vn, rfl, rfl, rfl, ?_, ?_⟩
      · exact vnode_setVnode_same _ (vnode_lt_length hv)
      · intro q hq
        exact vnode_setVnode_ne _ hq
  · simp at h

theorem linkDevMount_spec {s s1 : State} {m dev : Nat} {vn : Vnode}
    (hm : s.mounts[m]? = some { vnodeBeCovered := some dev, vnodeCovered := none })
    (hv : s.vnode dev = some vn) (h : linkDevMount s m dev = some s1) :
    s1.mounts[m]? = some { vnodeBeCovered := some dev, vnodeCovered := some dev } ∧
    s1.vnode dev = some { vn with flag := vn.flag ||| VNODE_FLAG_MOUNT_ORIGIN } := by
  unfold linkDevMount at h
  rw [hm] at h
  simp only at h
  have hv1 : State.vnode
      { s with mounts := s.mounts.set m { vnodeBeCovered := some dev, vnodeCovered := some dev } }
      dev = some vn := hv
  rw [hv1] at h
  simp only [Option.some.injEq] at h
  subst h
  constructor
  · show (s.mounts.set m _)[m]? = _
    have hlt : m < s.mounts.length := by
      rcases Nat.lt_or_ge m s.mounts.length with h1 | h1
      · exact h1
      · rw [List.getElem?_eq_none h1] at hm
        cases hm
    rw [List.getElem?_set_self hlt]
  · exact vnode_setVnode_same _ (vnode_lt_length hv)

/-- An iteration that fails with more of the path to go ends the walk and leaves the
caller's result alone: `-EACCES` when the permission check denies, else the status
of the step. -/
theorem lookupLoop_fail_more {env : Env} {flags : Nat} {np : List Char} {fuel : Nat} {s : State}
    {cd : List Char} {cv : Option Nat} (result : Option Nat) (ret : Int) {ret1 : Int}
    {cd1 : List Char} {cv1 : Option Nat} {s1 : State}
    (hcd : cd ≠ []) (hstep : Step env s cd cv flags = some (ret1, some cd1, cv1, s1))
    (hmore : cd1 ≠ []) (hret : ret1 ≠ LOS_OK) :
    lookupLoop env flags np (fuel + 1) s cd cv result ret =
      some (if env.VfsVnodePermissionCheck s1 cv1 = true then -EACCES else ret1, result, s1) := by
  rw [lookupLoop, if_neg hcd, hstep]
  have h1 : ¬ ((some cd1 : Option (List Char)) = none ∨ some cd1 = some []) := by
    simp [hmore]
  simp only [if_neg h1]
  cases hperm : env.VfsVnodePermissionCheck s1 cv1 with
  | true => simp
  | false => simp [hret]

/-- The name resolution of `Step` for a name that is missing and not created. -/
theorem resolveName_noent {env : Env} {flags : Nat} {s1 : State} {d : Nat} {dvn : Vnode}
    (nd : List Char) (len : Nat) (hd : s1.vnode d = some dvn)
    (hmiss : PathCacheLookup s1 d nd len = none)
    (hcreate : hasFlag flags V_CREATE = false)
    (hdrv : hasFlag flags V_DUMMY = false →
      dvn.vop = some g_devfsOps ∨ LookupNoEntry env s1 d dvn nd len) :
    ∃ s2 vn2, resolveName env s1 d nd len flags = some (-ENOENT, none, s2) ∧
      s2.vnode d = some vn2 ∧
      (hasFlag flags V_DUMMY = true ∨ dvn.vop = some g_devfsOps ∨
        LookupKeepsPath env s1 d dvn nd len → vn2.filePath = dvn.filePath) := by
  have hne : (-ENOENT : Int) ≠ LOS_OK := by decide
  unfold resolveName
  rw [hmiss]
  simp only
  cases hdm : hasFlag flags V_DUMMY with
  | true => exact ⟨s1, dvn, stepDispatch_dummy_noent nd len hd hdm hcreate, hd, fun _ => rfl⟩
  | false =>
    by_cases hdev : dvn.vop = some g_devfsOps
    · exact ⟨s1, dvn, stepDispatch_devfs nd len hd hdm hdev, hd, fun _ => rfl⟩
    · rcases hdrv hdm with h0 | ⟨op, f, hop, hf, h1, h2, h3⟩
      · exact absurd h0 hdev
      · rw [stepDispatch_lookup nd len hd hdm hop hf]
        cases hv2 : (f (pinned s1 d dvn) d nd len).2.2.vnode d with
        | none => rw [hv2] at h3; cases h3
        | some vn2 =>
          simp only [h1, h2, if_neg hne]
          refine ⟨_, _, rfl, vnode_setVnode_same _ (vnode_lt_length hv2), ?_⟩
          rintro (hc | hc | hkeep)
          · cases hc
          · exact absurd hc hdev
          · exact hkeep op f hop hf vn2 hv2

/-- An iteration after which the permission check denies the search of the vnode
reached ends the walk with `-EACCES`. -/
theorem lookupLoop_denied {env : Env} {flags : Nat} {np : List Char} {fuel : Nat} {s : State}
    {cd : List Char} {cv : Option Nat} (result : Option Nat) (ret : Int) {ret1 : Int}
    {cd1 : List Char} {cv1 : Option Nat} {s1 : State}
    (hcd : cd ≠ []) (hstep : Step env s cd cv flags = some (ret1, some cd1, cv1, s1))
    (hmore : cd1 ≠ []) (hperm : env.VfsVnodePermissionCheck s1 cv1 = true) :
    lookupLoop env flags np (fuel + 1) s cd cv result ret = some (-EACCES, result, s1) := by
  rw [lookupLoop, if_neg hcd, hstep]
  have h1 : ¬ ((some cd1 : Option (List Char)) = none ∨ some cd1 = some []) := by
    simp [hmore]
  simp only [if_neg h1, hperm, if_true]

/-- An iteration after which the path memo cannot be allocated ends the walk with
`-ENOMEM`. -/
theorem lookupLoop_nomem {env : Env} {flags : Nat} {np : List Char} {fuel : Nat} {s : State}
    {cd : List Char} {cv : Option Nat} (result : Option Nat) (ret : Int)
    {cd1 : List Char} {v : Nat} {s1 : State} {vn1 : Vnode}
    (hcd : cd ≠ []) (hstep : Step env s cd cv flags = some (LOS_OK, some cd1, some v, s1))
    (hmore : cd1 ≠ []) (hperm : env.VfsVnodePermissionCheck s1 (some v) = false)
    (hv : s1.vnode v = some vn1) (hnone : vn1.filePath = none)
    (hm : env.mallocOk s1 = false) :
    lookupLoop env flags np (fuel + 1) s cd cv result ret = some (-ENOMEM, result, s1) := by
  rw [lookupLoop, if_neg hcd, hstep]
  have h1 : ¬ ((some cd1 : Option (List Char)) = none ∨ some cd1 = some []) := by
    simp [hmore]
  simp only [if_neg h1, hperm, Bool.false_eq_true, if_false, ne_eq, not_true_eq_false, hv,
    hnone, if_true, hm]

/-! ## C1: slot order of `VnodeAlloc` -/

/-- C1: on a pool state `VnodeAlloc` takes the head of the free list when there is
one; else a fresh zeroed slot when `total_size < MAX` (and the allocator delivers);
else what `VnodeReclaimLru` returns; it answers `-ENOMEM`, handing out no vnode,
exactly when all three gave nothing.  From the empty pool, `MAX + 1` allocations with
no free in between and nothing reclaimable succeed `MAX` times and then fail with
`-ENOMEM`. -/
theorem VnodeAlloc_slot_order (env : Env) :
    (∀ (s : State) (vop : Option Nat), PoolInv env s → FreeWiped s →
      (∀ v rest, s.g_vnodeFreeList = v :: rest →
        ∃ s1, VnodeAlloc env s vop = some (LOS_OK, some v, s1)) ∧
      (s.g_vnodeFreeList = [] →
        s.g_totalVnodeSize < (env.LOSCFG_MAX_VNODE_SIZE : Int) → env.zallocOk s = true →
        s.vnode s.heap.length = none ∧
        ∃ s1, VnodeAlloc env s vop = some (LOS_OK, some s.heap.length, s1)) ∧
      (s.g_vnodeFreeList = [] →
        ¬ (s.g_totalVnodeSize < (env.LOSCFG_MAX_VNODE_SIZE : Int) ∧ env.zallocOk s = true) →
        ∀ r s1, VnodeReclaimLru env (reclaimEntry env s) = some (r, s1) →
          ∃ s2, VnodeAlloc env s vop = some (if r = none then -ENOMEM else LOS_OK, r, s2)) ∧
      (∀ ret v s1, VnodeAlloc env s vop = some (ret, v, s1) →
        (ret = LOS_OK ∨ ret = -ENOMEM) ∧ (ret = -ENOMEM ↔ v = none) ∧
        (v = none ↔ (s.g_vnodeFreeList = [] ∧
          ¬ (s.g_totalVnodeSize < (env.LOSCFG_MAX_VNODE_SIZE : Int) ∧ env.zallocOk s = true) ∧
          VnodeReclaimLru env (reclaimEntry env s) = some (none, s1))))) ∧
    ((∀ s, env.zallocOk s = true) → ∀ rets s1, AllocRun env bootState rets s1 →
      rets.length = env.LOSCFG_MAX_VNODE_SIZE + 1 →
      rets = List.replicate env.LOSCFG_MAX_VNODE_SIZE LOS_OK ++ [-ENOMEM]) := by
  have hne : LOS_OK ≠ -ENOMEM := by decide
  refine ⟨?_, ?_⟩
  · intro s vop hi hw
    have p1 : ∀ v rest, s.g_vnodeFreeList = v :: rest →
        ∃ s1, VnodeAlloc env s vop = some (LOS_OK, some v, s1) := by
      intro v rest hc
      obtain ⟨s2, h2⟩ := VnodeAlloc_of_allocSlot vop hi hw (allocSlot_free_head hi hc)
      exact ⟨s2, by simpa using h2⟩
    have p2 : s.g_vnodeFreeList = [] →
        s.g_totalVnodeSize < (env.LOSCFG_MAX_VNODE_SIZE : Int) → env.zallocOk s = true →
        s.vnode s.heap.length = none ∧
        ∃ s1, VnodeAlloc env s vop = some (LOS_OK, some s.heap.length, s1) := by
      intro hnil hlt hz
      have hfs : s.g_freeVnodeSize ≤ 0 := by
        have := hi.free_size; rw [hnil] at this; rw [this]; simp
      obtain ⟨s1, h1, -⟩ := VnodeAlloc_fresh vop hfs hlt hz
      refine ⟨?_, s1, h1⟩
      cases hv : s.vnode s.heap.length with
      | none => rfl
      | some vn => exact absurd (vnode_lt_length hv) (Nat.lt_irrefl _)
    have p3 : s.g_vnodeFreeList = [] →
        ¬ (s.g_totalVnodeSize < (env.LOSCFG_MAX_VNODE_SIZE : Int) ∧ env.zallocOk s = true) →
        ∀ r s1, VnodeReclaimLru env (reclaimEntry env s) = some (r, s1) →
          ∃ s2, VnodeAlloc env s vop = some (if r = none then -ENOMEM else LOS_OK, r, s2) := by
      intro hnil hno r s1 hr
      have hfs : s.g_freeVnodeSize ≤ 0 := by
        have := hi.free_size; rw [hnil] at this; rw [this]; simp
      exact VnodeAlloc_of_allocSlot vop hi hw ((allocSlot_reclaim hfs hno).trans hr)
    refine ⟨p1, p2, p3, ?_⟩
    intro ret v s1 h
    cases hfl : s.g_vnodeFreeList with
    | cons v0 rest =>
      obtain ⟨s2, h2⟩ := p1 v0 rest hfl
      rw [h2] at h
      simp only [Option.some.injEq, Prod.mk.injEq] at h
      obtain ⟨hr, hv, -⟩ := h
      subst hr hv
      simp [hne]
    | nil =>
      by_cases hfresh : s.g_totalVnodeSize < (env.LOSCFG_MAX_VNODE_SIZE : Int) ∧
          env.zallocOk s = true
      · obtain ⟨-, s2, h2⟩ := p2 hfl hfresh.1 hfresh.2
        rw [h2] at h
        simp only [Option.some.injEq, Prod.mk.injEq] at h
        obtain ⟨hr, hv, -⟩ := h
        subst hr hv
        simp [hne, hfresh]
      · have hfs : s.g_freeVnodeSize ≤ 0 := by
          have := hi.free_size; rw [hfl] at this; rw [this]; simp
        have hslot := allocSlot_reclaim hfs hfresh
        cases hr : VnodeReclaimLru env (reclaimEntry env s) with
        | none =>
          unfold VnodeAlloc at h
          rw [hslot, hr] at h
          cases h
        | some x =>
          obtain ⟨r, s2⟩ := x
          cases r with
          | none =>
            unfold VnodeAlloc at h
            rw [hslot, hr] at h
            simp only [Option.some.injEq, Prod.mk.injEq] at h
            obtain ⟨hr1, hv, hs⟩ := h
            subst hr1 hv hs
            simp [hfresh]
          | some p =>
            obtain ⟨s3, h3⟩ := p3 hfl hfresh (some p) s2 hr
            rw [h3] at h
            simp only [Option.some.injEq, Prod.mk.injEq] at h
            obtain ⟨hr1, hv, -⟩ := h
            subst hv
            simp only [reduceCtorEq, if_false] at hr1
            subst hr1
            simp [hne]
  · intro hz rets s1 hrun hlen
    have h := AllocRun_statuses hz hrun 0 rfl rfl (Nat.zero_le _)
      (fun p hp => by simp [bootState] at hp)
    rw [hlen] at h
    simpa using h

theorem VnodeAlloc_slot_order_witness :
    (bootState.g_vnodeFreeList = [] ∧
      bootState.g_totalVnodeSize < (envOne.LOSCFG_MAX_VNODE_SIZE : Int) ∧
      envOne.zallocOk bootState = true) ∧
    (∃ s1, VnodeAlloc envOne bootState (some 5) = some (LOS_OK, some bootState.heap.length, s1)) ∧
    AllocRun envOne bootState [LOS_OK, -ENOMEM] onePinned ∧
    [LOS_OK, -ENOMEM] = List.replicate envOne.LOSCFG_MAX_VNODE_SIZE LOS_OK ++ [-ENOMEM] :=
  ⟨⟨rfl, by decide, rfl⟩,
    (((VnodeAlloc_slot_order envOne).1 bootState (some 5) (PoolInv_bootState envOne).1
      (PoolInv_bootState envOne).2).2.1 rfl (by decide) rfl).2,
    AllocRun_envOne,
    (VnodeAlloc_slot_order envOne).2 (fun _ => rfl) _ _ AllocRun_envOne rfl⟩

/-! ## C2: enrolment by `VnodeAlloc` -/

/-- C2: a successful `VnodeAlloc(vop)` hands out a vnode of type `UNKNOWN`; without
`vop` the vnode is on the virtual list and bound to the device table `g_devfsOps`;
with `vop` it is the last element of the active list, bound to `vop`, and the vnodes
that were on the active list keep their relative order. -/
theorem VnodeAlloc_enrolment (env : Env) (s : State) (vop : Option Nat) (p : Nat) (s1 : State)
    (h : VnodeAlloc env s vop = some (LOS_OK, some p, s1)) :
    ∃ vn, s1.vnode p = some vn ∧ vn.type = VNODE_TYPE_UNKNOWN ∧
      (vop = none → p ∈ s1.g_vnodeVirtualList ∧ vn.vop = some g_devfsOps) ∧
      (∀ op, vop = some op →
        vn.vop = some op ∧ s1.g_vnodeActiveList.getLast? = some p ∧
        ∃ l, s1.g_vnodeActiveList = l ++ [p] ∧ l.Sublist s.g_vnodeActiveList) :=
  VnodeAlloc_enrolled env s vop p s1 h

theorem VnodeAlloc_enrolment_witness :
    VnodeAlloc envOne bootState (some 5) = some (LOS_OK, some 0, oneActive) ∧
    ∃ vn, oneActive.vnode 0 = some vn ∧ vn.type = VNODE_TYPE_UNKNOWN ∧
      ((some 5 : Option Nat) = none → 0 ∈ oneActive.g_vnodeVirtualList ∧
        vn.vop = some g_devfsOps) ∧
      (∀ op, (some 5 : Option Nat) = some op →
        vn.vop = some op ∧ oneActive.g_vnodeActiveList.getLast? = some 0 ∧
        ∃ l, oneActive.g_vnodeActiveList = l ++ [0] ∧ l.Sublist bootState.g_vnodeActiveList) :=
  ⟨by decide, VnodeAlloc_enrolment envOne bootState (some 5) 0 oneActive (by decide)⟩

/-! ## C3: `VnodeFree` on a pinned vnode -/

/-- C3: `VnodeFree(NULL)` returns `LOS_OK` and changes nothing; `VnodeFree(v)` returns
`-EBUSY` exactly when `v` is non-null with `useCount > 0`, and then the whole state
(the three lists, both counters, every field of `v`) is unchanged. -/
theorem VnodeFree_busy_iff (env : Env) (s : State) :
    VnodeFree env s none = some (LOS_OK, s) ∧
    (∀ p vn, s.vnode p = some vn → vn.useCount > 0 →
      VnodeFree env s (some p) = some (-EBUSY, s)) ∧
    (∀ v ret s1, VnodeFree env s v = some (ret, s1) →
      (ret = -EBUSY ↔ ∃ p vn, v = some p ∧ s.vnode p = some vn ∧ vn.useCount > 0) ∧
      (ret = -EBUSY → s1 = s)) := by
  refine ⟨rfl, fun p vn hv hu => VnodeFree_busy hv hu, ?_⟩
  intro v ret s1 h
  have hne : LOS_OK ≠ -EBUSY := by decide
  rcases VnodeFree_cases h with ⟨rfl, rfl, rfl⟩ | ⟨p, vn, rfl, hv, hu, rfl, rfl⟩ |
    ⟨p, vn, rfl, hv, hu, hop, rfl, rfl⟩ | ⟨p, vn, op, rfl, hv, hu, hop, hd, rfl, rfl⟩
  · simp [hne]
  · exact ⟨⟨fun _ => ⟨p, vn, rfl, hv, hu⟩, fun _ => rfl⟩, fun _ => rfl⟩
  · refine ⟨⟨fun e => absurd e hne, ?_⟩, fun e => absurd e hne⟩
    rintro ⟨q, vn1, hq, hv1, hu1⟩
    cases hq
    rw [hv] at hv1
    cases hv1
    exact absurd hu1 hu
  · refine ⟨⟨fun e => absurd e hne, ?_⟩, fun e => absurd e hne⟩
    rintro ⟨q, vn1, hq, hv1, hu1⟩
    cases hq
    rw [hv] at hv1
    cases hv1
    exact absurd hu1 hu

theorem VnodeFree_busy_iff_witness :
    VnodeFree envOne onePinned (some 0) = some (-EBUSY, onePinned) ∧
    ((-EBUSY : Int) = -EBUSY ↔
      ∃ p vn, some 0 = some p ∧ onePinned.vnode p = some vn ∧ vn.useCount > 0) ∧
    ((-EBUSY : Int) = -EBUSY → onePinned = onePinned) :=
  ⟨(VnodeFree_busy_iff envOne onePinned).2.1 0 _ rfl (by decide),
    (VnodeFree_busy_iff envOne onePinned).2.2 (some 0) (-EBUSY) onePinned (by decide)⟩

/-! ## C4: what `VnodeFree` does with an unpinned vnode -/

/-- C4 (as stated) fails: vnode `0` of `devActive`, obtained by
`VnodeAlloc(&g_devfsOps, ..)`, is an unpinned member of the active list, yet
`VnodeFree` releases the slot and decrements `total_size` instead of wiping it,
pushing it onto the free list and incrementing `free_size`.  And the root that
`VnodesInit` leaves, an unpinned member of the virtual list, is not removed with
`total_size` decremented: its `filePath` is a string literal, which `VnodeFree` hands
to `free`, so the call has no defined outcome. -/
theorem VnodeFree_active_device_counterexample :
    VnodeAlloc envOne bootState (some g_devfsOps) = some (LOS_OK, some 0, devActive) ∧
    0 ∈ devActive.g_vnodeActiveList ∧ 0 ∉ devActive.g_vnodeVirtualList ∧
    (devActive.vnode 0).map (fun vn => vn.useCount) = some 0 ∧
    VnodeFree envOne devActive (some 0) = some (LOS_OK, { bootState with heap := [none] }) ∧
    ¬ (0 ∈ ({ bootState with heap := [none] } : State).g_vnodeFreeList ∧
        ({ bootState with heap := [none] } : State).g_freeVnodeSize =
          devActive.g_freeVnodeSize + 1 ∧
        ({ bootState with heap := [none] } : State).g_totalVnodeSize =
          devActive.g_totalVnodeSize) ∧
    VnodesInit envFour bootState = some (LOS_OK, rootOnly) ∧
    0 ∈ rootOnly.g_vnodeVirtualList ∧
    (rootOnly.vnode 0).map (fun vn => vn.useCount) = some 0 ∧
    rootOnly.literalPaths = [0] ∧
    VnodeFree envFour rootOnly (some 0) = none := by
  decide

/-- C4 (amended): for a vnode `p` with `useCount = 0` whose `filePath` is NULL or a
heap string (any path but the string literal that `VnodesInit` stores in the root),
`VnodeFree` decides by the ops table, not by the list.  With the device table
`g_devfsOps` the vnode leaves every list, its slot is released, `total_size` drops by
one and `free_size` stays.  With any other table the vnode leaves its list, every
field is zeroed, it becomes the head of the free list, `free_size` grows by one and
`total_size` stays. -/
theorem VnodeFree_by_ops (env : Env) (s : State) (p : Nat) (vn : Vnode)
    (hv : s.vnode p = some vn) (hu : vn.useCount = 0) :
    (vn.filePath = none ∨ p ∉ s.literalPaths → vn.vop = some g_devfsOps →
      ∃ s1, VnodeFree env s (some p) = some (LOS_OK, s1) ∧
        p ∉ allVnodes s1 ∧ s1.vnode p = none ∧
        s1.g_vnodeFreeList = s.g_vnodeFreeList.filter (fun w => w != p) ∧
        s1.g_vnodeVirtualList = s.g_vnodeVirtualList.filter (fun w => w != p) ∧
        s1.g_vnodeActiveList = s.g_vnodeActiveList.filter (fun w => w != p) ∧
        s1.g_totalVnodeSize = s.g_totalVnodeSize - 1 ∧
        s1.g_freeVnodeSize = s.g_freeVnodeSize) ∧
    (vn.filePath = none ∨ p ∉ s.literalPaths → ∀ op, vn.vop = some op → op ≠ g_devfsOps →
      ∃ s1, VnodeFree env s (some p) = some (LOS_OK, s1) ∧
        p ∉ s1.g_vnodeActiveList ∧ p ∉ s1.g_vnodeVirtualList ∧
        s1.g_vnodeActiveList = s.g_vnodeActiveList.filter (fun w => w != p) ∧
        s1.g_vnodeVirtualList = s.g_vnodeVirtualList.filter (fun w => w != p) ∧
        s1.vnode p = some zeroVnode ∧
        s1.g_vnodeFreeList = p :: s.g_vnodeFreeList.filter (fun w => w != p) ∧
        s1.g_freeVnodeSize = s.g_freeVnodeSize + 1 ∧
        s1.g_totalVnodeSize = s.g_totalVnodeSize) := by
  have hu1 : ¬ vn.useCount > 0 := by rw [hu]; decide
  refine ⟨?_, ?_⟩
  · intro hlit hop
    refine ⟨_, VnodeFree_device hv hu1 hop hlit, ?_, ?_, rfl, rfl, rfl, rfl, rfl⟩
    · rw [allVnodes_freedDevice]
      exact fun hm => (mem_filter_ne.1 hm).2 rfl
    · rw [vnode_freedDevice, if_pos rfl]
  · intro hlit op hop hne
    refine ⟨_, VnodeFree_recycled hv hu1 hop hne hlit, ?_, ?_, rfl, rfl, ?_, rfl, rfl, rfl⟩
    · exact fun hm => (mem_filter_ne.1 hm).2 rfl
    · exact fun hm => (mem_filter_ne.1 hm).2 rfl
    · rw [vnode_freedRecycled (vnode_lt_length hv), if_pos rfl]

theorem VnodeFree_by_ops_witness :
    (∃ s1, VnodeFree envOne devActive (some 0) = some (LOS_OK, s1) ∧
        0 ∉ allVnodes s1 ∧ s1.vnode 0 = none ∧
        s1.g_vnodeFreeList = devActive.g_vnodeFreeList.filter (fun w => w != 0) ∧
        s1.g_vnodeVirtualList = devActive.g_vnodeVirtualList.filter (fun w => w != 0) ∧
        s1.g_vnodeActiveList = devActive.g_vnodeActiveList.filter (fun w => w != 0) ∧
        s1.g_totalVnodeSize = devActive.g_totalVnodeSize - 1 ∧
        s1.g_freeVnodeSize = devActive.g_freeVnodeSize) ∧
    (∃ s1, VnodeFree envOne oneActive (some 0) = some (LOS_OK, s1) ∧
        0 ∉ s1.g_vnodeActiveList ∧ 0 ∉ s1.g_vnodeVirtualList ∧
        s1.g_vnodeActiveList = oneActive.g_vnodeActiveList.filter (fun w => w != 0) ∧
        s1.g_vnodeVirtualList = oneActive.g_vnodeVirtualList.filter (fun w => w != 0) ∧
        s1.vnode 0 = some zeroVnode ∧
        s1.g_vnodeFreeList = 0 :: oneActive.g_vnodeFreeList.filter (fun w => w != 0) ∧
        s1.g_freeVnodeSize = oneActive.g_freeVnodeSize + 1 ∧
        s1.g_totalVnodeSize = oneActive.g_totalVnodeSize) :=
  ⟨(VnodeFree_by_ops envOne devActive 0 _ rfl rfl).1 (Or.inl rfl) rfl,
    (VnodeFree_by_ops envOne oneActive 0 _ rfl rfl).2 (Or.inl rfl) 5 rfl (by decide)⟩
/-! ## C5: the pool predicate is an invariant -/

/-- C5: the pool predicate (`free_size` is the length of the free list, `total_size ≤
MAX`, every vnode of the pool is on exactly one of the three lists, once, the path
literal of the root held on the virtual list only) holds after `VnodesInit`, is kept
by every `VnodeAlloc` and every `VnodeFree` (together with the fact that free slots
are wiped), and so holds after every finite sequence of pool calls; `VnodeAlloc` does
return on such a state when the active vnodes have an ops table. -/
theorem PoolInv_preserved (env : Env) :
    (∃ ret s, VnodesInit env bootState = some (ret, s) ∧ PoolInv env s ∧ FreeWiped s) ∧
    (∀ s vop ret v s1, PoolInv env s → FreeWiped s →
      VnodeAlloc env s vop = some (ret, v, s1) → PoolInv env s1 ∧ FreeWiped s1) ∧
    (∀ s vop, PoolInv env s → FreeWiped s → ActiveHaveOps s →
      ∃ r, VnodeAlloc env s vop = some r) ∧
    (∀ s v ret s1, PoolInv env s → FreeWiped s →
      VnodeFree env s v = some (ret, s1) → PoolInv env s1 ∧ FreeWiped s1) ∧
    (∀ calls ret s s1, VnodesInit env bootState = some (ret, s) →
      runPoolCalls env calls s = some s1 → PoolInv env s1) := by
  refine ⟨VnodesInit_PoolInv env, ?_, ?_, ?_, ?_⟩
  · intro s vop ret v s1 hi hw h
    exact VnodeAlloc_PoolInv hi hw h
  · intro s vop hi hw hops
    exact VnodeAlloc_total vop hi hw hops
  · intro s v ret s1 hi hw h
    exact VnodeFree_PoolInv hi hw h
  · intro calls ret s s1 hinit hrun
    obtain ⟨ret0, s0, h0, hi, hw⟩ := VnodesInit_PoolInv env
    rw [h0] at hinit
    simp only [Option.some.injEq, Prod.mk.injEq] at hinit
    obtain ⟨-, hs⟩ := hinit
    subst hs
    exact (runPoolCalls_PoolInv env calls s0 s1 hi hw hrun).1

theorem PoolInv_preserved_witness :
    VnodesInit envFour bootState = some (LOS_OK, rootOnly) ∧
    runPoolCalls envFour
      [PoolCall.alloc (some 5), PoolCall.free (some 1), PoolCall.alloc none] rootOnly =
        some rootAndDevice ∧
    PoolInv envFour rootAndDevice :=
  ⟨by decide, by decide,
    (PoolInv_preserved envFour).2.2.2.2
      [PoolCall.alloc (some 5), PoolCall.free (some 1), PoolCall.alloc none]
      LOS_OK rootOnly rootAndDevice (by decide) (by decide)⟩

/-! ## C6: `total_size` and a failing `zalloc` -/

/-- C6 fails when `zalloc` returns NULL: on the empty pool with room under the
ceiling, `VnodeAlloc` increments `total_size` although no slot was allocated, and
returns `-ENOMEM`; afterwards `total_size` is 1 while the three lists are empty. -/
theorem VnodeAlloc_zalloc_failure_total :
    VnodeAlloc envNoMem bootState none =
      some (-ENOMEM, none, { bootState with g_totalVnodeSize := 1 }) ∧
    allVnodes { bootState with g_totalVnodeSize := 1 } = [] ∧
    ({ bootState with g_totalVnodeSize := 1 } : State).g_totalVnodeSize ≠
      ((allVnodes { bootState with g_totalVnodeSize := 1 }).length : Int) := by
  decide

/-! ## C7: one pass of `VnodeReclaimLru` -/

/-- C7 (as stated) fails on "returns None iff k == 0": vnode `0` of `devActive` is the
one eligible vnode (`k = 1`); the pass frees it, but a device vnode is released, not
recycled, so the free list stays empty and `VnodeReclaimLru` returns NULL. -/
theorem VnodeReclaimLru_device_counterexample :
    VnodeAlloc envOne bootState (some g_devfsOps) = some (LOS_OK, some 0, devActive) ∧
    eligibleVnodes devActive = [0] ∧
    VnodeReclaimLru envOne devActive = some (none, { bootState with heap := [none] }) := by
  decide

/-- C7 (amended): on a pool state whose active vnodes have an ops table and
non-negative use counts, one `VnodeReclaimLru` frees exactly the first `min(10, k)`
eligible vnodes of the active list, least recently used first (`k` the number of
eligible vnodes; eligible: `use_count == 0` and no mount flag).  Every other vnode
stays on the active list in its original order with its record untouched; the
recycled vnodes are pushed onto the free list in that order and the result is the
head of the free list.  It returns NULL iff `k == 0` or the free list is empty after
the batch, that is, it was empty before and every freed vnode carried the device
table. -/
theorem VnodeReclaimLru_batch (env : Env) (s : State)
    (hi : PoolInv env s) (hw : FreeWiped s) (hops : ActiveHaveOps s)
    (hnn : ActiveCountsNonneg s) :
    ∃ r s1, VnodeReclaimLru env s = some (r, s1) ∧
      s1.g_vnodeActiveList =
        s.g_vnodeActiveList.filter (fun q => decide (q ∉ (eligibleVnodes s).take 10)) ∧
      (∀ p ∈ (eligibleVnodes s).take 10,
        s1.vnode p = if isDevice s p = true then none else some zeroVnode) ∧
      (∀ q, q ∉ (eligibleVnodes s).take 10 → s1.vnode q = s.vnode q) ∧
      s1.g_vnodeVirtualList = s.g_vnodeVirtualList ∧
      r.toList ++ s1.g_vnodeFreeList =
        (((eligibleVnodes s).take 10).filter (fun p => !isDevice s p)).reverse ++
          s.g_vnodeFreeList ∧
      ((eligibleVnodes s).take 10).length = min 10 (eligibleVnodes s).length ∧
      (r = none ↔ eligibleVnodes s = [] ∨
        (s.g_vnodeFreeList = [] ∧ ∀ p ∈ (eligibleVnodes s).take 10, isDevice s p = true)) := by
  have hb : (eligibleVnodes s).take 10 = batchOf s s.g_vnodeActiveList 10 := by
    rw [eligibleVnodes_eq hnn]; rfl
  have hlen : ((eligibleVnodes s).take 10).length = min 10 (eligibleVnodes s).length :=
    List.length_take _ _
  have hnil : eligibleVnodes s = [] ↔ batchOf s s.g_vnodeActiveList 10 = [] := by
    rw [← hb]
    constructor
    · intro h; rw [h]; rfl
    · intro h
      have := congrArg List.length h
      rw [hlen] at this
      apply List.eq_nil_of_length_eq_zero
      simp only [List.length_nil] at this
      omega
  rw [hb] at hlen ⊢
  generalize hbatch : batchOf s s.g_vnodeActiveList 10 = batch at hlen hnil ⊢
  have hsub : ∀ p ∈ batch, p ∈ s.g_vnodeActiveList := by
    intro p hp
    rw [← hbatch] at hp
    exact (List.mem_filter.1 (List.mem_of_mem_take hp)).1
  have hbnd : batch.Nodup := by
    rw [← hbatch]
    exact ((PoolInv_active_nodup hi).filter _).sublist (List.take_sublist _ _)
  have hloop := reclaimLoop_eq env s.g_vnodeActiveList s 0 10 (PoolInv_active_nodup hi)
    (by decide) (by decide)
    (fun p hp => by
      obtain ⟨vn, hv⟩ := PoolInv_active_allocated hi hp
      exact ⟨vn, hv, hops p hp vn hv⟩)
    (fun p hp => PoolInv_active_not_literal hi hp)
  rw [hbatch] at hloop
  have hfb := FreedBatch_foldl batch s hbnd (fun p hp => PoolInv_active_allocated hi (hsub p hp))
  have hinv := reclaimLoop_PoolInv env _ _ _ _ _ hi hw hloop
  generalize batch.foldl freedState s = t at hloop hfb hinv
  have hvirt : t.g_vnodeVirtualList = s.g_vnodeVirtualList := by
    rw [hfb.virt]
    exact filter_not_mem_of_disjoint
      (fun q hq hqb => (PoolInv_active_not_free hi (hsub q hqb)).2 hq)
  have hfree : t.g_vnodeFreeList =
      (batch.filter (fun p => !isDevice s p)).reverse ++ s.g_vnodeFreeList := by
    rw [hfb.free]
    congr 1
    exact filter_not_mem_of_disjoint
      (fun q hq hqb => (PoolInv_active_not_free hi (hsub q hqb)).1 hq)
  unfold VnodeReclaimLru
  rw [hloop]
  simp only [zero_add]
  by_cases hbn : batch = []
  · subst hbn
    refine ⟨none, t, by simp, hfb.active, hfb.freed, hfb.others, hvirt, ?_, hlen, ?_⟩
    · simpa using hfree
    · simp [hnil]
  · have hrc : ¬ ((batch.length : Int) = 0) := by
      intro h
      exact hbn (List.eq_nil_of_length_eq_zero (by exact_mod_cast h))
    rw [if_neg hrc]
    cases hfl : t.g_vnodeFreeList with
    | nil =>
      refine ⟨none, t, by rw [GetFromFreeList_nil hinv.1 hfl], hfb.active, hfb.freed,
        hfb.others, hvirt, ?_, hlen, ?_⟩
      · rw [← hfree, hfl]; rfl
      · rw [hfl] at hfree
        have h0 := List.append_eq_nil.1 hfree.symm
        refine ⟨fun _ => Or.inr ⟨h0.2, ?_⟩, fun _ => rfl⟩
        intro p hp
        have h1 := List.reverse_eq_nil_iff.1 h0.1
        have := List.filter_eq_nil_iff.1 h1 p hp
        simpa using this
    | cons v rest =>
      obtain ⟨s1, hg, hgf, hga, hgv, hgq⟩ := GetFromFreeList_spec hinv.1 hfl
      refine ⟨some v, s1, by rw [hg], by rw [hga]; exact hfb.active,
        fun p hp => by rw [hgq]; exact hfb.freed p hp,
        fun q hq => by rw [hgq]; exact hfb.others q hq, by rw [hgv]; exact hvirt, ?_, hlen, ?_⟩
      · rw [hgf, ← hfree, hfl]; rfl
      · constructor
        · intro h; cases h
        · rintro (h | ⟨h1, h2⟩)
          · exact absurd (hnil.1 h) hbn
          · exfalso
            rw [hfl, h1, List.append_nil] at hfree
            have : batch.filter (fun p => !isDevice s p) = [] := by
              rw [List.filter_eq_nil_iff]
              intro p hp
              simp [h2 p hp]
            rw [this] at hfree
            cases hfree


theorem VnodeReclaimLru_batch_witness :
    (PoolInv envOne oneActive ∧ FreeWiped oneActive ∧ ActiveHaveOps oneActive ∧
      ActiveCountsNonneg oneActive) ∧
    ∃ r s1, VnodeReclaimLru envOne oneActive = some (r, s1) ∧
      s1.g_vnodeActiveList = oneActive.g_vnodeActiveList.filter
        (fun q => decide (q ∉ (eligibleVnodes oneActive).take 10)) ∧
      (r = none ↔ eligibleVnodes oneActive = [] ∨
        (oneActive.g_vnodeFreeList = [] ∧
          ∀ p ∈ (eligibleVnodes oneActive).take 10, isDevice oneActive p = true)) :=
  ⟨⟨wf_oneActive.1, wf_oneActive.2, activeHaveOps_oneActive, activeCountsNonneg_oneActive⟩, by
    obtain ⟨r, s1, h, ha, -, -, -, -, -, hr⟩ := VnodeReclaimLru_batch envOne oneActive
      wf_oneActive.1 wf_oneActive.2 activeHaveOps_oneActive activeCountsNonneg_oneActive
    exact ⟨r, s1, h, ha, hr⟩⟩

/-! ## C8: `VnodeFreeAll` -/

/-- C8: on a pool state whose active vnodes have an ops table, `VnodeFreeAll(m)`
returns `-EBUSY` iff some active vnode with `originMount == m` and without `MountNew`
is pinned.  When it returns `LOS_OK`, every vnode of `m` still on the active list has
`MountNew` set, and the active vnodes of other mounts are all still there, in their
original relative order and with their records untouched. -/
theorem VnodeFreeAll_spec (env : Env) (s : State) (mount : Option Nat)
    (hi : PoolInv env s) (hops : ActiveHaveOps s) :
    ∃ ret s1, VnodeFreeAll env s mount = some (ret, s1) ∧
      (ret = LOS_OK ∨ ret = -EBUSY) ∧
      (ret = -EBUSY ↔ ∃ p ∈ s.g_vnodeActiveList,
        fromMount s mount p = true ∧ isMountNew s p = false ∧ isPinned s p = true) ∧
      (ret = LOS_OK →
        (∀ p ∈ s1.g_vnodeActiveList, fromMount s1 mount p = true → isMountNew s1 p = true) ∧
        s1.g_vnodeActiveList.filter (fun p => !fromMount s1 mount p) =
          s.g_vnodeActiveList.filter (fun p => !fromMount s mount p) ∧
        (∀ q ∈ s1.g_vnodeActiveList, s1.vnode q = s.vnode q)) := by
  obtain ⟨ret, s1, hl, hro, hbusy, hok⟩ := freeAllLoop_spec env mount s.g_vnodeActiveList s
    (PoolInv_active_nodup hi)
    (fun p hp => by
      obtain ⟨vn, hv⟩ := PoolInv_active_allocated hi hp
      exact ⟨vn, hv, hops p hp vn hv⟩)
    (fun p hp => PoolInv_active_not_literal hi hp)
  refine ⟨ret, s1, hl, hro, hbusy, ?_⟩
  intro hr
  have hfb := hok hr
  generalize hbatch : s.g_vnodeActiveList.filter
    (fun p => fromMount s mount p && !isMountNew s p) = batch at hfb
  have hmem : ∀ q, q ∈ s1.g_vnodeActiveList ↔ q ∈ s.g_vnodeActiveList ∧ q ∉ batch := by
    intro q
    rw [hfb.active, List.mem_filter]
    simp
  have hsame : ∀ q ∈ s1.g_vnodeActiveList, s1.vnode q = s.vnode q :=
    fun q hq => hfb.others q ((hmem q).1 hq).2
  have hnt : ∀ q ∈ s.g_vnodeActiveList, q ∉ batch →
      (fromMount s mount q && !isMountNew s q) = false := by
    intro q hq hqb
    by_contra h
    apply hqb
    rw [← hbatch, List.mem_filter]
    exact ⟨hq, by simpa using h⟩
  refine ⟨?_, ?_, hsame⟩
  · intro p hp hfm
    have e := hsame p hp
    rw [fromMount_congr mount e] at hfm
    rw [isMountNew_congr e]
    have := hnt p ((hmem p).1 hp).1 ((hmem p).1 hp).2
    rw [hfm] at this
    simpa using this
  · rw [hfb.active, List.filter_filter]
    apply List.filter_congr
    intro q hq
    by_cases hqb : q ∈ batch
    · have : fromMount s mount q = true := by
        rw [← hbatch, List.mem_filter] at hqb
        have := hqb.2
        simp only [Bool.and_eq_true] at this
        exact this.1
      simp [hqb, this]
    · have e := hfb.others q hqb
      rw [fromMount_congr mount e]
      simp [hqb]

theorem VnodeFreeAll_spec_witness :
    (PoolInv envOne oneActive ∧ ActiveHaveOps oneActive) ∧
    ∃ ret s1, VnodeFreeAll envOne oneActive none = some (ret, s1) ∧
      (ret = LOS_OK ∨ ret = -EBUSY) ∧
      (ret = -EBUSY ↔ ∃ p ∈ oneActive.g_vnodeActiveList,
        fromMount oneActive none p = true ∧ isMountNew oneActive p = false ∧
          isPinned oneActive p = true) ∧
      (ret = LOS_OK →
        (∀ p ∈ s1.g_vnodeActiveList, fromMount s1 none p = true → isMountNew s1 p = true) ∧
        s1.g_vnodeActiveList.filter (fun p => !fromMount s1 none p) =
          oneActive.g_vnodeActiveList.filter (fun p => !fromMount oneActive none p) ∧
        (∀ q ∈ s1.g_vnodeActiveList, s1.vnode q = oneActive.vnode q)) :=
  ⟨⟨wf_oneActive.1, activeHaveOps_oneActive⟩,
    VnodeFreeAll_spec envOne oneActive none wf_oneActive.1 activeHaveOps_oneActive⟩

/-! ## C9: `VnodeInUseIter` -/

/-- C9 (as stated) fails for vnodes on the virtual list: the device vnode `1` that
`VnodeCreate` makes under a root of mount `7` inherits `originMount = 7` and sits on
the virtual list; once pinned it is a vnode of mount `7` with `useCount > 0`, yet
`VnodeInUseIter(7)` scans the active list only and returns FALSE. -/
theorem VnodeInUseIter_virtual_counterexample :
    VnodeCreate envFour rootMounted 0 ['n', 'u', 'l', 'l'] 0o666 none =
      some (0, some 1, deviceCreated 0) ∧
    1 ∈ (deviceCreated 1).g_vnodeVirtualList ∧
    fromMount (deviceCreated 1) (some 7) 1 = true ∧
    isPinned (deviceCreated 1) 1 = true ∧
    VnodeInUseIter (deviceCreated 1) (some 7) = some false := by
  decide

theorem inUseLoop_spec (s : State) (m : Option Nat) :
    ∀ items : List Nat, (∀ p ∈ items, ∃ vn, s.vnode p = some vn) →
      ∃ b, inUseLoop s m items = some b ∧
        (b = true ↔ ∃ p ∈ items, fromMount s m p = true ∧
          (isPinned s p = true ∨ isMountOrigin s p = true)) := by
  intro items
  induction items with
  | nil =>
    intro _
    exact ⟨false, rfl, by simp⟩
  | cons item rest ih =>
    intro hall
    obtain ⟨vn, hv⟩ := hall item (List.mem_cons_self _ _)
    have hfm : fromMount s m item = decide (vn.originMount = m) := by
      by_cases e : vn.originMount = m <;> simp [fromMount, hv, e]
    have hpin : isPinned s item = decide (vn.useCount > 0) := by
      simp [isPinned, hv]
    have hmo : isMountOrigin s item = hasFlag vn.flag VNODE_FLAG_MOUNT_ORIGIN := by
      simp [isMountOrigin, hv]
    unfold inUseLoop
    rw [hv]
    simp only
    by_cases hc : vn.originMount = m ∧
        (vn.useCount > 0 ∨ hasFlag vn.flag VNODE_FLAG_MOUNT_ORIGIN = true)
    · rw [if_pos hc]
      refine ⟨true, rfl, fun _ => ⟨item, List.mem_cons_self _ _, ?_, ?_⟩, fun _ => rfl⟩
      · rw [hfm]; simp [hc.1]
      · rw [hpin, hmo]
        rcases hc.2 with h | h
        · exact Or.inl (by simp [h])
        · exact Or.inr h
    · rw [if_neg hc]
      obtain ⟨b, hb, hiff⟩ := ih (fun p hp => hall p (List.mem_cons_of_mem _ hp))
      refine ⟨b, hb, ?_⟩
      rw [hiff]
      constructor
      · rintro ⟨p, hp, h⟩
        exact ⟨p, List.mem_cons_of_mem _ hp, h⟩
      · rintro ⟨p, hp, h1, h2⟩
        rcases List.mem_cons.1 hp with e | hp
        · subst e
          exfalso
          apply hc
          rw [hfm] at h1
          rw [hpin, hmo] at h2
          refine ⟨of_decide_eq_true h1, ?_⟩
          rcases h2 with h | h
          · exact Or.inl (of_decide_eq_true h)
          · exact Or.inr h
        · exact ⟨p, hp, h1, h2⟩

/-- C9 (amended): when the vnodes on the active list are allocated,
`VnodeInUseIter(m)` returns TRUE iff some vnode on the active list whose
`originMount` is `m` has `useCount > 0` or has `MountOrigin` set; the vnodes on the
virtual list and the free list are not examined. -/
theorem VnodeInUseIter_active (s : State) (mount : Option Nat)
    (hall : ∀ p ∈ s.g_vnodeActiveList, ∃ vn, s.vnode p = some vn) :
    ∃ b, VnodeInUseIter s mount = some b ∧
      (b = true ↔ ∃ p ∈ s.g_vnodeActiveList, fromMount s mount p = true ∧
        (isPinned s p = true ∨ isMountOrigin s p = true)) :=
  inUseLoop_spec s mount s.g_vnodeActiveList hall

theorem VnodeInUseIter_active_witness :
    (∀ p ∈ onePinned.g_vnodeActiveList, ∃ vn, onePinned.vnode p = some vn) ∧
    ∃ b, VnodeInUseIter onePinned none = some b ∧
      (b = true ↔ ∃ p ∈ onePinned.g_vnodeActiveList, fromMount onePinned none p = true ∧
        (isPinned onePinned p = true ∨ isMountOrigin onePinned p = true)) :=
  ⟨fun p hp => (NoReclaimable_onePinned p hp).imp fun _ h => h.1,
    VnodeInUseIter_active onePinned none
      (fun p hp => (NoReclaimable_onePinned p hp).imp fun _ h => h.1)⟩

/-! ## C10: looking up the root -/

/-- C10: looking up `"/"` returns `LOS_OK` with the current root and leaves the whole
state as it was (no allocation, no list, counter, `useCount` or `filePath` changes):
for `VnodeLookupAt` with any start vnode, where the path is taken verbatim, and for
`VnodeLookup` whenever the normaliser maps the path to `"/"`, as it does for `"/"`
itself. -/
theorem VnodeLookup_root (env : Env) (fuel : Nat) (s : State) (result : Option Nat)
    (flags : Nat) :
    (∀ org, VnodeLookupAt env fuel s ['/'] result flags (some org) =
      some (LOS_OK, s.g_rootVnode, s)) ∧
    (∀ path, env.vfs_normalize_path path = .ok ['/'] →
      VnodeLookup env fuel s path result flags = some (LOS_OK, s.g_rootVnode, s)) := by
  constructor
  · intro org
    simp [VnodeLookupAt]
  · intro path h
    simp [VnodeLookup, VnodeLookupAt, PreProcess, h]

theorem VnodeLookup_root_witness :
    envOne.vfs_normalize_path ['/'] = .ok ['/'] ∧
    VnodeLookup envOne 0 rootAndDevice ['/'] none (V_CREATE ||| V_DUMMY) =
      some (LOS_OK, rootAndDevice.g_rootVnode, rootAndDevice) :=
  ⟨rfl, (VnodeLookup_root envOne 0 rootAndDevice none (V_CREATE ||| V_DUMMY)).2 ['/'] rfl⟩

/-! ## C11: the root after `VnodesInit` -/

theorem VnodeAlloc_boot_fresh {env : Env}
    (hlt : (0 : Int) < (env.LOSCFG_MAX_VNODE_SIZE : Int)) (hz : env.zallocOk bootState = true) :
    VnodeAlloc env bootState none = some (LOS_OK, some 0,
      { bootState with
        heap := [some { zeroVnode with vop := some g_devfsOps, mappingHost := some 0 }]
        g_vnodeVirtualList := [0]
        g_totalVnodeSize := 1 }) := by
  unfold VnodeAlloc
  rw [allocSlot_fresh (by decide) hlt hz]
  rfl

theorem VnodeAlloc_boot_nomem {env : Env}
    (hno : ¬ ((0 : Int) < (env.LOSCFG_MAX_VNODE_SIZE : Int) ∧ env.zallocOk bootState = true)) :
    ∃ s1, VnodeAlloc env bootState none = some (-ENOMEM, none, s1) := by
  unfold VnodeAlloc
  rw [allocSlot_reclaim (by decide) hno]
  have hnr : NoReclaimable (reclaimEntry env bootState) := by
    intro p hp
    unfold reclaimEntry at hp
    split at hp <;> simp [bootState] at hp
  rw [VnodeReclaimLru_none_of_noReclaimable hnr]
  exact ⟨_, rfl⟩

/-- A successful `VnodesInit` on the boot state leaves exactly the state `rootOnly`. -/
theorem VnodesInit_boot_ok {env : Env} {s : State}
    (h : VnodesInit env bootState = some (LOS_OK, s)) : s = rootOnly := by
  have hs0 :
      ({ bootState with
          g_vnodeFreeList := [], g_vnodeVirtualList := [], g_vnodeActiveList := [] } : State) =
        bootState := rfl
  unfold VnodesInit at h
  simp only [hs0] at h
  by_cases hfresh : (0 : Int) < (env.LOSCFG_MAX_VNODE_SIZE : Int) ∧ env.zallocOk bootState = true
  · rw [VnodeAlloc_boot_fresh hfresh.1 hfresh.2] at h
    have : s = rootOnly := by
      have h2 := Option.some.inj h
      exact (congrArg Prod.snd h2).symm
    exact this
  · obtain ⟨s1, h1⟩ := VnodeAlloc_boot_nomem hfresh
    rw [h1] at h
    have hne : (-ENOMEM : Int) ≠ LOS_OK := by decide
    simp only [ne_eq, hne, not_false_eq_true, if_true, Option.some.injEq, Prod.mk.injEq] at h
    exact h.1.elim

/-- C11: after a successful `VnodesInit` on a fresh system the root vnode is a
directory with `filePath` `"/"`, `VnodeLookup("/")` returns that root (the path
normalising to `"/"`), and `VnodeGetattr` on it reports `st_mode = 0o40777`
(`S_IFDIR | 0777`) with every other field of the `stat`, `uid` and `gid` included,
equal to zero. -/
theorem VnodesInit_root (env : Env) (s : State)
    (h : VnodesInit env bootState = some (LOS_OK, s)) :
    ∃ root vn, s.g_rootVnode = some root ∧ s.vnode root = some vn ∧
      vn.type = VNODE_TYPE_DIR ∧ vn.filePath = some ['/'] ∧
      (∀ fuel path result flags, env.vfs_normalize_path path = .ok ['/'] →
        VnodeLookup env fuel s path result flags = some (LOS_OK, some root, s)) ∧
      VnodeGetattr s (some root) = some (LOS_OK, { zeroStat with st_mode := 0o40777 }) ∧
      0o40777 = S_IFDIR ||| 0o777 := by
  have hs := VnodesInit_boot_ok h
  subst hs
  refine ⟨0, rootVnode, rfl, rfl, rfl, rfl, ?_, rfl, by decide⟩
  intro fuel path result flags hn
  simp [VnodeLookup, VnodeLookupAt, PreProcess, hn, rootOnly]

theorem VnodesInit_root_witness :
    VnodesInit envFour bootState = some (LOS_OK, rootOnly) ∧
    ∃ root vn, rootOnly.g_rootVnode = some root ∧ rootOnly.vnode root = some vn ∧
      vn.type = VNODE_TYPE_DIR ∧ vn.filePath = some ['/'] ∧
      (∀ fuel path result flags, envFour.vfs_normalize_path path = .ok ['/'] →
        VnodeLookup envFour fuel rootOnly path result flags = some (LOS_OK, some root, rootOnly)) ∧
      VnodeGetattr rootOnly (some root) = some (LOS_OK, { zeroStat with st_mode := 0o40777 }) ∧
      0o40777 = S_IFDIR ||| 0o777 :=
  ⟨by decide, VnodesInit_root envFour rootOnly (by decide)⟩

/-! ## C12: the stored file path -/

/-- C12 (as stated) fails for a vnode that already carries a path: in the tree `/a`,
`/a/b`, a walk of `"b"` that starts at the vnode of `/a` stores `"b"` as the path of
the file; the later `VnodeLookup("/a/b")` returns `LOS_OK` with that vnode and leaves
its path `"b"`, which is not the normalised path `"/a/b"`.  A path that is there
before the call is not always kept either: with a ceiling of three vnodes the
lookup of `"/x"` with `V_CREATE | V_DUMMY` in that tree reclaims the vnode `2` of
`/a/b`, returns it, and its path has gone from `"/a/b"` to `"/x"`. -/
theorem VnodeLookup_filePath_counterexample :
    VnodeLookupAt envFour 1 (treeWith none) ['b'] none 0 (some 1) =
      some (LOS_OK, some 2, treeWith (some ['b'])) ∧
    envFour.vfs_normalize_path ['/', 'a', '/', 'b'] = .ok ['/', 'a', '/', 'b'] ∧
    VnodeLookup envFour 2 (treeWith (some ['b'])) ['/', 'a', '/', 'b'] none 0 =
      some (LOS_OK, some 2, treeWith (some ['b'])) ∧
    ((treeWith (some ['b'])).vnode 2).map (fun vn => vn.filePath) = some (some ['b']) ∧
    ['b'] ≠ ['/', 'a', '/', 'b'] ∧
    (treeState.vnode 2).map (fun vn => vn.filePath) = some (some ['/', 'a', '/', 'b']) ∧
    (VnodeLookup envThree 1 treeState ['/', 'x'] none (V_CREATE ||| V_DUMMY)).map
      (fun r => (r.1, r.2.1, (r.2.2.vnode 2).map (fun vn => vn.filePath))) =
        some (LOS_OK, some 2, some (some ['/', 'x'])) :=
  ⟨by decide, rfl, by decide, by decide, by decide, by decide, by decide⟩

/-- C12 (amended): when `VnodeLookupAt` on a path whose normal form `np` is neither
empty nor `"/"` returns `LOS_OK`, its result is a vnode `v` whose `filePath` is not
NULL afterwards.  For flags other than `V_CREATE | V_DUMMY` and drivers that leave
stored paths alone, a path that `v` carried before the call is kept, not replaced by
`np`.  The path `np` is stored when `v` has no path as the last `Step` returns. -/
theorem VnodeLookupAt_filePath (env : Env) (fuel : Nat) (s s1 : State) (path np : List Char)
    (result res : Option Nat) (flags : Nat) (org : Option Nat) (r : Nat)
    (hstart : WalkStart env s path org np r) (hnp : np ≠ ['/']) (hne : np ≠ [])
    (h : VnodeLookupAt env fuel s path result flags org = some (LOS_OK, res, s1)) :
    (∃ v vn, res = some v ∧ s1.vnode v = some vn ∧ vn.filePath ≠ none) ∧
    ((hasFlag flags V_DUMMY = true → hasFlag flags V_CREATE = false) → DriverKeepsPaths env →
      ∀ v vn0 fp, res = some v → s.vnode v = some vn0 → vn0.filePath = some fp →
        ∃ vn, s1.vnode v = some vn ∧ vn.filePath = some fp) ∧
    (∀ (n : Nat) (s0 s2 : State) (cd : List Char) (cv : Option Nat) (ret1 : Int)
      (cd1 : Option (List Char)) (v : Nat) (vn1 : Vnode) (result0 : Option Nat) (ret0 : Int),
      cd ≠ [] → Step env s0 cd cv flags = some (ret1, cd1, some v, s2) →
      (cd1 = none ∨ cd1 = some []) → s2.vnode v = some vn1 → vn1.filePath = none →
      lookupLoop env flags np (n + 1) s0 cd cv result0 ret0 =
        some (ret1, some v, s2.setVnode v { vn1 with filePath := some np })) := by
  obtain ⟨ret0, hl⟩ := @VnodeLookupAt_loop env flags s path np org r hstart hnp fuel result
  rw [hl] at h
  refine ⟨lookupLoop_ok_path fuel s np (some r) result ret0 res s1 hne h, ?_, ?_⟩
  · intro hflags hdrv v vn0 fp _ hv hfp
    have hk : KeepsPaths s s1 :=
      lookupLoop_frame KeepsPaths KeepsPaths_refl (fun _ _ _ => KeepsPaths_trans)
        (Step_KeepsPaths hflags hdrv) KeepsPaths_memoPath fuel s np (some r) result ret0 _ h
    exact hk v vn0 fp hv hfp
  · intro n s0 s2 cd cv ret1 cd1 v vn1 result0 ret00 hcd hstep hend hv hnone
    rw [lookupLoop_terminal result0 ret00 hcd hstep hend hv]
    unfold memoPath
    rw [hv]
    simp only [hnone, if_true]

theorem VnodeLookupAt_filePath_witness :
    (∃ v vn, some 2 = some v ∧ (treeWith (some ['b'])).vnode v = some vn ∧
      vn.filePath ≠ none) ∧
    (∃ vn, (treeWith (some ['b'])).vnode 2 = some vn ∧ vn.filePath = some ['b']) :=
  have h := VnodeLookupAt_filePath envFour 2 (treeWith (some ['b'])) (treeWith (some ['b']))
    ['/', 'a', '/', 'b'] ['/', 'a', '/', 'b'] none (some 2) 0 none 0
    (Or.inr ⟨rfl, rfl, rfl⟩) (by decide) (by decide) (by decide)
  ⟨h.1, h.2.1 (by decide)
    (fun op f hf s cur name len => by
      have e : f = VnodeDevLookup := by
        unfold opsAt at hf
        split at hf
        · exact (Option.some.inj hf).symm
        · cases hf
      subst e
      exact KeepsPaths_refl s)
    2 { fileVnode VnodeType.VNODE_TYPE_REG [] 2 with filePath := some ['b'] } ['b'] rfl
    (by decide) rfl⟩

/-! ## C13: trailing slashes -/

/-- C13 (as stated) fails for a regular file: from the root of the tree `/a`, `/a/b`
the walk of `"/a/b"` returns `LOS_OK` with the vnode of the file, but the walk of
`"/a/b///"` returns `-ENOTDIR` and no vnode.  It also fails for a directory that the
caller may not search: the walk of `"/a"` ends on the vnode `1` without a permission
check and returns `LOS_OK`, the walk of `"/a///"` checks the search permission on `1`
before it goes on and returns `-EACCES`.  And it fails without memory for the path
memo: when the file has no path yet, the walk of `"/a/b"` stores the path it was
given, the walk of `"/a/b///"` has to allocate a copy and returns `-ENOMEM`. -/
theorem VnodeLookupAt_trailing_counterexample :
    VnodeLookupAt envFour 2 treeState ['/', 'a', '/', 'b'] none 0 (some 0) =
      some (LOS_OK, some 2, treeState) ∧
    (treeState.vnode 2).map (fun vn => vn.type) = some VNODE_TYPE_REG ∧
    VnodeLookupAt envFour 3 treeState ['/', 'a', '/', 'b', '/', '/', '/'] none 0 (some 0) =
      some (-ENOTDIR, none, treeState) ∧
    (treeState.vnode 1).map (fun vn => vn.type) = some VNODE_TYPE_DIR ∧
    VnodeLookupAt (envNoSearch 1) 1 treeState ['/', 'a'] none 0 (some 0) =
      some (LOS_OK, some 1, { treeState with g_vnodeActiveList := [2, 1] }) ∧
    VnodeLookupAt (envNoSearch 1) 2 treeState ['/', 'a', '/', '/', '/'] none 0 (some 0) =
      some (-EACCES, none, { treeState with g_vnodeActiveList := [2, 1] }) ∧
    VnodeLookupAt envNoMalloc 2 (treeWith none) ['/', 'a', '/', 'b'] none 0 (some 0) =
      some (LOS_OK, some 2, treeWith (some ['/', 'a', '/', 'b'])) ∧
    VnodeLookupAt envNoMalloc 3 (treeWith none) ['/', 'a', '/', 'b', '/', '/', '/'] none 0
      (some 0) = some (-ENOMEM, none, treeWith none) :=
  ⟨by decide, by decide, by decide, by decide, by decide, by decide, by decide, by decide⟩

/-- C13 (amended): for drivers that read only the `len` characters of the name, with
memory for the path memo and the search of `v` permitted: when the walk of a path
`p` (not empty, not `"/"`) from a start vnode returns `LOS_OK` with the vnode `v`,
the walk of `p` followed by `k ≥ 1` slashes returns `LOS_OK` with the same `v` if `v`
is a directory, and `-ENOTDIR` with the caller's result untouched if `v` is not a
directory (a regular file, say). -/
theorem VnodeLookupAt_trailing (env : Env) (fuel : Nat) (s s1 : State) (p : List Char)
    (result : Option Nat) (flags org v k : Nat)
    (hdrv : DriverReadsLen env) (hmalloc : ∀ t, env.mallocOk t = true)
    (hperm : ∀ t, env.VfsVnodePermissionCheck t (some v) = false)
    (hk : 0 < k) (hp : p ≠ []) (hroot : p ≠ ['/'])
    (h : VnodeLookupAt env fuel s p result flags (some org) = some (LOS_OK, some v, s1)) :
    ∃ vn, s1.vnode v = some vn ∧
      (vn.type = VNODE_TYPE_DIR → ∃ s2,
        VnodeLookupAt env (fuel + 1) s (p ++ slashes k) result flags (some org) =
          some (LOS_OK, some v, s2)) ∧
      (vn.type ≠ VNODE_TYPE_DIR →
        VnodeLookupAt env (fuel + 1) s (p ++ slashes k) result flags (some org) =
          some (-ENOTDIR, result, s1)) := by
  have hpk : p ++ slashes k ≠ ['/'] := by
    intro e
    have hl := congrArg List.length e
    have h1 : 0 < p.length := List.length_pos.2 hp
    simp only [List.length_append, slashes, List.length_replicate, List.length_singleton] at hl
    omega
  have e1 : VnodeLookupAt env fuel s p result flags (some org) =
      lookupLoop env flags p fuel s p (some org) result env.uninitRet := by
    unfold VnodeLookupAt
    simp only [reduceCtorEq, false_and, if_false, if_neg hroot]
  have e2 : VnodeLookupAt env (fuel + 1) s (p ++ slashes k) result flags (some org) =
      lookupLoop env flags (p ++ slashes k) (fuel + 1) s (p ++ slashes k) (some org) result
        env.uninitRet := by
    unfold VnodeLookupAt
    simp only [reduceCtorEq, false_and, if_false, if_neg hpk]
  rw [e1] at h
  rw [e2]
  exact lookupLoop_trailing hdrv hmalloc hk fuel s p (some org) result env.uninitRet v s1 hp h
    hperm

theorem VnodeLookupAt_trailing_witness :
    ∃ vn, State.vnode { treeState with g_vnodeActiveList := [2, 1] } 1 = some vn ∧
      (vn.type = VNODE_TYPE_DIR → ∃ s2,
        VnodeLookupAt envFour (1 + 1) treeState (['/', 'a'] ++ slashes 3) none 0 (some 0) =
          some (LOS_OK, some 1, s2)) ∧
      (vn.type ≠ VNODE_TYPE_DIR →
        VnodeLookupAt envFour (1 + 1) treeState (['/', 'a'] ++ slashes 3) none 0 (some 0) =
          some (-ENOTDIR, none, { treeState with g_vnodeActiveList := [2, 1] })) :=
  VnodeLookupAt_trailing envFour 1 treeState { treeState with g_vnodeActiveList := [2, 1] }
    ['/', 'a'] none 0 0 1 3 DriverReadsLen_envFour (fun _ => rfl) (fun _ => rfl) (by decide)
    (by decide) (by decide) (by decide)

/-! ## C14: crossing a mount -/

/-- C14: when a walk step in the directory `cur` resolves the name (by path-cache
hit or by the dispatch) to a child `c`, then a child without `MountOrigin` is the
vnode the walker continues with, and a child with `MountOrigin` and `newMount = m`
is replaced by `m.vnodeCovered`; a lookup whose path ends with that name returns
`LOS_OK` with that same vnode. -/
theorem Step_mount_crossing (env : Env) (flags : Nat) (s s1 : State) (cd nd : List Char)
    (cur c len : Nat) (vn cvn : Vnode)
    (hv : s.vnode cur = some vn) (hdir : vn.type = VNODE_TYPE_DIR)
    (hname : NextName cd = some (nd, len))
    (hres : resolveName env s cur nd len flags = some (LOS_OK, some c, s1))
    (hc : s1.vnode c = some cvn) :
    (hasFlag cvn.flag VNODE_FLAG_MOUNT_ORIGIN = false →
      (∃ s2, RefreshLRU s1 (some c) = some s2 ∧
        Step env s cd (some cur) flags = some (LOS_OK, some (nd.drop len), some c, s2)) ∧
      (nd.drop len = [] → ∀ fuel np result ret, ∃ s3,
        lookupLoop env flags np (fuel + 1) s cd (some cur) result ret =
          some (LOS_OK, some c, s3))) ∧
    (∀ m mnt root rvn, hasFlag cvn.flag VNODE_FLAG_MOUNT_ORIGIN = true →
      cvn.newMount = some m → s1.mounts[m]? = some mnt → mnt.vnodeCovered = some root →
      s1.vnode root = some rvn →
      (∃ s2, RefreshLRU s1 (some root) = some s2 ∧
        Step env s cd (some cur) flags = some (LOS_OK, some (nd.drop len), some root, s2)) ∧
      (nd.drop len = [] → ∀ fuel np result ret, ∃ s3,
        lookupLoop env flags np (fuel + 1) s cd (some cur) result ret =
          some (LOS_OK, some root, s3))) := by
  constructor
  · intro hf
    obtain ⟨s2, h2⟩ := RefreshLRU_some hc
    have hfin : stepFinish s1 cur nd len LOS_OK (some c) =
        some (LOS_OK, some (nd.drop len), some c, s2) := by
      simp [stepFinish, ConvertVnodeIfMounted, hc, hf, h2]
    refine ⟨⟨s2, h2, ?_⟩, ?_⟩
    · rw [Step_eq flags hv hdir hname, hres]
      exact hfin
    · intro hlast fuel np result ret
      have hw : s2.vnode c = some cvn := by rw [RefreshLRU_vnode h2]; exact hc
      exact ⟨_, lookupLoop_last hv hdir hname hres hfin hw hlast fuel np result ret⟩
  · intro m mnt root rvn hf hm hmnt hcov hr
    obtain ⟨s2, h2⟩ := RefreshLRU_some hr
    have hfin : stepFinish s1 cur nd len LOS_OK (some c) =
        some (LOS_OK, some (nd.drop len), some root, s2) := by
      simp [stepFinish, ConvertVnodeIfMounted, hc, hf, hm, hmnt, hcov, h2]
    refine ⟨⟨s2, h2, ?_⟩, ?_⟩
    · rw [Step_eq flags hv hdir hname, hres]
      exact hfin
    · intro hlast fuel np result ret
      have hw : s2.vnode root = some rvn := by rw [RefreshLRU_vnode h2]; exact hr
      exact ⟨_, lookupLoop_last hv hdir hname hres hfin hw hlast fuel np result ret⟩

theorem Step_mount_crossing_witness :
    (∃ s2, RefreshLRU mountState (some 2) = some s2 ∧
      Step envFour mountState ['/', 'm'] (some 0) 0 = some (LOS_OK, some [], some 2, s2)) ∧
    (∃ s3, lookupLoop envFour 0 ['/', 'm'] (0 + 1) mountState ['/', 'm'] (some 0) none 0 =
      some (LOS_OK, some 2, s3)) ∧
    VnodeLookup envFour 1 mountState ['/', 'm'] none 0 = some (LOS_OK, some 2, mountState) :=
  have h := (Step_mount_crossing envFour 0 mountState mountState ['/', 'm'] ['m'] 0 1 1
    rootVnode
    { fileVnode VnodeType.VNODE_TYPE_DIR ['/', 'm'] 1 with
      flag := VNODE_FLAG_MOUNT_ORIGIN, newMount := some 0 }
    (by decide) (by decide) (by decide) (by decide) (by decide)).2 0
    { vnodeBeCovered := some 1, vnodeCovered := some 2 } 2
    { fileVnode VnodeType.VNODE_TYPE_DIR ['/', 'm'] 2 with
      flag := VNODE_FLAG_MOUNT_NEW, originMount := some 0 }
    (by decide) (by decide) (by decide) (by decide) (by decide)
  ⟨h.1, h.2 (by decide) 0 ['/', 'm'] none 0, by decide⟩

/-! ## C15: use counts across a walk -/

/-- C15: when no vnode has a negative `useCount` and the `Lookup` operations of the
drivers leave `useCount` values unchanged, `VnodeLookupAt` leaves, whatever status
it returns, the `useCount` of every vnode that is allocated before and after the
call as it was; and `Step` calls the `Lookup` of the directory it searches in the
state that differs from the current one in that the directory has `useCount + 1`,
taking the one back when `Lookup` has returned. -/
theorem VnodeLookupAt_useCount (env : Env) (fuel : Nat) (s s1 : State) (path : List Char)
    (result res : Option Nat) (flags : Nat) (org : Option Nat) (ret : Int)
    (hdrv : DriverKeepsCounts env) (hnn : CountsNonneg s)
    (h : VnodeLookupAt env fuel s path result flags org = some (ret, res, s1)) :
    (∀ p vn vn1, s.vnode p = some vn → s1.vnode p = some vn1 → vn1.useCount = vn.useCount) ∧
    CountsNonneg s1 ∧
    (∀ (t : State) (d : Nat) (dvn : Vnode) (nd : List Char) (len op : Nat)
      (f : State → Nat → List Char → Nat → Int × Option Nat × State),
      t.vnode d = some dvn → hasFlag flags V_DUMMY = false → dvn.vop = some op →
      (opsAt env op).Lookup = some f →
      (pinned t d dvn).vnode d = some { dvn with useCount := dvn.useCount + 1 } ∧
      (∀ q, q ≠ d → (pinned t d dvn).vnode q = t.vnode q) ∧
      stepDispatch env t d nd len flags =
        match (f (pinned t d dvn) d nd len).2.2.vnode d with
        | none => none
        | some vn2 =>
          let t3 := (f (pinned t d dvn) d nd len).2.2.setVnode d
            { vn2 with useCount := vn2.useCount - 1 }
          if (f (pinned t d dvn) d nd len).1 = LOS_OK then
            some ((f (pinned t d dvn) d nd len).1, (f (pinned t d dvn) d nd len).2.1,
              PathCacheAlloc t3 d (f (pinned t d dvn) d nd len).2.1 nd len)
          else some ((f (pinned t d dvn) d nd len).1, (f (pinned t d dvn) d nd len).2.1, t3)) := by
  have hframe : CountFrame s s1 := by
    unfold VnodeLookupAt at h
    simp only at h
    split at h
    · cases h; exact CountFrame_refl s
    · split at h
      · cases h
      · split at h
        · cases h; exact CountFrame_refl s
        · exact lookupLoop_frame CountFrame CountFrame_refl (fun _ _ _ => CountFrame_trans)
            (Step_CountFrame hdrv) memoPath_CountFrame _ _ _ _ _ _ _ h
  obtain ⟨hn1, hk⟩ := hframe hnn
  refine ⟨?_, hn1, ?_⟩
  · intro p vn vn1 hp hp1
    rcases hk.kept p vn hp with hnone | ⟨vn2, hv2, hc⟩
    · rw [hp1] at hnone; cases hnone
    · rw [hp1] at hv2
      injection hv2 with hv2
      subst hv2
      exact hc
  · intro t d dvn nd len op f hd hdm hop hf
    exact ⟨vnode_pinned_same hd, fun q hq => vnode_setVnode_ne _ hq,
      stepDispatch_lookup nd len hd hdm hop hf⟩

theorem VnodeLookupAt_useCount_witness :
    VnodeLookupAt envFour 2 treeState ['/', 'a', '/', 'x'] none 0 none =
      some (-ENOSYS, some 1, { treeState with g_vnodeActiveList := [2, 1] }) ∧
    (∀ p vn vn1, treeState.vnode p = some vn →
      State.vnode { treeState with g_vnodeActiveList := [2, 1] } p = some vn1 →
      vn1.useCount = vn.useCount) ∧
    CountsNonneg { treeState with g_vnodeActiveList := [2, 1] } :=
  have h := VnodeLookupAt_useCount envFour 2 treeState
    { treeState with g_vnodeActiveList := [2, 1] } ['/', 'a', '/', 'x'] none (some 1) 0 none
    (-ENOSYS) DriverKeepsCounts_envFour countsNonneg_treeState (by decide)
  ⟨by decide, h.1, h.2.1⟩

/-! ## C16: a missing last component -/

/-- C16 (as stated) fails when something follows the missing last component: after
the `/dev` bootstrap the walk of `"/dev"` from the root resolves to the directory `1`
and `none` is missing under it; `"/dev/none"` gives `-ENOENT` with the parent `1` as
result, but `"/dev/none/"` gives `-ENOENT` with the caller's result (`NULL` here)
untouched, not the parent. -/
theorem VnodeLookupAt_noent_counterexample :
    VnodeLookupAt envFour 1 devState ['/', 'd', 'e', 'v'] none 0 (some 0) =
      some (LOS_OK, some 1, devState) ∧
    PathCacheLookup devState 1 ['n', 'o', 'n', 'e', '/'] 4 = none ∧
    VnodeLookupAt envFour 2 devState ['/', 'd', 'e', 'v', '/', 'n', 'o', 'n', 'e'] none 0
      (some 0) = some (-ENOENT, some 1, devState) ∧
    VnodeLookupAt envFour 2 devState ['/', 'd', 'e', 'v', '/', 'n', 'o', 'n', 'e', '/'] none 0
      (some 0) = some (-ENOENT, none, devState) := by
  decide

/-- C16 (amended): when the walk of `VnodeLookupAt` has resolved all components but
the last and stands in the directory `d`, the last component is missing from the
path cache, the flags lack `V_CREATE`, and the `Lookup` of `d` reports `-ENOENT` (as
the device `Lookup` always does; with `V_DUMMY` no `Lookup` is called), then: if
nothing follows the component (its length fits the `uint8_t` and no `/` trails it),
`VnodeLookupAt` returns `-ENOENT` and its result is the parent directory `d`; if
something follows it, `VnodeLookupAt` leaves the caller's result untouched and
returns `-ENOENT`, or `-EACCES` when the permission check on `d` denies. -/
theorem VnodeLookupAt_noent (env : Env) (flags k : Nat) (s s1 : State)
    (path np cd nd : List Char) (org : Option Nat) (r d len : Nat) (dvn : Vnode)
    (result : Option Nat)
    (hstart : WalkStart env s path org np r) (hnp : np ≠ ['/'])
    (hwalk : walkSteps env flags np k s np r = some (s1, cd, d))
    (hd : s1.vnode d = some dvn) (hdir : dvn.type = VNODE_TYPE_DIR)
    (hname : NextName cd = some (nd, len))
    (hmiss : PathCacheLookup s1 d nd len = none)
    (hcreate : hasFlag flags V_CREATE = false)
    (hdrv : hasFlag flags V_DUMMY = false →
      dvn.vop = some g_devfsOps ∨ LookupNoEntry env s1 d dvn nd len) :
    (nd.drop len = [] →
      ∃ s3, VnodeLookupAt env (k + 1) s path result flags org = some (-ENOENT, some d, s3)) ∧
    (nd.drop len ≠ [] →
      ∃ s3, VnodeLookupAt env (k + 1) s path result flags org =
        some (if env.VfsVnodePermissionCheck s3 (some d) = true then -EACCES else -ENOENT,
          result, s3)) := by
  rw [VnodeLookupAt_walk hstart hnp hwalk (NextName_ne_nil hname) 1 result]
  have hne : (-ENOENT : Int) ≠ LOS_OK := by decide
  obtain ⟨s2, vn2, hres, hv2, -⟩ := resolveName_noent nd len hd hmiss hcreate hdrv
  constructor
  · intro hlast
    exact ⟨_, lookupLoop_last hd hdir hname hres (stepFinish_failed s2 d nd len hne) hv2 hlast
      0 np result LOS_OK⟩
  · intro hmore
    have hs : Step env s1 cd (some d) flags = some (-ENOENT, some (nd.drop len), some d, s2) := by
      rw [Step_eq flags hd hdir hname, hres]
      exact stepFinish_failed s2 d nd len hne
    exact ⟨s2, lookupLoop_fail_more result LOS_OK (NextName_ne_nil hname) hs hmore hne⟩

theorem VnodeLookupAt_noent_witness :
    (∃ s3, VnodeLookupAt envFour (1 + 1) devState ['/', 'd', 'e', 'v', '/', 'n', 'o', 'n', 'e']
      none 0 none = some (-ENOENT, some 1, s3)) ∧
    (∃ s3, VnodeLookupAt envFour (1 + 1) devState
      ['/', 'd', 'e', 'v', '/', 'n', 'o', 'n', 'e', '/'] none 0 (some 0) =
        some (if envFour.VfsVnodePermissionCheck s3 (some 1) = true then -EACCES else -ENOENT,
          none, s3)) :=
  ⟨(VnodeLookupAt_noent envFour 0 1 devState devState
      ['/', 'd', 'e', 'v', '/', 'n', 'o', 'n', 'e']
      ['/', 'd', 'e', 'v', '/', 'n', 'o', 'n', 'e'] ['/', 'n', 'o', 'n', 'e']
      ['n', 'o', 'n', 'e'] none 0 1 4 devNode none
      (Or.inr ⟨rfl, rfl, rfl⟩) (by decide) (by decide) (by decide) (by decide) (by decide)
      (by decide) (by decide) (fun _ => Or.inl rfl)).1 (by decide),
    (VnodeLookupAt_noent envFour 0 1 devState devState
      ['/', 'd', 'e', 'v', '/', 'n', 'o', 'n', 'e', '/']
      ['/', 'd', 'e', 'v', '/', 'n', 'o', 'n', 'e', '/'] ['/', 'n', 'o', 'n', 'e', '/']
      ['n', 'o', 'n', 'e', '/'] (some 0) 0 1 4 devNode none
      (Or.inl ⟨rfl, rfl⟩) (by decide) (by decide) (by decide) (by decide) (by decide)
      (by decide) (by decide) (fun _ => Or.inl rfl)).2 (by decide)⟩

/-! ## C17: creating a synthetic vnode -/

/-- C17 (as stated) fails on a full pool: with a ceiling of one vnode and only the
root allocated, `VnodeLookup("/x", V_CREATE | V_DUMMY)` returns `-ENOMEM`; with a
ceiling of three and the tree `/a`, `/a/b` the same lookup returns `LOS_OK` with the
vnode `2`, which was the live active vnode of `/a/b` before the call and has been
reclaimed for the new name.  It also fails for a last component followed by a slash:
the walk of `"x/"` from the root creates the vnode `1` for `x` and then returns
`-ENOTDIR` with the caller's result untouched. -/
theorem VnodeLookup_create_counterexample :
    VnodeLookup envOne 1 rootOnly ['/', 'x'] none (V_CREATE ||| V_DUMMY) =
      some (-ENOMEM, some 0, rootOnly) ∧
    2 ∈ treeState.g_vnodeActiveList ∧
    PathCacheLookup treeState 0 ['x'] 1 = none ∧
    (VnodeLookup envThree 1 treeState ['/', 'x'] none (V_CREATE ||| V_DUMMY)).map
      (fun r => (r.1, r.2.1)) = some (LOS_OK, some 2) ∧
    (VnodeLookupAt envFour 2 rootOnly ['x', '/'] none (V_CREATE ||| V_DUMMY) (some 0)).map
      (fun r => (r.1, r.2.1, r.2.2.g_vnodeVirtualList)) = some (-ENOTDIR, none, [1, 0]) :=
  ⟨by decide, by decide, by decide, by decide, by decide⟩

/-- C17 (amended): when the walk of `VnodeLookupAt` with `V_DUMMY` stands in the
directory `d`, the last component is missing from the path cache under `d` and
nothing follows it (its length fits the `uint8_t` and no `/` trails it), then with
`V_CREATE`, on a pool state (pool predicate, free slots wiped) that has a free-list
slot or room for a fresh one, the lookup returns `LOS_OK` with a vnode `v` that was
on neither the virtual nor the active list (it was a wiped free slot or not
allocated at all), and afterwards `v` carries the device table, is on the virtual
list, has `parent = d` and the path, and the path cache maps the name under `d` to
`v`; without `V_CREATE` the lookup returns `-ENOENT` with the directory `d` and
changes nothing but the path memo of `d`. -/
theorem VnodeLookupAt_create (env : Env) (flags k : Nat) (s s1 : State)
    (path np cd nd : List Char) (org : Option Nat) (r d len : Nat) (dvn : Vnode)
    (result : Option Nat)
    (hstart : WalkStart env s path org np r) (hnp : np ≠ ['/'])
    (hwalk : walkSteps env flags np k s np r = some (s1, cd, d))
    (hd : s1.vnode d = some dvn) (hdir : dvn.type = VNODE_TYPE_DIR)
    (hname : NextName cd = some (nd, len)) (hlast : nd.drop len = [])
    (hmiss : PathCacheLookup s1 d nd len = none)
    (hdummy : hasFlag flags V_DUMMY = true) :
    (hasFlag flags V_CREATE = true → PoolInv env s1 → FreeWiped s1 →
      (s1.g_vnodeFreeList ≠ [] ∨
        (s1.g_totalVnodeSize < (env.LOSCFG_MAX_VNODE_SIZE : Int) ∧
          env.zallocOk (pinned s1 d dvn) = true)) →
      ∃ v s3 vn,
        VnodeLookupAt env (k + 1) s path result flags org = some (LOS_OK, some v, s3) ∧
        v ∉ s1.g_vnodeVirtualList ∧ v ∉ s1.g_vnodeActiveList ∧
        (s1.vnode v = none ∨ s1.vnode v = some zeroVnode) ∧
        s3.vnode v = some vn ∧ vn.vop = some g_devfsOps ∧ v ∈ s3.g_vnodeVirtualList ∧
        vn.parent = some d ∧ vn.filePath = some np ∧
        PathCacheLookup s3 d nd len = some v) ∧
    (hasFlag flags V_CREATE = false →
      VnodeLookupAt env (k + 1) s path result flags org =
        some (-ENOENT, some d, memoPath s1 d np)) := by
  rw [VnodeLookupAt_walk hstart hnp hwalk (NextName_ne_nil hname) 1 result]
  constructor
  · intro hcreate hi hw hroom
    -- the directory is on the virtual or the active list
    have hdl : d ∈ s1.g_vnodeVirtualList ++ s1.g_vnodeActiveList := by
      have hall : d ∈ allVnodes s1 := by
        have := (hi.alloc_iff d).1 (by rw [hd]; rfl)
        simpa using this
      unfold allVnodes at hall
      rw [List.append_assoc] at hall
      rcases List.mem_append.1 hall with hf | hr
      · have hz := hw d hf
        rw [hd] at hz
        injection hz with hz
        rw [hz] at hdir
        cases hdir
      · exact hr
    obtain ⟨hi1, hw1⟩ := @setVnode_PoolInv env s1 d { dvn with useCount := dvn.useCount + 1 }
      hi hw hdl
    have hpd := vnode_pinned_same hd
    obtain ⟨v, s2, halloc, hnv, hna, hold, hv2, hoth, hvl, -⟩ :=
      @VnodeAlloc_virtual_unused env (pinned s1 d dvn) hi1 hw1 hroom
    have hne : v ≠ d := by
      rintro rfl
      rw [hpd] at hold
      rcases hold with h0 | h0
      · cases h0
      · injection h0 with h0
        have := congrArg Vnode.type h0
        simp only [hdir] at this
        cases this
    have hold1 : s1.vnode v = none ∨ s1.vnode v = some zeroVnode := by
      have e : (pinned s1 d dvn).vnode v = s1.vnode v := vnode_setVnode_ne _ hne
      rw [← e]; exact hold
    have hd2 : s2.vnode d = some { dvn with useCount := dvn.useCount + 1 } := by
      rw [hoth d hne.symm]; exact hpd
    have hdisp := stepDispatch_create nd len hd hdummy hcreate halloc hv2 hne hd2
    have hres : resolveName env s1 d nd len flags = some (LOS_OK, some v,
        PathCacheAlloc ((s2.setVnode v { virtualVnode v with parent := some d }).setVnode d dvn)
          d (some v) nd len) := by
      unfold resolveName
      rw [hmiss]
      exact hdisp
    generalize hsP : PathCacheAlloc
      ((s2.setVnode v { virtualVnode v with parent := some d }).setVnode d dvn)
        d (some v) nd len = sP at hres
    have hvP : sP.vnode v = some { virtualVnode v with parent := some d } := by
      rw [← hsP]
      show ((s2.setVnode v { virtualVnode v with parent := some d }).setVnode d dvn).vnode v = _
      rw [vnode_setVnode_ne _ hne]
      exact vnode_setVnode_same _ (vnode_lt_length hv2)
    have hfin : stepFinish sP d nd len LOS_OK (some v) =
        some (LOS_OK, some (nd.drop len), some v, sP) := by
      simp [stepFinish, ConvertVnodeIfMounted, hvP, RefreshLRU, virtualVnode, zeroVnode, hasFlag,
        VNODE_FLAG_MOUNT_ORIGIN]
    have hloop := lookupLoop_last hd hdir hname hres hfin hvP hlast 0 np result LOS_OK
    have hm := memoPath_fields sP v np
    refine ⟨v, memoPath sP v np, _, hloop, hnv, hna, hold1, vnode_memoPath_same np hvP,
      ?_, ?_, ?_, ?_, ?_⟩
    · simp [virtualVnode, zeroVnode]
    · rw [hm.2.1, ← hsP]
      show v ∈ s2.g_vnodeVirtualList
      rw [hvl]
      exact List.mem_cons_self _ _
    · simp [virtualVnode, zeroVnode]
    · simp [virtualVnode, zeroVnode]
    · unfold PathCacheLookup
      rw [hm.2.2.2.2.2.2.1, ← hsP]
      simp [PathCacheAlloc]
  · intro hcreate
    have hne : (-ENOENT : Int) ≠ LOS_OK := by decide
    have hres : resolveName env s1 d nd len flags = some (-ENOENT, none, s1) := by
      unfold resolveName
      rw [hmiss]
      exact stepDispatch_dummy_noent nd len hd hdummy hcreate
    exact lookupLoop_last hd hdir hname hres (stepFinish_failed s1 d nd len hne) hd hlast
      0 np result LOS_OK

theorem VnodeLookupAt_create_witness :
    (∃ v s3 vn,
      VnodeLookupAt envFour (1 + 1) devState ['/', 'd', 'e', 'v', '/', 'n', 'u', 'l', 'l'] none
        (V_CREATE ||| V_DUMMY) none = some (LOS_OK, some v, s3) ∧
      v ∉ devState.g_vnodeVirtualList ∧ v ∉ devState.g_vnodeActiveList ∧
      (devState.vnode v = none ∨ devState.vnode v = some zeroVnode) ∧
      s3.vnode v = some vn ∧ vn.vop = some g_devfsOps ∧ v ∈ s3.g_vnodeVirtualList ∧
      vn.parent = some 1 ∧ vn.filePath = some ['/', 'd', 'e', 'v', '/', 'n', 'u', 'l', 'l'] ∧
      PathCacheLookup s3 1 ['n', 'u', 'l', 'l'] 4 = some v) ∧
    VnodeLookupAt envFour (1 + 1) devState ['/', 'd', 'e', 'v', '/', 'n', 'u', 'l', 'l'] none
        V_DUMMY none =
      some (-ENOENT, some 1, memoPath devState 1 ['/', 'd', 'e', 'v', '/', 'n', 'u', 'l', 'l']) :=
  ⟨(VnodeLookupAt_create envFour (V_CREATE ||| V_DUMMY) 1 devState devState
      ['/', 'd', 'e', 'v', '/', 'n', 'u', 'l', 'l'] ['/', 'd', 'e', 'v', '/', 'n', 'u', 'l', 'l']
      ['/', 'n', 'u', 'l', 'l'] ['n', 'u', 'l', 'l'] none 0 1 4 devNode none
      (Or.inr ⟨rfl, rfl, rfl⟩) (by decide) (by decide) (by decide) (by decide) (by decide)
      (by decide) (by decide) (by decide)).1 (by decide) wf_devState.1 wf_devState.2
      (Or.inr ⟨by decide, rfl⟩),
    (VnodeLookupAt_create envFour V_DUMMY 1 devState devState
      ['/', 'd', 'e', 'v', '/', 'n', 'u', 'l', 'l'] ['/', 'd', 'e', 'v', '/', 'n', 'u', 'l', 'l']
      ['/', 'n', 'u', 'l', 'l'] ['n', 'u', 'l', 'l'] none 0 1 4 devNode none
      (Or.inr ⟨rfl, rfl, rfl⟩) (by decide) (by decide) (by decide) (by decide) (by decide)
      (by decide) (by decide) (by decide)).2 (by decide)⟩

/-! ## C18: `VnodeChattr` followed by `VnodeGetattr` -/

theorem modeNot_and_S_IFMT : modeNot S_IFMT &&& S_IFMT = 0 := by decide

theorem chattr_mode_type (a old : Nat) :
    ((a &&& modeNot S_IFMT) ||| (old &&& S_IFMT)) &&& S_IFMT = old &&& S_IFMT := by
  rw [Nat.and_distrib_right, Nat.and_assoc, Nat.and_assoc, modeNot_and_S_IFMT,
    Nat.and_self, Nat.and_zero, Nat.zero_or]

theorem chattr_mode_type_comm (a old : Nat) :
    ((old &&& S_IFMT) ||| (a &&& modeNot S_IFMT)) &&& S_IFMT = old &&& S_IFMT := by
  rw [Nat.or_comm]; exact chattr_mode_type a old

theorem VnodeChattr_valid {s : State} {p : Nat} {vn : Vnode} (a : IATTR)
    (hv : s.vnode p = some vn) :
    VnodeChattr s (some p) (some a) = some (LOS_OK, s.setVnode p (chattrApply vn a)) := by
  simp only [VnodeChattr, hv]

theorem VnodeGetattr_valid {s : State} {p : Nat} {vn : Vnode} (hv : s.vnode p = some vn) :
    VnodeGetattr s (some p) = some (LOS_OK,
      { zeroStat with st_mode := vn.mode, st_uid := vn.uid, st_gid := vn.gid }) := by
  simp only [VnodeGetattr, hv]

/-- C18: `VnodeChattr(v, a)` returns `-EINVAL` iff `v` or `a` is NULL.  On a valid
vnode it returns `LOS_OK`, and `VnodeGetattr` then reports `uid`/`gid` taken from `a`
when `CHG_UID`/`CHG_GID` is set and the previous ones otherwise, and the mode
`(old & S_IFMT) | (a.mode & ~S_IFMT)` when `CHG_MODE` is set and the previous mode
otherwise; `mode & S_IFMT` is the same before and after. -/
theorem VnodeChattr_getattr (s : State) :
    (∀ v a ret s1, VnodeChattr s v a = some (ret, s1) →
      (ret = -EINVAL ↔ v = none ∨ a = none)) ∧
    (∀ p vn a, s.vnode p = some vn →
      ∃ s1 st, VnodeChattr s (some p) (some a) = some (LOS_OK, s1) ∧
        VnodeGetattr s1 (some p) = some (LOS_OK, st) ∧
        st.st_uid = (if hasFlag a.attr_chg_valid CHG_UID then a.attr_chg_uid else vn.uid) ∧
        st.st_gid = (if hasFlag a.attr_chg_valid CHG_GID then a.attr_chg_gid else vn.gid) ∧
        st.st_mode = (if hasFlag a.attr_chg_valid CHG_MODE then
          (vn.mode &&& S_IFMT) ||| (a.attr_chg_mode &&& modeNot S_IFMT) else vn.mode) ∧
        st.st_mode &&& S_IFMT = vn.mode &&& S_IFMT) := by
  have hne : LOS_OK ≠ -EINVAL := by decide
  constructor
  · intro v a ret s1 h
    cases v with
    | none =>
      simp only [VnodeChattr, Option.some.injEq, Prod.mk.injEq] at h
      simp [← h.1]
    | some p =>
      cases a with
      | none =>
        simp only [VnodeChattr, Option.some.injEq, Prod.mk.injEq] at h
        simp [← h.1]
      | some a =>
        simp only [VnodeChattr] at h
        cases hv : s.vnode p with
        | none => rw [hv] at h; cases h
        | some vn =>
          rw [hv] at h
          simp only [Option.some.injEq, Prod.mk.injEq] at h
          simp [← h.1, hne]
  · intro p vn a hv
    have hlt := vnode_lt_length hv
    refine ⟨_, _, VnodeChattr_valid a hv, VnodeGetattr_valid (vnode_setVnode_same _ hlt),
      ?_, ?_, ?_, ?_⟩ <;>
      by_cases h1 : hasFlag a.attr_chg_valid CHG_MODE = true <;>
      by_cases h2 : hasFlag a.attr_chg_valid CHG_UID = true <;>
      by_cases h3 : hasFlag a.attr_chg_valid CHG_GID = true <;>
      simp [chattrApply, h1, h2, h3, Nat.or_comm, chattr_mode_type, chattr_mode_type_comm]

theorem VnodeChattr_getattr_witness :
    rootOnly.vnode 0 = some rootVnode ∧
    ∃ s1 st, VnodeChattr rootOnly (some 0)
        (some { attr_chg_valid := CHG_MODE ||| CHG_UID, attr_chg_mode := 0o100644,
                attr_chg_uid := 7, attr_chg_gid := 9 }) = some (LOS_OK, s1) ∧
      VnodeGetattr s1 (some 0) = some (LOS_OK, st) ∧
      st.st_uid = 7 ∧ st.st_gid = 0 ∧ st.st_mode = 0o40644 := by
  refine ⟨rfl, ?_⟩
  obtain ⟨s1, st, h1, h2, h3, h4, h5, -⟩ := (VnodeChattr_getattr rootOnly).2 0 rootVnode
    { attr_chg_valid := CHG_MODE ||| CHG_UID, attr_chg_mode := 0o100644,
      attr_chg_uid := 7, attr_chg_gid := 9 } rfl
  refine ⟨s1, st, h1, h2, ?_, ?_, ?_⟩
  · rw [h3]; decide
  · rw [h4]; decide
  · rw [h5]; decide

/-! ## C19: the cap of `VnodeReaddir` -/

/-- C19 fails for `read_cnt = 0`: on the directory `/a` of `treeState`, which has the
one child `b`, `VnodeReaddir` with cursor 0 and `read_cnt = 0` writes the entry for
`b` into `fd_dir[0]` and returns 1, where `min(0, 1 - 0) = 0` entries are due: the
cap is tested only after an entry was written. -/
theorem VnodeReaddir_zero_cap :
    (childPathCaches treeState 1).length = 1 ∧
    VnodeReaddir treeState 1
        (some { fd_position := 0, read_cnt := 0, fd_dir := [blankDirent, blankDirent] }) =
      some (1, some { fd_position := 1, read_cnt := 0,
                      fd_dir := [{ d_name := ['b'], d_off := 0, d_reclen := SIZEOF_DIRENT },
                        blankDirent] }) ∧
    (1 : Int) ≠ min 0 (max (1 - 0) 0) := by
  decide

/-! ## C20: the cursor of `VnodeReaddir` -/

/-- C20 (as stated) fails when the cursor is past the end: on the directory `/a` of
`treeState` (one child) with cursor 3, `VnodeReaddir` returns 0 and leaves the cursor
at 1, not at `3 + 0`: the cursor has moved backwards. -/
theorem VnodeReaddir_cursor_counterexample :
    (childPathCaches treeState 1).length = 1 ∧
    VnodeReaddir treeState 1
        (some { fd_position := 3, read_cnt := 1, fd_dir := [blankDirent] }) =
      some (0, some { fd_position := 1, read_cnt := 1, fd_dir := [blankDirent] }) ∧
    (1 : Int) ≠ 3 + 0 := by
  decide

/-- C20 (amended): a `VnodeReaddir` call with cursor `p ≥ 0` that returns a count
`k ≥ 0` leaves `fd_position = p + k` when `p` does not exceed the number `n` of
children, and the `j`-th emitted entry has `d_off = p + j`; when `p > n` it emits
nothing and sets `fd_position` to `n`. -/
theorem VnodeReaddir_cursor (s : State) (vp : Nat) (d d1 : DirStream) (k : Int)
    (hp : 0 ≤ d.fd_position) (h : VnodeReaddir s vp (some d) = some (k, some d1))
    (hk : 0 ≤ k) :
    (d.fd_position ≤ ((childPathCaches s vp).length : Int) →
      d1.fd_position = d.fd_position + k ∧
      ∀ j : Nat, (j : Int) < k →
        ∃ e, d1.fd_dir[j]? = some e ∧ e.d_off = d.fd_position + (j : Int)) ∧
    (((childPathCaches s vp).length : Int) < d.fd_position →
      k = 0 ∧ d1.fd_position = ((childPathCaches s vp).length : Int)) := by
  obtain ⟨-, h1, h2⟩ := VnodeReaddir_returns hp h hk
  constructor
  · intro hle
    by_cases hlt : d.fd_position < ((childPathCaches s vp).length : Int)
    · obtain ⟨k1, hk1, -, hpos, hent⟩ := h1 hlt
      subst hk1
      refine ⟨hpos, ?_⟩
      intro j hj
      obtain ⟨it, -, he, -⟩ := hent j (by exact_mod_cast hj)
      exact ⟨_, he, rfl⟩
    · obtain ⟨h0, hpos, -⟩ := h2 (by omega)
      subst h0
      refine ⟨by rw [hpos]; omega, ?_⟩
      intro j hj
      omega
  · intro hgt
    obtain ⟨h0, hpos, -⟩ := h2 (by omega)
    exact ⟨h0, hpos⟩

theorem VnodeReaddir_cursor_witness :
    VnodeReaddir treeState 0
        (some { fd_position := 0, read_cnt := 4, fd_dir := [blankDirent, blankDirent] }) =
      some (1, some { fd_position := 1, read_cnt := 4,
                      fd_dir := [{ d_name := ['a'], d_off := 0, d_reclen := SIZEOF_DIRENT },
                        blankDirent] }) ∧
    ((0 : Int) ≤ ((childPathCaches treeState 0).length : Int) →
      (1 : Int) = 0 + 1 ∧
      ∀ j : Nat, (j : Int) < 1 →
        ∃ e, [({ d_name := ['a'], d_off := 0, d_reclen := SIZEOF_DIRENT } : Dirent),
          blankDirent][j]? = some e ∧ e.d_off = 0 + (j : Int)) :=
  ⟨by decide,
    (VnodeReaddir_cursor treeState 0
      { fd_position := 0, read_cnt := 4, fd_dir := [blankDirent, blankDirent] }
      { fd_position := 1, read_cnt := 4,
        fd_dir := [{ d_name := ['a'], d_off := 0, d_reclen := SIZEOF_DIRENT }, blankDirent] }
      1 (by decide) (by decide) (by decide)).1⟩

/-! ## C21: the device mount of VnodeDevInit -/

/-- C21 (as stated) fails on the flag `MountNew`: after `VnodesInit`, the successful
`VnodeDevInit` leaves the mount record `0` with `/dev` (vnode `1`) both as
`vnodeCovered` and as `vnodeBeCovered`, and the flags of that vnode are
`MountOrigin` alone: `MountNew` is not set on `m.vnodeCovered`. -/
theorem VnodeDevInit_mountNew_counterexample :
    VnodeDevInit envFour 1 rootOnly = some (LOS_OK, devState) ∧
    devState.mounts[0]? = some { vnodeBeCovered := some 1, vnodeCovered := some 1 } ∧
    devState.vnode 1 = some devNode ∧
    hasFlag devNode.flag VNODE_FLAG_MOUNT_NEW = false := by
  decide

/-- C21 (amended): after a successful `VnodeDevInit`, with `dev` the vnode the lookup
of `"/dev"` delivered and `m` the mount record `MountAlloc` created: `m.vnodeCovered`
and `m.vnodeBeCovered` are both `dev`, `dev` has `MountOrigin` set, `newMount = m`,
kind `DIR` and mode `S_IFDIR | 0755`; its flags are those the lookup delivered with
`MountOrigin` added, so `MountNew` is as it was and is not set by `VnodeDevInit`. -/
theorem VnodeDevInit_mounts (env : Env) (fuel : Nat) (s s1 : State)
    (h : VnodeDevInit env fuel s = some (LOS_OK, s1)) :
    ∃ dev m s0 vn0 vn,
      VnodeLookup env fuel s ['/', 'd', 'e', 'v'] none (V_CREATE ||| V_DUMMY) =
        some (LOS_OK, some dev, s0) ∧
      s0.vnode dev = some vn0 ∧ m = s0.mounts.length ∧
      s1.mounts[m]? = some { vnodeBeCovered := some dev, vnodeCovered := some dev } ∧
      s1.vnode dev = some vn ∧
      hasFlag vn.flag VNODE_FLAG_MOUNT_ORIGIN = true ∧ vn.newMount = some m ∧
      vn.type = VNODE_TYPE_DIR ∧ vn.mode = S_IFDIR ||| 0o755 ∧
      vn.flag = vn0.flag ||| VNODE_FLAG_MOUNT_ORIGIN ∧
      hasFlag vn.flag VNODE_FLAG_MOUNT_NEW = hasFlag vn0.flag VNODE_FLAG_MOUNT_NEW := by
  unfold VnodeDevInit at h
  cases hl : VnodeLookup env fuel s ['/', 'd', 'e', 'v'] none (V_CREATE ||| V_DUMMY) with
  | none => rw [hl] at h; cases h
  | some q =>
    obtain ⟨retval, devNode, s0⟩ := q
    rw [hl] at h
    simp only at h
    by_cases hret : retval = LOS_OK
    · subst hret
      simp only [ne_eq, not_true_eq_false, if_false] at h
      cases devNode with
      | none => cases h
      | some dev =>
        simp only at h
        cases hv : s0.vnode dev with
        | none => rw [hv] at h; cases h
        | some vn0 =>
          rw [hv] at h
          simp only at h
          cases hma : MountAlloc env
              (s0.setVnode dev
                { vn0 with mode := DEV_VNODE_MODE ||| S_IFDIR, type := VNODE_TYPE_DIR }) dev with
          | none => rw [hma] at h; cases h
          | some r =>
            obtain ⟨mo, s3⟩ := r
            rw [hma] at h
            cases mo with
            | none =>
              simp only [Option.some.injEq, Prod.mk.injEq] at h
              exact absurd h.1 (by decide)
            | some m =>
              simp only at h
              cases hlk : linkDevMount s3 m dev with
              | none => rw [hlk] at h; cases h
              | some s4 =>
                rw [hlk] at h
                simp only [Option.some.injEq, Prod.mk.injEq, true_and] at h
                subst h
                obtain ⟨vn2, hv2, hm, hmounts, hv3, -⟩ := MountAlloc_spec hma
                have hv2e : vn2 =
                    { vn0 with mode := DEV_VNODE_MODE ||| S_IFDIR, type := VNODE_TYPE_DIR } := by
                  rw [vnode_setVnode_same _ (vnode_lt_length hv)] at hv2
                  exact (Option.some.inj hv2).symm
                subst hv2e
                have hmlen : m = s0.mounts.length := hm
                have hm3 : s3.mounts[m]? =
                    some { vnodeBeCovered := some dev, vnodeCovered := none } := by
                  rw [hmounts, hm]
                  exact List.getElem?_concat_length _ _
                obtain ⟨hm4, hv4⟩ := linkDevMount_spec hm3 hv3 hlk
                refine ⟨dev, m, s0, vn0, _, rfl, hv, hmlen, hm4, hv4, ?_, rfl, rfl, ?_, rfl, ?_⟩
                · exact hasFlag_or_origin vn0.flag
                · show DEV_VNODE_MODE ||| S_IFDIR = S_IFDIR ||| 0o755
                  decide
                · exact hasFlag_or_origin_new vn0.flag
    · rw [if_pos hret] at h
      simp only [Option.some.injEq, Prod.mk.injEq] at h
      exact absurd h.1 hret

theorem VnodeDevInit_mounts_witness :
    ∃ dev m s0 vn0 vn,
      VnodeLookup envFour 1 rootOnly ['/', 'd', 'e', 'v'] none (V_CREATE ||| V_DUMMY) =
        some (LOS_OK, some dev, s0) ∧
      s0.vnode dev = some vn0 ∧ m = s0.mounts.length ∧
      devState.mounts[m]? = some { vnodeBeCovered := some dev, vnodeCovered := some dev } ∧
      devState.vnode dev = some vn ∧
      hasFlag vn.flag VNODE_FLAG_MOUNT_ORIGIN = true ∧ vn.newMount = some m ∧
      vn.type = VNODE_TYPE_DIR ∧ vn.mode = S_IFDIR ||| 0o755 ∧
      vn.flag = vn0.flag ||| VNODE_FLAG_MOUNT_ORIGIN ∧
      hasFlag vn.flag VNODE_FLAG_MOUNT_NEW = hasFlag vn0.flag VNODE_FLAG_MOUNT_NEW :=
  VnodeDevInit_mounts envFour 1 rootOnly devState (by decide)

/-! ## C22: the root change -/

/-- C23 (as stated) fails for a step that creates: at the root of `rootOnly`, the
step for the missing name `x` with `V_CREATE | V_DUMMY` resolves to the new vnode
`1`, which has kind `UNKNOWN` and the device table, and the virtual list has changed
from `[0]` to `[1, 0]`.  And the active list is not ordered by last access: in
`linkState` the step for `a` and then the step for the symbolic link `l` leave the
active list `[1, 2]`, with the link `1`, looked up last, at the head. -/
theorem Step_lists_counterexample :
    Step envFour rootOnly ['/', 'x'] (some 0) (V_CREATE ||| V_DUMMY) =
      some (LOS_OK, some [], some 1,
        { rootOnly with
          heap := [some rootVnode, some { virtualVnode 1 with parent := some 0 }]
          g_vnodeVirtualList := [1, 0]
          g_totalVnodeSize := 2
          pathCache := [{ parentVnode := 0, childVnode := 1, name := ['x'] }] }) ∧
    (virtualVnode 1).type = VNODE_TYPE_UNKNOWN ∧ (virtualVnode 1).vop = some g_devfsOps ∧
    rootOnly.g_vnodeVirtualList = [0] ∧ rootOnly.g_vnodeVirtualList ≠ [1, 0] ∧
    Step envFour linkState ['/', 'a'] (some 0) 0 = some (LOS_OK, some [], some 2, linkState) ∧
    Step envFour linkState ['/', 'l'] (some 0) 0 = some (LOS_OK, some [], some 1, linkState) ∧
    (linkState.vnode 1).map (fun vn => vn.type) = some VNODE_TYPE_LNK ∧
    linkState.g_vnodeActiveList = [1, 2] :=
  ⟨by decide, by decide, by decide, by decide, by decide, by decide, by decide, by decide,
    by decide⟩

/-- C23 (amended): for a walk step in a directory that resolves the name with
`LOS_OK` to a vnode `v` (after mount crossing): if `v` has kind `REG` or `DIR` and
an ops table other than the device table, the step leaves the active list as the
name resolution left it with `v` taken out and put at the tail, so `v` is the last
active vnode, the other active vnodes keep their order, and for `v` on the active
list of a duplicate-free pool the other two lists are as they were; if `v` has
another kind, the device table or no table, `RefreshLRU` changes nothing and the
step ends in the state the name resolution left.  On a path-cache hit that state is
the state before the step. -/
theorem Step_refreshes_LRU (env : Env) (flags : Nat) (s s1 : State) (cd nd : List Char)
    (cur c v len : Nat) (vn wvn : Vnode)
    (hv : s.vnode cur = some vn) (hdir : vn.type = VNODE_TYPE_DIR)
    (hname : NextName cd = some (nd, len))
    (hres : resolveName env s cur nd len flags = some (LOS_OK, some c, s1))
    (hconv : ConvertVnodeIfMounted s1 (some c) = some (some v))
    (hw : s1.vnode v = some wvn) :
    ((wvn.type = VNODE_TYPE_REG ∨ wvn.type = VNODE_TYPE_DIR) →
      ∀ op, wvn.vop = some op → op ≠ g_devfsOps →
      ∃ s2, Step env s cd (some cur) flags = some (LOS_OK, some (nd.drop len), some v, s2) ∧
        s2.g_vnodeActiveList = s1.g_vnodeActiveList.filter (fun w => w != v) ++ [v] ∧
        s2.g_vnodeActiveList.getLast? = some v ∧
        s2.g_vnodeVirtualList = s1.g_vnodeVirtualList.filter (fun w => w != v) ∧
        s2.g_vnodeFreeList = s1.g_vnodeFreeList.filter (fun w => w != v) ∧
        (v ∈ s1.g_vnodeActiveList → (allVnodes s1).Nodup →
          s2.g_vnodeVirtualList = s1.g_vnodeVirtualList ∧
          s2.g_vnodeFreeList = s1.g_vnodeFreeList)) ∧
    (((wvn.type ≠ VNODE_TYPE_REG ∧ wvn.type ≠ VNODE_TYPE_DIR) ∨
        wvn.vop = some g_devfsOps ∨ wvn.vop = none) →
      Step env s cd (some cur) flags = some (LOS_OK, some (nd.drop len), some v, s1)) ∧
    (∀ hit, PathCacheLookup s cur nd len = some hit → s1 = s) := by
  have hstep : Step env s cd (some cur) flags =
      match RefreshLRU s1 (some v) with
      | none => none
      | some s2 => some (LOS_OK, some (nd.drop len), some v, s2) := by
    rw [Step_eq flags hv hdir hname, hres]
    simp only [stepFinish, hconv, if_true]
  refine ⟨?_, ?_, ?_⟩
  · intro hkind op hop hne
    rw [hstep, RefreshLRU_moved hw hkind hop hne]
    refine ⟨_, rfl, rfl, ?_, rfl, rfl, ?_⟩
    · show (s1.g_vnodeActiveList.filter (fun w => w != v) ++ [v]).getLast? = some v
      simp
    · intro hmem hnd
      unfold allVnodes at hnd
      have h1 := List.nodup_append.1 hnd
      have h2 := List.nodup_append.1 h1.1
      have hnv : v ∉ s1.g_vnodeVirtualList :=
        fun hm => h1.2.2 (List.mem_append_right _ hm) hmem
      have hnf : v ∉ s1.g_vnodeFreeList :=
        fun hm => h1.2.2 (List.mem_append_left _ hm) hmem
      exact ⟨filter_ne_of_not_mem hnv, filter_ne_of_not_mem hnf⟩
  · intro hc
    rw [hstep, RefreshLRU_kept hw hc]
  · intro hit hhit
    unfold resolveName at hres
    rw [hhit] at hres
    simp only [Option.some.injEq, Prod.mk.injEq, true_and] at hres
    exact hres.2.symm

theorem Step_refreshes_LRU_witness :
    ∃ s2, Step envFour treeState ['/', 'a'] (some 0) 0 = some (LOS_OK, some [], some 1, s2) ∧
      s2.g_vnodeActiveList = treeState.g_vnodeActiveList.filter (fun w => w != 1) ++ [1] ∧
      s2.g_vnodeActiveList.getLast? = some 1 ∧
      s2.g_vnodeVirtualList = treeState.g_vnodeVirtualList.filter (fun w => w != 1) ∧
      s2.g_vnodeFreeList = treeState.g_vnodeFreeList.filter (fun w => w != 1) ∧
      (1 ∈ treeState.g_vnodeActiveList → (allVnodes treeState).Nodup →
        s2.g_vnodeVirtualList = treeState.g_vnodeVirtualList ∧
        s2.g_vnodeFreeList = treeState.g_vnodeFreeList) :=
  (Step_refreshes_LRU envFour 0 treeState treeState ['/', 'a'] ['a'] 0 1 1 1 rootVnode
    (fileVnode VnodeType.VNODE_TYPE_DIR ['/', 'a'] 1)
    (by decide) (by decide) (by decide) (by decide) (by decide) (by decide)).1
    (Or.inr rfl) 5 rfl (by decide)

/-! ## C24: the segment found by NextName -/

/-- C24 (as stated) fails for a segment of 256 characters or more: for the name of
257 letters `a` the length `NextName` stores is 1, not 257, and `Step` (here at the
root, where the name is missing) leaves the cursor after the first letter, with 256
letters of the segment still ahead, not at the end of the segment. -/
theorem NextName_long_counterexample :
    segmentLength (List.replicate 257 'a') = 257 ∧
    NextName (List.replicate 257 'a') = some (List.replicate 257 'a', 1) ∧
    Step envFour rootOnly (List.replicate 257 'a') (some 0) 0 =
      some (-ENOENT, some (List.replicate 256 'a'), some 0, rootOnly) := by
  have hname : NextName (List.replicate 257 'a') = some (List.replicate 257 'a', 1) :=
    NextName_replicate 256 'a' (by decide)
  refine ⟨segmentLength_replicate 257 'a' (by decide), hname, ?_⟩
  have hroot : rootOnly.vnode 0 = some rootVnode := rfl
  rw [Step_eq 0 hroot rfl hname]
  have hres : resolveName envFour rootOnly 0 (List.replicate 257 'a') 1 0 =
      some (-ENOENT, none, rootOnly) := by
    unfold resolveName
    have hmiss : PathCacheLookup rootOnly 0 (List.replicate 257 'a') 1 = none := rfl
    rw [hmiss]
    exact stepDispatch_devfs _ 1 hroot (by decide) rfl
  rw [hres]
  simp only
  rw [stepFinish_failed rootOnly 0 _ 1 (by decide)]
  rfl

/-- C24 (amended): `NextName` returns no segment iff the string is empty or all
slashes; otherwise it returns the first character that is not a slash, which starts
the suffix left after the leading slashes, and as length the number of characters
up to the next slash or the end, reduced modulo 256 (the length is a `uint8_t`),
which is that number itself for segments shorter than 256 characters.  `Step`
advances the cursor by the returned length, that is to the first character after
the segment when the segment is shorter than 256 characters. -/
theorem NextName_spec (s : List Char) :
    (NextName s = none ↔ ∀ c ∈ s, c = '/') ∧
    (∀ nd len, NextName s = some (nd, len) →
      (∃ k, s = slashes k ++ nd) ∧ (∃ c rest, nd = c :: rest ∧ c ≠ '/') ∧
      len = (nd.takeWhile (fun c => c != '/')).length % 256 ∧
      ((nd.takeWhile (fun c => c != '/')).length < 256 →
        len = (nd.takeWhile (fun c => c != '/')).length ∧
        nd.drop len = nd.dropWhile (fun c => c != '/')) ∧
      ∀ (env : Env) (st st1 : State) (cur : Nat) (vn : Vnode) (flags : Nat) (ret : Int)
        (cursor : Option (List Char)) (v : Option Nat),
        st.vnode cur = some vn → vn.type = VNODE_TYPE_DIR →
        Step env st s (some cur) flags = some (ret, cursor, v, st1) →
        cursor = some (nd.drop len)) := by
  constructor
  · rw [← skipSlashes_eq_nil_iff]
    unfold NextName
    cases skipSlashes s with
    | nil => simp
    | cons c rest => simp
  · intro nd len h
    obtain ⟨k, hk, hhead⟩ := skipSlashes_decomp s
    have hsk : skipSlashes s = nd ∧ segmentLength nd % 256 = len := by
      unfold NextName at h
      cases hs : skipSlashes s with
      | nil => rw [hs] at h; cases h
      | cons c rest =>
        rw [hs] at h
        simp only [Option.some.injEq, Prod.mk.injEq] at h
        exact ⟨h.1, by rw [← h.1]; exact h.2⟩
    obtain ⟨hnd, hlen⟩ := hsk
    rw [hnd] at hk hhead
    have hne : ∃ c rest, nd = c :: rest ∧ c ≠ '/' := by
      cases hnd2 : nd with
      | nil =>
        rw [hnd2] at hnd
        unfold NextName at h
        rw [hnd] at h
        cases h
      | cons c rest => exact ⟨c, rest, rfl, hhead c rest hnd2⟩
    refine ⟨⟨k, hk⟩, hne, ?_, ?_, ?_⟩
    · rw [← hlen, segmentLength_eq_takeWhile]
    · intro hlt
      have e : len = (nd.takeWhile (fun c => c != '/')).length := by
        rw [← hlen, segmentLength_eq_takeWhile, Nat.mod_eq_of_lt hlt]
      refine ⟨e, ?_⟩
      rw [e, ← segmentLength_eq_takeWhile, drop_segmentLength]
    · intro env st st1 cur vn flags ret cursor v hv hdir hstep
      rw [Step_eq flags hv hdir h] at hstep
      cases hr : resolveName env st cur nd len flags with
      | none => rw [hr] at hstep; cases hstep
      | some q =>
        obtain ⟨r1, nv, s1⟩ := q
        rw [hr] at hstep
        simp only [stepFinish] at hstep
        split at hstep
        · cases hstep
        · split at hstep
          · cases hstep
          · simp only [Option.some.injEq, Prod.mk.injEq] at hstep
            exact hstep.2.1.symm

theorem NextName_spec_witness :
    (∃ k, ['/', '/', 'a', 'b', '/', 'c'] = slashes k ++ ['a', 'b', '/', 'c']) ∧
    2 = ((['a', 'b', '/', 'c'] : List Char).takeWhile (fun c => c != '/')).length % 256 ∧
    (['a', 'b', '/', 'c'] : List Char).drop 2 =
      (['a', 'b', '/', 'c'] : List Char).dropWhile (fun c => c != '/') :=
  have h := (NextName_spec ['/', '/', 'a', 'b', '/', 'c']).2 ['a', 'b', '/', 'c'] 2 (by decide)
  ⟨h.1, h.2.2.1, (h.2.2.2.1 (by decide)).2⟩

/-! ## C25: creation at a component that is not the last -/

/-- C25 (as stated) fails: on `rootOnly`, `VnodeLookup("/x/y", V_CREATE | V_DUMMY)`,
where the non-final component `x` is missing, fails with `-ENOTDIR` and has
allocated the vnode `1` for `x`: the virtual list, `g_totalVnodeSize` and the path
cache have changed. -/
theorem VnodeLookup_nonfinal_counterexample :
    VnodeLookup envFour 2 rootOnly ['/', 'x', '/', 'y'] none (V_CREATE ||| V_DUMMY) =
      some (-ENOTDIR, none,
        { rootOnly with
          heap := [some rootVnode,
            some { virtualVnode 1 with parent := some 0, filePath := some ['/', 'x'] }]
          g_vnodeVirtualList := [1, 0]
          g_totalVnodeSize := 2
          pathCache := [{ parentVnode := 0, childVnode := 1, name := ['x'] }] }) ∧
    rootOnly.g_vnodeVirtualList = [0] ∧ rootOnly.g_totalVnodeSize = 1 ∧
    rootOnly.pathCache = [] := by
  decide

/-- C25 (amended): a lookup with `V_CREATE | V_DUMMY` creates a synthetic vnode for
the first component that is missing from the path cache, also when it is not the
last one.  When the walk stands in the directory `d`, the next component is missing
under `d` and more of the path follows it, then on a pool with a free slot or room
for a fresh one the step allocates a vnode `v` that was on neither the virtual nor
the active list, and in the state `sP` it leaves `v` is on the virtual list with
kind `UNKNOWN`, the device table, `parent = d` and no path, and the path cache maps
the component under `d` to `v`.  The lookup then fails with the caller's result
untouched: with `-EACCES` in the state `sP` when the permission check denies the
search of `v`; else with `-ENOMEM` in the state `sP` when the path memo of `v` cannot
be allocated; else, the path memo stored, with `-ENOTDIR` because `v` is not a
directory (`-EACCES` when the check denies now). -/
theorem VnodeLookupAt_create_nonfinal (env : Env) (flags k : Nat) (s s1 : State)
    (path np cd nd : List Char) (org : Option Nat) (r d len : Nat) (dvn : Vnode)
    (result : Option Nat)
    (hstart : WalkStart env s path org np r) (hnp : np ≠ ['/'])
    (hwalk : walkSteps env flags np k s np r = some (s1, cd, d))
    (hd : s1.vnode d = some dvn) (hdir : dvn.type = VNODE_TYPE_DIR)
    (hname : NextName cd = some (nd, len)) (hmore : nd.drop len ≠ [])
    (hmiss : PathCacheLookup s1 d nd len = none)
    (hdummy : hasFlag flags V_DUMMY = true) (hcreate : hasFlag flags V_CREATE = true)
    (hi : PoolInv env s1) (hw : FreeWiped s1)
    (hroom : s1.g_vnodeFreeList ≠ [] ∨
      (s1.g_totalVnodeSize < (env.LOSCFG_MAX_VNODE_SIZE : Int) ∧
        env.zallocOk (pinned s1 d dvn) = true)) :
    ∃ v sP vn,
      v ∉ s1.g_vnodeVirtualList ∧ v ∉ s1.g_vnodeActiveList ∧
      (s1.vnode v = none ∨ s1.vnode v = some zeroVnode) ∧
      sP.vnode v = some vn ∧ vn.type = VNODE_TYPE_UNKNOWN ∧ vn.vop = some g_devfsOps ∧
      vn.parent = some d ∧ vn.filePath = none ∧ v ∈ sP.g_vnodeVirtualList ∧
      PathCacheLookup sP d nd len = some v ∧
      VnodeLookupAt env (k + 2) s path result flags org =
        some (
          if env.VfsVnodePermissionCheck sP (some v) = true then (-EACCES, result, sP)
          else if env.mallocOk sP = true then
            (if env.VfsVnodePermissionCheck
                (sP.setVnode v
                  { vn with filePath := some (np.take (np.length - (nd.drop len).length)) })
                (some v) = true then -EACCES else -ENOTDIR,
              result,
              sP.setVnode v
                { vn with filePath := some (np.take (np.length - (nd.drop len).length)) })
          else (-ENOMEM, result, sP)) := by
  rw [VnodeLookupAt_walk hstart hnp hwalk (NextName_ne_nil hname) 2 result]
  obtain ⟨v, sP, hres, -, hnv, hna, hold, hvP, hvirt, hpc, hfin⟩ :=
    resolveName_create nd len hd hdir hmiss hdummy hcreate hi hw hroom
  have hstep : Step env s1 cd (some d) flags = some (LOS_OK, some (nd.drop len), some v, sP) := by
    rw [Step_eq flags hd hdir hname, hres]
    exact hfin
  have hnone : ({ virtualVnode v with parent := some d } : Vnode).filePath = none := rfl
  refine ⟨v, sP, _, hnv, hna, hold, hvP, ?_, ?_, ?_, hnone, hvirt, hpc, ?_⟩
  · simp [virtualVnode, zeroVnode]
  · simp [virtualVnode, zeroVnode]
  · simp [virtualVnode, zeroVnode]
  · cases hperm : env.VfsVnodePermissionCheck sP (some v) with
    | true =>
      rw [lookupLoop_denied result LOS_OK (NextName_ne_nil hname) hstep hmore hperm]
      simp
    | false =>
      cases hmal : env.mallocOk sP with
      | false =>
        rw [lookupLoop_nomem result LOS_OK (NextName_ne_nil hname) hstep hmore hperm hvP hnone
          hmal]
        simp
      | true =>
        have hcont := @lookupLoop_continue env flags np 1 s1 cd (some d) result LOS_OK
          (nd.drop len) v sP _ (NextName_ne_nil hname) hstep hmore hperm hvP (fun _ => hmal)
        rw [hcont]
        have hmemo : memoPath sP v (np.take (np.length - (nd.drop len).length)) =
            sP.setVnode v { ({ virtualVnode v with parent := some d } : Vnode) with
              filePath := some (np.take (np.length - (nd.drop len).length)) } := by
          unfold memoPath
          rw [hvP]
          exact if_pos rfl
        rw [hmemo]
        have hv3 := @vnode_setVnode_same sP v
          { ({ virtualVnode v with parent := some d } : Vnode) with
            filePath := some (np.take (np.length - (nd.drop len).length)) }
          (vnode_lt_length hvP)
        have hnd3 : ({ ({ virtualVnode v with parent := some d } : Vnode) with
            filePath := some (np.take (np.length - (nd.drop len).length)) } : Vnode).type ≠
            VNODE_TYPE_DIR := by
          simp [virtualVnode, zeroVnode]
        have hstep2 := @Step_notdir env _ (nd.drop len) v _ flags hv3 hnd3
        rw [lookupLoop_fail_more result LOS_OK hmore hstep2 hmore (by decide)]
        simp

theorem VnodeLookupAt_create_nonfinal_witness :
    ∃ v sP vn,
      v ∉ rootOnly.g_vnodeVirtualList ∧ v ∉ rootOnly.g_vnodeActiveList ∧
      (rootOnly.vnode v = none ∨ rootOnly.vnode v = some zeroVnode) ∧
      sP.vnode v = some vn ∧ vn.type = VNODE_TYPE_UNKNOWN ∧ vn.vop = some g_devfsOps ∧
      vn.parent = some 0 ∧ vn.filePath = none ∧ v ∈ sP.g_vnodeVirtualList ∧
      PathCacheLookup sP 0 ['x', '/', 'y'] 1 = some v ∧
      VnodeLookupAt envFour (0 + 2) rootOnly ['/', 'x', '/', 'y'] none (V_CREATE ||| V_DUMMY)
          none =
        some (
          if envFour.VfsVnodePermissionCheck sP (some v) = true then (-EACCES, none, sP)
          else if envFour.mallocOk sP = true then
            (if envFour.VfsVnodePermissionCheck
                (sP.setVnode v
                  { vn with filePath := some ((['/', 'x', '/', 'y'] : List Char).take
                      ((['/', 'x', '/', 'y'] : List Char).length -
                        ((['x', '/', 'y'] : List Char).drop 1).length)) })
                (some v) = true then -EACCES else -ENOTDIR,
              none,
              sP.setVnode v
                { vn with filePath := some ((['/', 'x', '/', 'y'] : List Char).take
                    ((['/', 'x', '/', 'y'] : List Char).length -
                      ((['x', '/', 'y'] : List Char).drop 1).length)) })
          else (-ENOMEM, none, sP)) :=
  VnodeLookupAt_create_nonfinal envFour (V_CREATE ||| V_DUMMY) 0 rootOnly rootOnly
    ['/', 'x', '/', 'y'] ['/', 'x', '/', 'y'] ['/', 'x', '/', 'y'] ['x', '/', 'y'] none 0 0 1
    rootVnode none (Or.inr ⟨rfl, rfl, rfl⟩) (by decide) (by decide) (by decide) (by decide)
    (by decide) (by decide) (by decide) (by decide) (by decide)
    wf_rootOnly.1 wf_rootOnly.2
    (Or.inr ⟨by decide, rfl⟩)

/-! ## C26: the path memo of a failed lookup -/

/-- C26 (as stated) fails for a component followed by a slash: from the root of
`pathlessRoot`, a directory without `filePath`, the single-component path `"none"`
(missing) gives `-ENOENT` with the root as result and `"none"` stored as its path,
but the single-component path `"none/"` gives `-ENOENT` with the caller's result
(`NULL` here) untouched and the path of the root still NULL. -/
theorem VnodeLookupAt_failed_memo_counterexample :
    (pathlessRoot.vnode 0).map (fun vn => (vn.type, vn.filePath)) =
      some (VNODE_TYPE_DIR, none) ∧
    PathCacheLookup pathlessRoot 0 ['n', 'o', 'n', 'e', '/'] 4 = none ∧
    (VnodeLookupAt envFour 1 pathlessRoot ['n', 'o', 'n', 'e'] none 0 (some 0)).map
      (fun r => (r.1, r.2.1, (r.2.2.vnode 0).map (fun vn => vn.filePath))) =
        some (-ENOENT, some 0, some (some ['n', 'o', 'n', 'e'])) ∧
    VnodeLookupAt envFour 1 pathlessRoot ['n', 'o', 'n', 'e', '/'] none 0 (some 0) =
      some (-ENOENT, none, pathlessRoot) := by
  decide

/-- C26 (amended): a walk from a directory start vnode `d` of a single-component path
`p` whose name is missing (path-cache miss, `Lookup` reporting `-ENOENT` and leaving
the path of `d` alone, as the device `Lookup` does), with flags lacking `V_DUMMY`:
if nothing follows the component (its length fits the `uint8_t` and no `/` trails
it), the walk returns `-ENOENT` with result `d`, and afterwards the `filePath` of `d`
is the whole path `p` if it was NULL before, and is unchanged if it was not NULL; if
something follows the component, the walk returns `-ENOENT` (`-EACCES` when the
permission check on `d` denies) with the caller's result untouched and the `filePath`
of `d` as it was. -/
theorem VnodeLookupAt_failed_memo (env : Env) (flags : Nat) (s : State) (p nd : List Char)
    (d len : Nat) (dvn : Vnode) (result : Option Nat)
    (hd : s.vnode d = some dvn) (hdir : dvn.type = VNODE_TYPE_DIR)
    (hname : NextName p = some (nd, len))
    (hmiss : PathCacheLookup s d nd len = none)
    (hdummy : hasFlag flags V_DUMMY = false)
    (hdrv : dvn.vop = some g_devfsOps ∨
      (LookupNoEntry env s d dvn nd len ∧ LookupKeepsPath env s d dvn nd len)) :
    (nd.drop len = [] →
      ∃ s3 vn3, VnodeLookupAt env 1 s p result flags (some d) = some (-ENOENT, some d, s3) ∧
        s3.vnode d = some vn3 ∧
        (dvn.filePath = none → vn3.filePath = some p) ∧
        (∀ fp, dvn.filePath = some fp → vn3.filePath = some fp)) ∧
    (nd.drop len ≠ [] →
      ∃ s3 vn3, VnodeLookupAt env 1 s p result flags (some d) =
          some (if env.VfsVnodePermissionCheck s3 (some d) = true then -EACCES else -ENOENT,
            result, s3) ∧
        s3.vnode d = some vn3 ∧ vn3.filePath = dvn.filePath) := by
  have hstart : WalkStart env s p (some d) p d := Or.inl ⟨rfl, rfl⟩
  have hwalk : walkSteps env flags p 0 s p d = some (s, p, d) := rfl
  have hw := VnodeLookupAt_walk hstart (NextName_ne_root hname) hwalk (NextName_ne_nil hname)
    1 result
  rw [Nat.zero_add] at hw
  rw [hw]
  have hne : (-ENOENT : Int) ≠ LOS_OK := by decide
  have key : ∃ s2 vn2, resolveName env s d nd len flags = some (-ENOENT, none, s2) ∧
      s2.vnode d = some vn2 ∧ vn2.filePath = dvn.filePath := by
    unfold resolveName
    rw [hmiss]
    simp only
    rcases hdrv with hdev | ⟨⟨op, f, hop, hf, h1, h2, h3⟩, hkeep⟩
    · exact ⟨s, dvn, stepDispatch_devfs nd len hd hdummy hdev, hd, rfl⟩
    · rw [stepDispatch_lookup nd len hd hdummy hop hf]
      cases hv2 : (f (pinned s d dvn) d nd len).2.2.vnode d with
      | none => rw [hv2] at h3; cases h3
      | some vn2 =>
        simp only [h1, h2, if_neg hne]
        exact ⟨_, _, rfl, vnode_setVnode_same _ (vnode_lt_length hv2),
          hkeep op f hop hf vn2 hv2⟩
  obtain ⟨s2, vn2, hres, hv2, hfp⟩ := key
  constructor
  · intro hlast
    refine ⟨memoPath s2 d p, _,
      lookupLoop_last hd hdir hname hres (stepFinish_failed s2 d nd len hne) hv2 hlast
        0 p result LOS_OK, vnode_memoPath_same p hv2, ?_, ?_⟩
    · intro hnone
      rw [if_pos (by rw [hfp]; exact hnone)]
    · intro fp hsome
      have : vn2.filePath ≠ none := by rw [hfp, hsome]; simp
      rw [if_neg this, hfp]
      exact hsome
  · intro hmore
    have hs : Step env s p (some d) flags = some (-ENOENT, some (nd.drop len), some d, s2) := by
      rw [Step_eq flags hd hdir hname, hres]
      exact stepFinish_failed s2 d nd len hne
    exact ⟨s2, vn2, lookupLoop_fail_more result LOS_OK (NextName_ne_nil hname) hs hmore hne,
      hv2, hfp⟩

theorem VnodeLookupAt_failed_memo_witness :
    (∃ s3 vn3,
      VnodeLookupAt envFour 1 pathlessRoot ['n', 'o', 'n', 'e'] none 0 (some 0) =
        some (-ENOENT, some 0, s3) ∧
      s3.vnode 0 = some vn3 ∧
      (({ rootVnode with filePath := none } : Vnode).filePath = none →
        vn3.filePath = some ['n', 'o', 'n', 'e']) ∧
      (∀ fp, ({ rootVnode with filePath := none } : Vnode).filePath = some fp →
        vn3.filePath = some fp)) ∧
    (∃ s3 vn3,
      VnodeLookupAt envFour 1 pathlessRoot ['n', 'o', 'n', 'e', '/'] none 0 (some 0) =
        some (if envFour.VfsVnodePermissionCheck s3 (some 0) = true then -EACCES else -ENOENT,
          none, s3) ∧
      s3.vnode 0 = some vn3 ∧
      vn3.filePath = ({ rootVnode with filePath := none } : Vnode).filePath) :=
  ⟨(VnodeLookupAt_failed_memo envFour 0 pathlessRoot ['n', 'o', 'n', 'e'] ['n', 'o', 'n', 'e']
      0 4 { rootVnode with filePath := none } none (by decide) (by decide) (by decide)
      (by decide) (by decide) (Or.inl rfl)).1 (by decide),
    (VnodeLookupAt_failed_memo envFour 0 pathlessRoot ['n', 'o', 'n', 'e', '/']
      ['n', 'o', 'n', 'e', '/'] 0 4 { rootVnode with filePath := none } none (by decide)
      (by decide) (by decide) (by decide) (by decide) (Or.inl rfl)).2 (by decide)⟩

end Vfs
